import Mathlib

/-!
# The job-run spool of `pkg/jobmon` (`spool.go`)

A shallow embedding of `SpoolManager` and of the helpers it is built from.

* The spool directory is a list of `(file name, content)` pairs, the names taken
  relative to `dirPath` (which is assumed free of glob metacharacters).  The
  operations never need the names to be distinct; `Dir.WF` says that they are.
* A Go `string` holding a job ID is the list of its bytes; file names and
  uniqIDs are Lean strings.
* `JobRun.StartedAt` is kept as the epoch second `time.Time(t).Unix()`.
* Every call that may fail for a reason outside the directory (lock, stat,
  glob, remove, rename, open, encode) takes its outcome from `Faults`.
-/

namespace Jobmon

/-! ## Constants -/

def markerRunning : String := "0"
def markerFinished : String := "1"
def spoolDirPermissions : Nat := 6777
def spoolEntryPermissions : Nat := 0o666
def jsonExtension : String := "json"

/-! ## Errors -/

/-- A Go `error` value: the package-level sentinel, an error handed up by the
operating system or a library, or `errors.Wrapf cause msg`. -/
inductive Error where
  | ErrJobAlreadyRunning : Error
  | sys (msg : String) : Error
  | wrap (cause : Error) (msg : String) : Error
deriving DecidableEq, Repr

/-- The text of `err.Error()`. -/
def Error.text : Error → String
  | .ErrJobAlreadyRunning => "A job with same ID is already running"
  | .sys msg => msg
  | .wrap cause msg => msg ++ ": " ++ cause.text

/-! ## Job runs -/

/-- One byte of a Go string. -/
abbrev Byte := Fin 256

/-- Modelled from the spec: the `JobRun` record, whose Go declaration (and its
`AddError` method) is not part of the sources at hand.  `ID` is the logical job
identifier, `StartedAt` the start time in epoch seconds, `Errors` the ordered
diagnostics and `Result` the caller-owned fields, opaque to the spool. -/
structure JobRun where
  ID : List Byte
  StartedAt : Int
  Errors : List String
  Result : String
deriving DecidableEq, Repr

/-- Modelled from the spec: `AddError` appends one diagnostic to `Errors`. -/
def JobRun.AddError (r : JobRun) (msg : String) : JobRun :=
  { r with Errors := r.Errors ++ [msg] }

/-- The JSON encoding of a `JobRun` (`json.Encoder.Encode`, `json.Decoder.Decode`),
which depends on the missing declaration of `JobRun` and is taken as a parameter. -/
structure JobRunJSON where
  encode : JobRun → String
  decode : String → Except Error JobRun

/-! ## ID codec -/

/-- The table `hextable` of `encoding/hex`. -/
def hextable : List Char :=
  ['0', '1', '2', '3', '4', '5', '6', '7', '8', '9', 'a', 'b', 'c', 'd', 'e', 'f']

/-- The hex digit of a nibble. -/
def hexDigit (n : Nat) : Char := hextable.getD n '0'

/-- The characters of `hex.EncodeToString`: two digits per byte, high nibble first. -/
def hexChars : List Byte → List Char
  | [] => []
  | v :: rest => hexDigit (v.val / 16) :: hexDigit (v.val % 16) :: hexChars rest

/-- The function `hex.EncodeToString`. -/
def hexEncodeToString (src : List Byte) : String := String.mk (hexChars src)

/-- The function `fromHexChar` of `encoding/hex`: the value of a hex digit. -/
def fromHexChar (c : Char) : Option Nat :=
  if '0'.toNat ≤ c.toNat ∧ c.toNat ≤ '9'.toNat then some (c.toNat - '0'.toNat)
  else if 'a'.toNat ≤ c.toNat ∧ c.toNat ≤ 'f'.toNat then some (c.toNat - 'a'.toNat + 10)
  else if 'A'.toNat ≤ c.toNat ∧ c.toNat ≤ 'F'.toNat then some (c.toNat - 'A'.toNat + 10)
  else none

/-- The bytes that `hex.DecodeString` reads from hex digits: `none` for an odd length or
a character that is no hex digit. -/
def hexDecodeChars : List Char → Option (List Byte)
  | [] => some []
  | [_] => none
  | a :: b :: rest =>
    match fromHexChar a, fromHexChar b, hexDecodeChars rest with
    | some x, some y, some bytes => some (Fin.ofNat (x * 16 + y) :: bytes)
    | _, _, _ => none

/-- The function `hex.DecodeString`. -/
def hexDecodeString (s : String) : Option (List Byte) := hexDecodeChars s.data

/-- The function `encodeJobID`: the hex-encoded bytes of the job ID. -/
def encodeJobID (id : List Byte) : String := hexEncodeToString id

/-- The function `strconv.FormatInt(n, 10)`. -/
def formatInt (n : Int) : String :=
  match n with
  | Int.ofNat m => Nat.repr m
  | Int.negSucc m => "-" ++ Nat.repr (m + 1)

/-- The number a run of decimal digits stands for. -/
def parseDigits (cs : List Char) : Nat :=
  cs.foldl (fun acc c => acc * 10 + (c.toNat - '0'.toNat)) 0

/-- The parts `strings.Split` cuts a string into at a separator character. -/
def splitChars (sep : Char) : List Char → List (List Char)
  | [] => [[]]
  | c :: rest =>
    if c = sep then [] :: splitChars sep rest
    else
      match splitChars sep rest with
      | [] => [[c]]
      | first :: more => (c :: first) :: more

/-- The function `getUniqJobRunID`. -/
def getUniqJobRunID (jobID : List Byte) (isJobFinished : Bool) (jobStartedAt : Int) : String :=
  let marker := if isJobFinished then markerFinished else markerRunning
  let parts := [marker, formatInt jobStartedAt, encodeJobID jobID]
  "_".intercalate parts

/-- The method `getFilePath`, relative to `dirPath`. -/
def getFilePath (id : String) : String := id ++ "." ++ jsonExtension

/-- The bytes of an ASCII string literal, for writing job IDs down. -/
def asciiBytes (s : String) : List Byte := s.data.map (fun c => Fin.ofNat c.toNat)

/-! ## The spool directory -/

/-- The spool directory: its files as `(name, content)` pairs. -/
abbrev Dir := List (String × String)

/-- The names present in the directory. -/
def Dir.names (d : Dir) : List String := d.map Prod.fst

/-- A directory in which no name occurs twice. -/
def Dir.WF (d : Dir) : Prop := d.names.Nodup

/-- The content of the file `path`, if it exists. -/
def Dir.read (d : Dir) (path : String) : Option String :=
  (d.find? (fun e => e.1 == path)).map Prod.snd

/-- The directory without the file `path`. -/
def Dir.remove (d : Dir) (path : String) : Dir := d.filter (fun e => e.1 != path)

/-- The directory after `path` was created or truncated and `content` written to it. -/
def Dir.write (d : Dir) (path content : String) : Dir := d.remove path ++ [(path, content)]

/-- The call `os.Rename(oldpath, newpath)`: fails when `oldpath` does not exist,
otherwise moves the file, replacing `newpath` when that exists. -/
def Dir.rename (d : Dir) (oldpath newpath : String) : Option Dir :=
  match d.read oldpath with
  | none => none
  | some content => some ((d.remove oldpath).write newpath content)

/-! ## Glob patterns -/

/-- The part of `filepath.Match` for a `*`: it stands for any run of characters
other than the path separator, after which `rest` has to match. -/
def matchStar (rest : List Char → Bool) : List Char → Bool
  | [] => rest []
  | c :: s => rest (c :: s) || (c != '/' && matchStar rest s)

/-- The function `filepath.Match` on patterns made of literal characters and `*`,
the only ones the spool builds. -/
def matchChars : List Char → List Char → Bool
  | [], s => s.isEmpty
  | c :: p, s =>
    if c = '*' then matchStar (matchChars p) s
    else match s with
      | [] => false
      | x :: s' => x == c && matchChars p s'

/-- Whether the file name matches the pattern. -/
def filepathMatch (pattern name : String) : Bool := matchChars pattern.data name.data

/-- The order of `sort.Strings`. -/
def nameLE (a b : String) : Prop := a.data ≤ b.data

instance : DecidableRel nameLE := fun a b => inferInstanceAs (Decidable (a.data ≤ b.data))

/-- The names that `filepath.Glob` finds in the directory: those matching the
pattern, sorted. -/
def globNames (d : Dir) (pattern : String) : List String :=
  (d.names.filter (filepathMatch pattern)).insertionSort nameLE

/-! ## Outcomes of the calls that leave the model -/

/-- What `os.Stat` and `os.MkdirAll` answer inside `ensureSpoolDirExists`. -/
inductive DirCheck where
  /-- The directory is there. -/
  | present : DirCheck
  /-- The directory was missing and `os.MkdirAll` made it. -/
  | created : DirCheck
  /-- The directory was missing and `os.MkdirAll` failed. -/
  | mkdirFailed (msg : String) : DirCheck
  /-- The call `os.Stat` failed with an error other than not-exist. -/
  | statFailed (msg : String) : DirCheck
deriving DecidableEq, Repr

/-- What `GetOwner` answers about a lock file. -/
inductive LockOwner where
  /-- No error and no process. -/
  | unknown : LockOwner
  /-- The process holding the lock. -/
  | process (pid : Nat) : LockOwner
  /-- The call `GetOwner` failed. -/
  | failed (msg : String) : LockOwner
deriving DecidableEq, Repr

/-- What the environment answers to the calls whose outcome the directory does
not determine: `none` is success, `some msg` an error with that text.  Such an
error is never the sentinel `ErrJobAlreadyRunning`. -/
structure Faults where
  /-- The directory check inside `getLock`. -/
  ensureDirLock : DirCheck
  /-- The error of `lockfile.New` for a lock file. -/
  lockNew : String → Option String
  /-- The error of the n-th `TryLock` (counted from 0) on a lock file. -/
  tryLock : String → Nat → Option String
  /-- The error of `filepath.Glob`. -/
  glob : Option String
  /-- An error of `os.Remove` other than not-exist for a path. -/
  remove : String → Option String
  /-- An error of `os.Rename` other than a missing source. -/
  rename : Option String
  /-- The directory check inside `saveJobRun`. -/
  ensureDirSave : DirCheck
  /-- The error of `os.OpenFile` for a path. -/
  openFile : String → Option String
  /-- The error of `Encode`, after what it left in the truncated file. -/
  encode : Option (String × String)
  /-- The answer of `GetOwner` after the n-th `TryLock` (counted from 0) on a lock file. -/
  getOwner : String → Nat → LockOwner
  /-- The error of `Unlock` for a lock file. -/
  unlock : String → Option String
  /-- An error of `os.Open` for an existing file. -/
  openRead : String → Option String
  /-- An error of reading the opened file inside `Decode`. -/
  decodeRead : String → Option String

/-- The environment in which nothing fails. -/
def noFaults : Faults where
  ensureDirLock := .present
  lockNew := fun _ => none
  tryLock := fun _ _ => none
  glob := none
  remove := fun _ => none
  rename := none
  ensureDirSave := .present
  openFile := fun _ => none
  encode := none
  getOwner := fun _ _ => .unknown
  unlock := fun _ => none
  openRead := fun _ => none
  decodeRead := fun _ => none

/-! ## Directory bootstrap -/

/-- The method `ensureSpoolDirExists`. -/
def ensureSpoolDirExists (check : DirCheck) : Option Error :=
  match check with
  | .present => none
  | .created => none
  | .mkdirFailed msg => some (.wrap (.sys msg)
      "could not create spool dir. Please check you have enough rights or try create the dir manually")
  | .statFailed msg => some (.wrap (.sys msg) "while checking spool dir exists")

/-! ## Lock coordinator -/

def retryLimit : Nat := 20

/-- The name of the lock file of a job ID, relative to `dirPath`. -/
def lockFileName (jobID : List Byte) : String := "job_" ++ encodeJobID jobID ++ ".lock"

/-- The retry loop of `getLock`, entered with `retry` failed attempts behind it:
`none` when the lock was acquired, otherwise the error of the last attempt.
`fuel` bounds the iterations; the loop leaves through `retry >= retryLimit`
before `fuel` is used up whenever `retryLimit - retry ≤ fuel`. -/
def getLockLoop (tryLock : Nat → Option String) : (fuel retry : Nat) → Option Error
  | 0, _ => some (.sys "retry loop out of fuel")
  | fuel + 1, retry =>
    match tryLock retry with
    | none => none
    | some err =>
      if retry + 1 ≥ retryLimit then some (.sys err)
      else getLockLoop tryLock fuel (retry + 1)

/-- The method `getLock`: `none` when the lock is held on return. -/
def getLock (fl : Faults) (jobID : List Byte) : Option Error :=
  match ensureSpoolDirExists fl.ensureDirLock with
  | some err => some err
  | none =>
    match fl.lockNew (lockFileName jobID) with
    | some err => some (.sys err)
    | none => getLockLoop (fl.tryLock (lockFileName jobID)) retryLimit 0

/-! ## Persistence layer -/

/-- The function `removeFile`: a missing file is not an error. -/
def removeFile (fl : Faults) (d : Dir) (path : String) : Dir × Option Error :=
  match fl.remove path with
  | some err => (d, some (.wrap (.sys err) ("while removing " ++ path)))
  | none => (d.remove path, none)

/-- The function `removeFiles`: stops at the first error. -/
def removeFiles (fl : Faults) (d : Dir) : List String → Dir × Option Error
  | [] => (d, none)
  | f :: rest =>
    match removeFile fl d f with
    | (d', some err) => (d', some err)
    | (d', none) => removeFiles fl d' rest

/-- The method `saveJobRun`: truncate the file and encode the run into it. -/
def saveJobRun (js : JobRunJSON) (fl : Faults) (d : Dir) (filePath : String) (r : JobRun) :
    Dir × Option Error :=
  match ensureSpoolDirExists fl.ensureDirSave with
  | some err => (d, some err)
  | none =>
    match fl.openFile filePath with
    | some err => (d, some (.wrap (.sys err) ("can not open file for writing: " ++ filePath)))
    | none =>
      match fl.encode with
      | some (left, err) =>
        (d.write filePath left,
          some (.wrap (.sys err) ("while encoding spool entry to " ++ filePath)))
      | none => (d.write filePath (js.encode r), none)

/-- The method `readEntryFile`: `os.Open` fails on a missing file and may fail on
an existing one; `Decode` fails when the file cannot be read or its content does
not decode. -/
def readEntryFile (js : JobRunJSON) (fl : Faults) (d : Dir) (path : String) :
    Except Error JobRun :=
  match d.read path with
  | none => .error (.wrap (.sys "no such file or directory") ("while opening file " ++ path))
  | some content =>
    match fl.openRead path with
    | some err => .error (.wrap (.sys err) ("while opening file " ++ path))
    | none =>
      match fl.decodeRead path with
      | some err => .error (.wrap (.sys err) ("while decoding file " ++ path))
      | none =>
        match js.decode content with
        | .error err => .error (.wrap err ("while decoding file " ++ path))
        | .ok j => .ok j

/-- The pattern of `findDuplicateRuns`, relative to `dirPath`. -/
def duplicateRunsPattern (jobID : List Byte) : String :=
  markerRunning ++ "_*_" ++ encodeJobID jobID ++ "." ++ jsonExtension

/-- The method `findDuplicateRuns`: the running entries of a job ID. -/
def findDuplicateRuns (fl : Faults) (d : Dir) (jobID : List Byte) : Except Error (List String) :=
  match fl.glob with
  | some err =>
    .error (.wrap (.sys err) ("job failed while searching " ++ duplicateRunsPattern jobID))
  | none => .ok (globNames d (duplicateRunsPattern jobID))

/-! ## Spool manager -/

/-- What `NewJob` leaves behind: the directory, the run it was handed (which it
may have added an error to) and its two results. -/
structure NewJobResult where
  dir : Dir
  run : JobRun
  uniqID : String
  err : Option Error

/-- The call persisted the run: it returned no error, or only the duplicate-run signal. -/
def NewJobResult.succeeded (res : NewJobResult) : Prop :=
  res.err = none ∨ res.err = some .ErrJobAlreadyRunning

instance (res : NewJobResult) : Decidable res.succeeded :=
  inferInstanceAs (Decidable (_ ∨ _))

/-- The method `NewJob`. -/
def NewJob (js : JobRunJSON) (fl : Faults) (d : Dir) (r : JobRun) (forcedRun : Bool) :
    NewJobResult :=
  match getLock fl r.ID with
  | some err => ⟨d, r, "", some err⟩
  | none =>
    match findDuplicateRuns fl d r.ID with
    | .error err => ⟨d, r, "", some err⟩
    | .ok duplicateRunEntries =>
      let alreadyRunning := decide (duplicateRunEntries.length > 0)
      let r := if !forcedRun && alreadyRunning then r.AddError Error.ErrJobAlreadyRunning.text else r
      let removed := if forcedRun then removeFiles fl d duplicateRunEntries else (d, none)
      match removed with
      | (d, some err) => ⟨d, r, "", some err⟩
      | (d, none) =>
        let uniqID := getUniqJobRunID r.ID alreadyRunning r.StartedAt
        let filePath := getFilePath uniqID
        match saveJobRun js fl d filePath r with
        | (d, some err) => ⟨d, r, "", some err⟩
        | (d, none) =>
          ⟨d, r, uniqID, if !forcedRun && alreadyRunning then some .ErrJobAlreadyRunning else none⟩

/-- The method `FinishJob`: the directory it leaves and the error it returns. -/
def FinishJob (js : JobRunJSON) (fl : Faults) (d : Dir) (uniqID : String) (r : JobRun) :
    Dir × Option Error :=
  match getLock fl r.ID with
  | some err => (d, some err)
  | none =>
    let filePath := getFilePath uniqID
    let newFilePath := getFilePath (getUniqJobRunID r.ID true r.StartedAt)
    let renamed : Except Error Dir :=
      match fl.rename with
      | some err => .error (.sys err)
      | none =>
        match d.rename filePath newFilePath with
        | none => .error (.sys ("rename " ++ filePath ++ " " ++ newFilePath ++
            ": no such file or directory"))
        | some d' => .ok d'
    match renamed with
    | .error err => (d, some (.wrap err ("could not mark job as finished (unique " ++ uniqID ++ ")")))
    | .ok d => saveJobRun js fl d newFilePath r

/-- The pattern of `GetFinishedJobs`, relative to `dirPath`. -/
def finishedJobsPattern : String := markerFinished ++ "_*_*." ++ jsonExtension

/-- The loop of `GetFinishedJobs` over the file names found. -/
def readFinished (js : JobRunJSON) (fl : Faults) (d : Dir) :
    List String → List String → List JobRun → Except Error (List String × List JobRun)
  | [], ids, jobs => .ok (ids, jobs)
  | f :: rest, ids, jobs =>
    match readEntryFile js fl d f with
    | .error err => .error err
    | .ok j =>
      readFinished js fl d rest (ids ++ [getUniqJobRunID j.ID true j.StartedAt]) (jobs ++ [j])

/-- The method `GetFinishedJobs`. -/
def GetFinishedJobs (js : JobRunJSON) (fl : Faults) (d : Dir) :
    Except Error (List String × List JobRun) :=
  match fl.glob with
  | some err => .error (.sys err)
  | none => readFinished js fl d (globNames d finishedJobsPattern) [] []

/-- The method `RemoveJobs`. -/
def RemoveJobs (fl : Faults) (d : Dir) (ids : List String) : Dir × Option Error :=
  removeFiles fl d (ids.map getFilePath)

/-! ## Derived notions -/

/-- The running entries of a job ID: the file names `findDuplicateRuns` reports
when the glob itself succeeds. -/
def runningEntries (d : Dir) (jobID : List Byte) : List String :=
  globNames d (duplicateRunsPattern jobID)

/-- The value of `alreadyRunning` in `NewJob` once the duplicate scan succeeded. -/
def alreadyRunning (d : Dir) (jobID : List Byte) : Bool :=
  decide ((runningEntries d jobID).length > 0)

/-- The finished entries: the file names `GetFinishedJobs` reads. -/
def finishedEntries (d : Dir) : List String := globNames d finishedJobsPattern

/-- The spool states that calls of `NewJob`, `FinishJob` and `RemoveJobs`, in any
order, with any arguments and whatever the environment answers, lead to from the
empty spool. -/
inductive Reachable (js : JobRunJSON) : Dir → Prop where
  | empty : Reachable js []
  | newJob (fl : Faults) (d : Dir) (r : JobRun) (forcedRun : Bool) :
      Reachable js d → Reachable js (NewJob js fl d r forcedRun).dir
  | finishJob (fl : Faults) (d : Dir) (uniqID : String) (r : JobRun) :
      Reachable js d → Reachable js (FinishJob js fl d uniqID r).1
  | removeJobs (fl : Faults) (d : Dir) (ids : List String) :
      Reachable js d → Reachable js (RemoveJobs fl d ids).1

/-! ## Traces

The same operations once more, now paired with the calls they make on the lock
file and on the spool, in the order they make them. -/

/-- A call that the spool makes on the world outside. -/
inductive Event where
  /-- A call of `TryLock` on a lock file, and whether it got the lock. -/
  | tryLock (lockFile : String) (acquired : Bool) : Event
  /-- A call of `GetOwner` on a lock file. -/
  | getOwner (lockFile : String) : Event
  /-- A line handed to the logger. -/
  | log (msg : String) : Event
  /-- A call of `time.Sleep`, in milliseconds. -/
  | sleep (ms : Nat) : Event
  /-- A call of `Unlock` on a lock file, and whether it released the lock. -/
  | unlock (lockFile : String) (released : Bool) : Event
  /-- A call of `filepath.Glob`. -/
  | glob (pattern : String) : Event
  /-- A call of `os.Remove`. -/
  | remove (path : String) : Event
  /-- A call of `os.Rename`. -/
  | rename (oldpath newpath : String) : Event
  /-- A file opened with `O_CREATE|O_TRUNC` and written to. -/
  | write (path : String) : Event
deriving DecidableEq, Repr

/-- The pause between two attempts, `retryIn`, in milliseconds. -/
def retryIn : Nat := 500

/-- The text `ownerInfo` that `getLock` logs for an answer of `GetOwner`. -/
def ownerInfo : LockOwner → String
  | .failed msg => "could not get lock owner info: " ++ msg
  | .process pid => "process with id " ++ Nat.repr pid
  | .unknown => "<unknown>"

/-- A job ID as it is printed with `%s`. -/
def jobIDString (jobID : List Byte) : String := String.mk (jobID.map (fun b => Char.ofNat b.val))

/-- The line `getLock` logs after a failed attempt that is followed by another one. -/
def lockLogMessage (jobID : List Byte) (owner : String) (retry : Nat) : String :=
  "job " ++ jobIDString jobID ++ ": could not get lock. Lockfile owner: " ++ owner ++
    ". Attempt " ++ Nat.repr retry ++ " of " ++ Nat.repr retryLimit ++ ", retrying in 500ms"

/-- What a failed attempt that is followed by another one consists of: `retry` attempts
have failed before it. -/
def failedAttempt (fl : Faults) (jobID : List Byte) (retry : Nat) : List Event :=
  [.tryLock (lockFileName jobID) false, .getOwner (lockFileName jobID),
    .log (lockLogMessage jobID (ownerInfo (fl.getOwner (lockFileName jobID) retry)) (retry + 1)),
    .sleep retryIn]

/-- The retry loop of `getLock` with its calls; `getLockLoop` is its result. -/
def getLockLoopT (fl : Faults) (jobID : List Byte) : (fuel retry : Nat) → Option Error × List Event
  | 0, _ => (some (.sys "retry loop out of fuel"), [])
  | fuel + 1, retry =>
    match fl.tryLock (lockFileName jobID) retry with
    | none => (none, [.tryLock (lockFileName jobID) true])
    | some err =>
      if retry + 1 ≥ retryLimit then (some (.sys err), [.tryLock (lockFileName jobID) false])
      else
        ((getLockLoopT fl jobID fuel (retry + 1)).1,
          failedAttempt fl jobID retry ++ (getLockLoopT fl jobID fuel (retry + 1)).2)

/-- The method `getLock` with its calls. -/
def getLockT (fl : Faults) (jobID : List Byte) : Option Error × List Event :=
  match ensureSpoolDirExists fl.ensureDirLock with
  | some err => (some err, [])
  | none =>
    match fl.lockNew (lockFileName jobID) with
    | some err => (some (.sys err), [])
    | none => getLockLoopT fl jobID retryLimit 0

/-- The method `releaseLock`: one call of `Unlock`, whose error is logged and dropped. -/
def releaseLock (fl : Faults) (lockFile : String) : List Event :=
  match fl.unlock lockFile with
  | none => [.unlock lockFile true]
  | some err => [.unlock lockFile false, .log ("could not release lock: " ++ err)]

/-- The function `removeFiles` with its calls: one `os.Remove` per path, up to the first
that fails. -/
def removeFilesT (fl : Faults) (d : Dir) : List String → (Dir × Option Error) × List Event
  | [] => ((d, none), [])
  | f :: rest =>
    match removeFile fl d f with
    | (d', some err) => ((d', some err), [.remove f])
    | (d', none) => ((removeFilesT fl d' rest).1, .remove f :: (removeFilesT fl d' rest).2)

/-- The method `saveJobRun` with its calls: the file is written to once it could be opened. -/
def saveJobRunT (js : JobRunJSON) (fl : Faults) (d : Dir) (filePath : String) (r : JobRun) :
    (Dir × Option Error) × List Event :=
  match ensureSpoolDirExists fl.ensureDirSave with
  | some err => ((d, some err), [])
  | none =>
    match fl.openFile filePath with
    | some err => ((d, some (.wrap (.sys err) ("can not open file for writing: " ++ filePath))), [])
    | none =>
      match fl.encode with
      | some (left, err) =>
        ((d.write filePath left,
          some (.wrap (.sys err) ("while encoding spool entry to " ++ filePath))),
          [.write filePath])
      | none => ((d.write filePath (js.encode r), none), [.write filePath])

/-- The part of `NewJob` that runs with the lock held, with its calls. -/
def NewJobLockedT (js : JobRunJSON) (fl : Faults) (d : Dir) (r : JobRun) (forcedRun : Bool) :
    NewJobResult × List Event :=
  match findDuplicateRuns fl d r.ID with
  | .error err => (⟨d, r, "", some err⟩, [.glob (duplicateRunsPattern r.ID)])
  | .ok duplicateRunEntries =>
    let alreadyRunning := decide (duplicateRunEntries.length > 0)
    let r := if !forcedRun && alreadyRunning then r.AddError Error.ErrJobAlreadyRunning.text else r
    let removed := if forcedRun then removeFilesT fl d duplicateRunEntries else ((d, none), [])
    match removed with
    | ((d, some err), ev) => (⟨d, r, "", some err⟩, .glob (duplicateRunsPattern r.ID) :: ev)
    | ((d, none), ev) =>
      let uniqID := getUniqJobRunID r.ID alreadyRunning r.StartedAt
      let filePath := getFilePath uniqID
      match saveJobRunT js fl d filePath r with
      | ((d, some err), ev') =>
        (⟨d, r, "", some err⟩, .glob (duplicateRunsPattern r.ID) :: (ev ++ ev'))
      | ((d, none), ev') =>
        (⟨d, r, uniqID, if !forcedRun && alreadyRunning then some .ErrJobAlreadyRunning else none⟩,
          .glob (duplicateRunsPattern r.ID) :: (ev ++ ev'))

/-- The method `NewJob` with its calls: the lock is released, by the deferred
`releaseLock`, whenever it was acquired. -/
def NewJobT (js : JobRunJSON) (fl : Faults) (d : Dir) (r : JobRun) (forcedRun : Bool) :
    NewJobResult × List Event :=
  match getLockT fl r.ID with
  | (some err, ev) => (⟨d, r, "", some err⟩, ev)
  | (none, ev) =>
    ((NewJobLockedT js fl d r forcedRun).1,
      ev ++ (NewJobLockedT js fl d r forcedRun).2 ++ releaseLock fl (lockFileName r.ID))

/-- The part of `FinishJob` that runs with the lock held, with its calls. -/
def FinishJobLockedT (js : JobRunJSON) (fl : Faults) (d : Dir) (uniqID : String) (r : JobRun) :
    (Dir × Option Error) × List Event :=
  let filePath := getFilePath uniqID
  let newFilePath := getFilePath (getUniqJobRunID r.ID true r.StartedAt)
  let renamed : Except Error Dir :=
    match fl.rename with
    | some err => .error (.sys err)
    | none =>
      match d.rename filePath newFilePath with
      | none => .error (.sys ("rename " ++ filePath ++ " " ++ newFilePath ++
          ": no such file or directory"))
      | some d' => .ok d'
  match renamed with
  | .error err =>
    ((d, some (.wrap err ("could not mark job as finished (unique " ++ uniqID ++ ")"))),
      [.rename filePath newFilePath])
  | .ok d =>
    ((saveJobRunT js fl d newFilePath r).1,
      .rename filePath newFilePath :: (saveJobRunT js fl d newFilePath r).2)

/-- The method `FinishJob` with its calls. -/
def FinishJobT (js : JobRunJSON) (fl : Faults) (d : Dir) (uniqID : String) (r : JobRun) :
    (Dir × Option Error) × List Event :=
  match getLockT fl r.ID with
  | (some err, ev) => ((d, some err), ev)
  | (none, ev) =>
    ((FinishJobLockedT js fl d uniqID r).1,
      ev ++ (FinishJobLockedT js fl d uniqID r).2 ++ releaseLock fl (lockFileName r.ID))

/-- The method `RemoveJobs` with its calls. -/
def RemoveJobsT (fl : Faults) (d : Dir) (ids : List String) : (Dir × Option Error) × List Event :=
  removeFilesT fl d (ids.map getFilePath)

/-- Whether a call changes a file of the spool. -/
def Event.isMutation : Event → Bool
  | .remove _ => true
  | .rename _ _ => true
  | .write _ => true
  | _ => false

/-- Whether a call is an attempt to take a lock. -/
def Event.isTryLock : Event → Bool
  | .tryLock _ _ => true
  | _ => false

/-- Whether a call is a call of `Unlock`. -/
def Event.isUnlock : Event → Bool
  | .unlock _ _ => true
  | _ => false

/-- Whether a call takes or gives back a lock. -/
def Event.changesLock : Event → Bool
  | .tryLock _ true => true
  | .unlock _ true => true
  | _ => false

/-- The line a call hands to the logger, if it is one. -/
def Event.logLine : Event → Option String
  | .log msg => some msg
  | _ => none

/-- The lines handed to the logger in a trace. -/
def logLines (trace : List Event) : List String := trace.filterMap Event.logLine

/-- The time a call sleeps, in milliseconds. -/
def Event.sleepTime : Event → Nat
  | .sleep ms => ms
  | _ => 0

/-- The number of `TryLock` calls in a trace. -/
def attempts (trace : List Event) : Nat := trace.countP Event.isTryLock

/-- The number of `time.Sleep` calls in a trace. -/
def sleeps (trace : List Event) : Nat := trace.countP (fun e => decide (0 < e.sleepTime))

/-- The time slept in a trace, in milliseconds. -/
def sleepTotal (trace : List Event) : Nat := (trace.map Event.sleepTime).sum

/-- Whether the lock on `lockFile` is held after a trace, given whether it was held before:
a `TryLock` that succeeds takes it and an `Unlock` that succeeds gives it back. -/
def heldAfter (lockFile : String) : Bool → List Event → Bool
  | held, [] => held
  | held, .tryLock lf true :: rest => heldAfter lockFile (held || lf == lockFile) rest
  | held, .unlock lf true :: rest => heldAfter lockFile (held && lf != lockFile) rest
  | held, _ :: rest => heldAfter lockFile held rest

/-- Whether every call of a trace that changes a file of the spool is made while the lock
on `lockFile` is held. -/
def mutationsUnderLock (lockFile : String) : Bool → List Event → Bool
  | _, [] => true
  | held, .tryLock lf true :: rest => mutationsUnderLock lockFile (held || lf == lockFile) rest
  | held, .unlock lf true :: rest => mutationsUnderLock lockFile (held && lf != lockFile) rest
  | held, e :: rest => (!e.isMutation || held) && mutationsUnderLock lockFile held rest

/-! ## Sample data -/

/-- A toy encoding of a run, used to run the operations on concrete inputs. -/
def sampleEncode (r : JobRun) : String :=
  encodeJobID r.ID ++ "@" ++ formatInt r.StartedAt ++ "!" ++ "!".intercalate r.Errors ++ "#" ++ r.Result

/-- A toy JSON codec that decodes the encodings of the listed runs and nothing else. -/
def sampleJSON (known : List JobRun) : JobRunJSON where
  encode := sampleEncode
  decode := fun content =>
    match known.find? (fun r => sampleEncode r == content) with
    | some r => .ok r
    | none => .error (.sys "invalid character")

/-- A first run of the job "dup-check". -/
def sampleRun : JobRun := ⟨asciiBytes "dup-check", 1000, [], "exit 0"⟩

/-- A later run of the job "dup-check". -/
def sampleRerun : JobRun := ⟨asciiBytes "dup-check", 1060, [], "exit 0"⟩

/-- A spool in which `sampleRun` is running. -/
def sampleDir : Dir := [("0_1000_6475702d636865636b.json", sampleEncode sampleRun)]

/-- A spool in which `sampleRun` and a run of the job "other" are running. -/
def sampleDirTwoJobs : Dir := sampleDir ++ [("0_900_6f74686572.json", "other run")]

/-- The run `sampleRun` as it ends, with one error collected on the way. -/
def sampleRunDone : JobRun := ⟨asciiBytes "dup-check", 1000, ["timeout"], "exit 1"⟩

/-- A spool holding the finished `sampleRunDone`, the running `sampleRerun` and
the lock file of their job. -/
def sampleDirFinished : Dir :=
  [("1_1000_6475702d636865636b.json", sampleEncode sampleRunDone),
    ("0_1060_6475702d636865636b.json", sampleEncode sampleRerun),
    ("job_6475702d636865636b.lock", "4711")]

/-- A run of the job "db-ping" started at second 1000. -/
def dbPingRun : JobRun := ⟨asciiBytes "db-ping", 1000, [], "pong"⟩

/-- A run of the job "slow-job". -/
def slowJobRun : JobRun := ⟨asciiBytes "slow-job", 2000, [], ""⟩

/-- An environment in which process 4711 keeps every lock: each `TryLock` fails. -/
def busyFaults : Faults :=
  { noFaults with
    tryLock := fun _ _ => some "Locked by other process"
    getOwner := fun _ _ => .process 4711 }

/-- An environment in which the first two `TryLock` calls fail and the third succeeds. -/
def contendedFaults : Faults :=
  { noFaults with
    tryLock := fun _ n => if n < 2 then some "Locked by other process" else none
    getOwner := fun _ _ => .process 4711 }

/-- An environment in which the running entry of `sampleRerun` cannot be removed. -/
def stuckFaults : Faults :=
  { noFaults with
    remove := fun path =>
      if path = "0_1060_6475702d636865636b.json" then some "permission denied" else none }

/-! ## Entries and their payloads -/

/-- The environment lets every `saveJobRun` complete: the directory check, the
opening of the file and the encoding all succeed. -/
def Faults.savesComplete (fl : Faults) : Prop :=
  ensureSpoolDirExists fl.ensureDirSave = none ∧ (∀ p, fl.openFile p = none) ∧ fl.encode = none

/-- The codec keeps the identity of the run: its encoding decodes to a run of
the same `ID` and `StartedAt`. -/
def JobRunJSON.keeps (js : JobRunJSON) (r : JobRun) : Prop :=
  ∃ r', js.decode (js.encode r) = .ok r' ∧ r'.ID = r.ID ∧ r'.StartedAt = r.StartedAt

/-- The spool states that calls of `NewJob`, `FinishJob` and `RemoveJobs` lead to
from the empty spool, in any order and with any arguments, when every
`saveJobRun` of these calls completes and the codec keeps the identity of the
run it is handed (for `NewJob` the run with the diagnostic it may have added);
locks, globs, removals and renames may still fail. -/
inductive ReachableSaving (js : JobRunJSON) : Dir → Prop where
  | empty : ReachableSaving js []
  | newJob (fl : Faults) (d : Dir) (r : JobRun) (forcedRun : Bool) :
      fl.savesComplete → js.keeps (NewJob js fl d r forcedRun).run → ReachableSaving js d →
      ReachableSaving js (NewJob js fl d r forcedRun).dir
  | finishJob (fl : Faults) (d : Dir) (uniqID : String) (r : JobRun) :
      fl.savesComplete → js.keeps r → ReachableSaving js d →
      ReachableSaving js (FinishJob js fl d uniqID r).1
  | removeJobs (fl : Faults) (d : Dir) (ids : List String) :
      ReachableSaving js d → ReachableSaving js (RemoveJobs fl d ids).1

/-- The payload of the entry decodes, and the name of the entry is the file of
`getUniqJobRunID` of the decoded `ID` and `StartedAt` with one of the two markers,
which then is the marker of the name. -/
def entryMatches (js : JobRunJSON) (e : String × String) : Bool :=
  match js.decode e.2 with
  | .ok r =>
    e.1 == getFilePath (getUniqJobRunID r.ID false r.StartedAt) ||
      e.1 == getFilePath (getUniqJobRunID r.ID true r.StartedAt)
  | .error _ => false

/-- The integer a decimal string with an optional minus sign stands for. -/
def parseInt (cs : List Char) : Int :=
  match cs with
  | [] => 0
  | c :: rest => if c = '-' then -(parseDigits rest : Int) else (parseDigits cs : Int)

/-- A toy decoder for `sampleEncode` that reads the job ID and the start second
back and leaves the rest of the text in `Result`. -/
def sampleDecode (content : String) : Except Error JobRun :=
  let hex := content.data.takeWhile (fun c => c != '@')
  let rest := (content.data.dropWhile (fun c => c != '@')).drop 1
  let num := rest.takeWhile (fun c => c != '!')
  let tail := (rest.dropWhile (fun c => c != '!')).drop 1
  match hexDecodeChars hex with
  | none => .error (.sys "invalid character")
  | some id => .ok ⟨id, parseInt num, [], String.mk tail⟩

/-- A toy JSON codec that decodes the job ID and the start second of every run. -/
def parsingJSON : JobRunJSON where
  encode := sampleEncode
  decode := sampleDecode

/-- An environment in which `Unlock` fails for every lock file. -/
def unlockFaults : Faults :=
  { noFaults with unlock := fun _ => some "permission denied" }

/-- An environment in which no file can be opened for writing. -/
def readOnlyFaults : Faults :=
  { noFaults with openFile := fun _ => some "permission denied" }

/-- A spool in which `sampleRun` was created and then finished with the later
run `sampleRerun` while no file could be opened for writing: the file was
renamed and kept the payload of `sampleRun`. -/
def mismatchedDir : Dir :=
  (FinishJob parsingJSON readOnlyFaults (NewJob parsingJSON noFaults [] sampleRun false).dir
    "0_1000_6475702d636865636b" sampleRerun).1

/-- A run of the job "cron" started in second 3000. -/
def cronRun : JobRun := ⟨asciiBytes "cron", 3000, [], ""⟩

/-- The run `cronRun` as it ends, in the second in which it started. -/
def cronRunDone : JobRun := ⟨asciiBytes "cron", 3000, [], "exit 0"⟩

/-- A spool in which `cronRun` was created and finished and then created again,
all in second 3000: the finished entry of the first run and the running entry
of the second. -/
def cronDir : Dir :=
  (NewJob parsingJSON noFaults
    (FinishJob parsingJSON noFaults (NewJob parsingJSON noFaults [] cronRun false).dir
      "0_3000_63726f6e" cronRunDone).1 cronRun false).dir

/-- A spool in which `dbPingRun` was created and finished, nothing failing. -/
def pingDoneDir : Dir :=
  (FinishJob parsingJSON noFaults (NewJob parsingJSON noFaults [] dbPingRun false).dir
    "0_1000_64622d70696e67" dbPingRun).1

end Jobmon

namespace Sender

/-! ## The sender: `pkg/csender/hub.go` and `cmd/csender/main.go` -/

/-- The errors of `Send`, as far as `GracefulSend` tells them apart. -/
inductive SendError where
  /-- The sentinel `cagent.ErrHubTooManyRequests` (HTTP 429). -/
  | ErrHubTooManyRequests : SendError
  /-- The sentinel `cagent.ErrHubServerError` (HTTP 5xx). -/
  | ErrHubServerError : SendError
  /-- An error for which `errors.Is(err, context.DeadlineExceeded)` holds. -/
  | deadlineExceeded (text : String) : SendError
  /-- Any other error. -/
  | other (text : String) : SendError
deriving DecidableEq, Repr

/-- The field of `Csender` that `GracefulSend` reads to decide what to do next. -/
structure Csender where
  RetryLimit : Int
deriving DecidableEq, Repr

/-- What `GracefulSend` does that can be seen from outside. -/
inductive Step where
  /-- A call of `cs.Send()`; calls are counted from 0. -/
  | send (call : Nat) : Step
  /-- A call of `time.Sleep` with `retryIn`, a `time.Duration` in nanoseconds;
  `time.Sleep` returns at once when the duration is zero or negative. -/
  | sleep (nanoseconds : Int) : Step
deriving DecidableEq, Repr

/-- The constant `time.Second`, in nanoseconds. -/
def second : Int := 1000000000

/-- The value a signed machine integer of `bits` bits holds after an operation
whose exact result is `x`. -/
def wrapInt (bits : Nat) (x : Int) : Int :=
  (x + 2 ^ (bits - 1)) % 2 ^ bits - 2 ^ (bits - 1)

/-- The value `time.Duration(retries) * time.Second`: an `int64` product. -/
def retryInAfter (retries : Int) : Int := wrapInt 64 (retries * second)

/-- The loop of `GracefulSend`.  The answers of `cs.Send()` are given by `send`,
`none` being success; `calls` counts the calls made so far and `retries` is the
variable of that name, a Go `int` of `bits` bits (32 or 64, by platform).  The
lines printed under `Verbose` are left out.  The Go loop has no bound of its own
(a hub that always answers 429 keeps it running), so the model takes fuel and
returns `none` when it runs out; otherwise it returns the error of `GracefulSend`
and what it did. -/
def GracefulSendLoop (bits : Nat) (cs : Csender) (send : Nat → Option SendError) :
    (fuel calls : Nat) → (retries : Int) → Option (Option SendError × List Step)
  | 0, _, _ => none
  | fuel + 1, calls, retries =>
    match send calls with
    | none => some (none, [.send calls])
    | some .ErrHubTooManyRequests =>
      (GracefulSendLoop bits cs send fuel (calls + 1) retries).map
        (fun res => (res.1, .send calls :: .sleep (10 * second) :: res.2))
    | some .ErrHubServerError | some (.deadlineExceeded _) =>
      let retries := wrapInt bits (retries + 1)
      let retryIn := retryInAfter retries
      if retries > cs.RetryLimit then some (none, [.send calls])
      else (GracefulSendLoop bits cs send fuel (calls + 1) retries).map
        (fun res => (res.1, .send calls :: .sleep retryIn :: res.2))
    | some (.other text) => some (some (.other text), [.send calls])

/-- The method `GracefulSend`. -/
def GracefulSend (bits : Nat) (cs : Csender) (send : Nat → Option SendError) (fuel : Nat) :
    Option (Option SendError × List Step) :=
  GracefulSendLoop bits cs send fuel 0 0

/-- The number of `Send` calls in what `GracefulSend` did. -/
def sendCalls (steps : List Step) : Nat :=
  steps.countP (fun s => match s with | .send _ => true | .sleep _ => false)

/-- The waits, in nanoseconds, in what `GracefulSend` did, in order. -/
def waits (steps : List Step) : List Int :=
  steps.filterMap (fun s => match s with | .send _ => none | .sleep n => some n)

/-- The function `strings.HasPrefix(s, prefix)`. -/
def stringsHasPrefix (s pre : String) : Bool := pre.data.isPrefixOf s.data

/-- The function `strings.Contains(s, substr)`. -/
def stringsContains (s substr : String) : Bool :=
  s.data.tails.any (fun t => substr.data.isPrefixOf t)

/-- The loop of `main` in `cmd/csender` over `os.Args[1:]` that collects the
key=value arguments; `skipNext` and `kvParams` are the variables of those names. -/
def kvParamsLoop : List String → (skipNext : Bool) → (kvParams : List String) → List String
  | [], _, kvParams => kvParams
  | arg :: rest, skipNext, kvParams =>
    if skipNext then kvParamsLoop rest false kvParams
    else if stringsHasPrefix "-" arg then kvParamsLoop rest true kvParams
    else if !stringsContains arg "=" then kvParamsLoop rest false kvParams
    else kvParamsLoop rest false (kvParams ++ [arg])

/-- The value of `kvParams` that `main` hands to `AddMultipleKeyValue`. -/
def kvParams (args : List String) : List String := kvParamsLoop args false []

/-- The collection the documentation describes, for comparison with `kvParams`:
an argument beginning with "-" is skipped together with the argument after it,
and of the other arguments those containing "=" are kept. -/
def kvParamsSkippingFlags : List String → List String
  | [] => []
  | arg :: rest =>
    if stringsHasPrefix arg "-" then
      match rest with
      | [] => []
      | _ :: rest' => kvParamsSkippingFlags rest'
    else if stringsContains arg "=" then arg :: kvParamsSkippingFlags rest
    else kvParamsSkippingFlags rest

/-- The command line of the usage text of `csender`, with values filled in. -/
def usageArgs : List String :=
  ["-t", "TOKEN", "-n", "backup", "-s", "1", "-a", "disk=full", "any_number=1",
    "any_float=0.1245"]

/-- A hub that is down: every `Send` fails with the 5xx sentinel. -/
def hubDown : Nat → Option SendError := fun _ => some .ErrHubServerError

/-- A hub that rejects the token: `Send` fails with an error of another kind. -/
def hubRejects : Nat → Option SendError := fun _ => some (.other "unauthorized")

end Sender

namespace Jobmon

/-! ## Facts about the ID codec -/

theorem hexDigit_mem (n : Nat) (h : n < 16) : hexDigit n ∈ hextable := by
  interval_cases n <;> decide

theorem hexDigit_inj (m n : Nat) (hm : m < 16) (hn : n < 16) (h : hexDigit m = hexDigit n) :
    m = n := by
  interval_cases m <;> interval_cases n <;> first | rfl | (exact absurd h (by decide))

theorem mem_hexChars (c : Char) (id : List Byte) (h : c ∈ hexChars id) : c ∈ hextable := by
  induction id with
  | nil => simp [hexChars] at h
  | cons v rest ih =>
    simp only [hexChars, List.mem_cons] at h
    rcases h with h | h | h
    · exact h ▸ hexDigit_mem _ (by omega)
    · exact h ▸ hexDigit_mem _ (by omega)
    · exact ih h

theorem hexChars_injective (a b : List Byte) (h : hexChars a = hexChars b) : a = b := by
  induction a generalizing b with
  | nil => cases b <;> simp [hexChars] at h ⊢
  | cons v rest ih =>
    cases b with
    | nil => simp [hexChars] at h
    | cons w rest' =>
      simp only [hexChars, List.cons.injEq] at h
      obtain ⟨h1, h2, h3⟩ := h
      have e1 := hexDigit_inj _ _ (by omega) (by omega) h1
      have e2 := hexDigit_inj _ _ (by omega) (by omega) h2
      have : v = w := by
        apply Fin.ext
        omega
      rw [this, ih _ h3]

theorem underscore_not_mem_hexChars (id : List Byte) : '_' ∉ hexChars id :=
  fun h => absurd (mem_hexChars _ _ h) (by decide)

theorem star_not_mem_hexChars (id : List Byte) : '*' ∉ hexChars id :=
  fun h => absurd (mem_hexChars _ _ h) (by decide)

theorem slash_not_mem_hexChars (id : List Byte) : '/' ∉ hexChars id :=
  fun h => absurd (mem_hexChars _ _ h) (by decide)

/-! ## Facts about pattern matching -/

theorem matchStar_iff (rest : List Char → Bool) (s : List Char) :
    matchStar rest s = true ↔ ∃ a b, s = a ++ b ∧ '/' ∉ a ∧ rest b = true := by
  induction s with
  | nil =>
    simp only [matchStar]
    constructor
    · intro h
      exact ⟨[], [], rfl, by simp, h⟩
    · rintro ⟨a, b, hab, -, hb⟩
      have : b = [] := by
        cases a <;> simp_all
      exact this ▸ hb
  | cons c s ih =>
    simp only [matchStar, Bool.or_eq_true, Bool.and_eq_true, ih]
    constructor
    · rintro (h | ⟨hc, a, b, hab, ha, hb⟩)
      · exact ⟨[], c :: s, rfl, by simp, h⟩
      · refine ⟨c :: a, b, by simp [hab], ?_, hb⟩
        simp only [List.mem_cons, not_or]
        exact ⟨fun e => by simp [← e] at hc, ha⟩
    · rintro ⟨a, b, hab, ha, hb⟩
      cases a with
      | nil =>
        left
        have hbs : b = c :: s := by simpa using hab.symm
        exact hbs ▸ hb
      | cons x a =>
        right
        simp only [List.cons_append, List.cons.injEq] at hab
        simp only [List.mem_cons, not_or] at ha
        refine ⟨?_, a, b, hab.2, ha.2, hb⟩
        rw [hab.1]
        simpa using fun e => ha.1 e.symm

theorem matchChars_cons_nil (c : Char) (p : List Char) (hc : c ≠ '*') :
    matchChars (c :: p) [] = false := by
  simp [matchChars, hc]

theorem matchChars_cons_cons (c x : Char) (p s : List Char) (hc : c ≠ '*') :
    matchChars (c :: p) (x :: s) = (x == c && matchChars p s) := by
  simp [matchChars, hc]

theorem matchChars_literal (p s : List Char) (hp : '*' ∉ p) :
    matchChars p s = true ↔ s = p := by
  induction p generalizing s with
  | nil => cases s <;> simp [matchChars]
  | cons c p ih =>
    simp only [List.mem_cons, not_or] at hp
    have hc : c ≠ '*' := fun e => hp.1 e.symm
    cases s with
    | nil => simp [matchChars_cons_nil _ _ hc]
    | cons x s => simp [matchChars_cons_cons _ _ _ _ hc, ih s hp.2]

theorem matchChars_literal_append (pre p s : List Char) (hpre : '*' ∉ pre) :
    matchChars (pre ++ p) s = true ↔ ∃ t, s = pre ++ t ∧ matchChars p t = true := by
  induction pre generalizing s with
  | nil => simp
  | cons c pre ih =>
    simp only [List.mem_cons, not_or] at hpre
    have hc : c ≠ '*' := fun e => hpre.1 e.symm
    cases s with
    | nil => simp [matchChars_cons_nil _ _ hc]
    | cons x s =>
      rw [List.cons_append, matchChars_cons_cons _ _ _ _ hc, Bool.and_eq_true, beq_iff_eq,
        ih s hpre.2]
      constructor
      · rintro ⟨rfl, t, rfl, ht⟩
        exact ⟨t, rfl, ht⟩
      · rintro ⟨t, e, ht⟩
        simp only [List.cons_append, List.cons.injEq] at e
        exact ⟨e.1, t, e.2, ht⟩

theorem matchChars_star (p s : List Char) :
    matchChars ('*' :: p) s = matchStar (matchChars p) s := by
  simp [matchChars]

/-- A pattern `pre*suf` with literal `pre` and `suf` matches the names `pre ++ mid ++ suf`
whose `mid` has no path separator. -/
theorem matchChars_pre_star_suf (pre suf s : List Char) (hpre : '*' ∉ pre) (hsuf : '*' ∉ suf) :
    matchChars (pre ++ '*' :: suf) s = true ↔
      ∃ mid, s = pre ++ mid ++ suf ∧ '/' ∉ mid := by
  rw [matchChars_literal_append _ _ _ hpre]
  constructor
  · rintro ⟨t, rfl, ht⟩
    rw [matchChars_star, matchStar_iff] at ht
    obtain ⟨a, b, rfl, ha, hb⟩ := ht
    rw [matchChars_literal _ _ hsuf] at hb
    exact ⟨a, by simp [hb], ha⟩
  · rintro ⟨mid, rfl, hmid⟩
    refine ⟨mid ++ suf, by simp, ?_⟩
    rw [matchChars_star, matchStar_iff]
    exact ⟨mid, suf, rfl, hmid, (matchChars_literal _ _ hsuf).2 rfl⟩

/-- Two lists that agree after their last occurrence of `c` agree on what follows it. -/
theorem eq_of_append_cons_eq (c : Char) (a b x y : List Char) (hx : c ∉ x) (hy : c ∉ y)
    (h : a ++ c :: x = b ++ c :: y) : a = b ∧ x = y := by
  have h' := congrArg List.reverse h
  simp only [List.reverse_append, List.reverse_cons, List.append_assoc, List.singleton_append] at h'
  have key : ∀ (u v p q : List Char), c ∉ u → c ∉ v → u ++ c :: p = v ++ c :: q → u = v ∧ p = q := by
    intro u
    induction u with
    | nil =>
      intro v p q _ hv e
      cases v with
      | nil => simpa using e
      | cons z v =>
        simp only [List.nil_append, List.cons_append, List.cons.injEq] at e
        exact absurd (e.1 ▸ List.mem_cons_self _ _) hv
    | cons w u ih =>
      intro v p q hu hv e
      cases v with
      | nil =>
        simp only [List.nil_append, List.cons_append, List.cons.injEq] at e
        exact absurd (e.1 ▸ List.mem_cons_self _ _) hu
      | cons z v =>
        simp only [List.cons_append, List.cons.injEq] at e
        simp only [List.mem_cons, not_or] at hu hv
        obtain ⟨e1, e2⟩ := ih v p q hu.2 hv.2 e.2
        exact ⟨by rw [e.1, e1], e2⟩
  obtain ⟨e1, e2⟩ := key x.reverse y.reverse a.reverse b.reverse (by simpa using hx)
    (by simpa using hy) h'
  exact ⟨List.reverse_injective e2, List.reverse_injective e1⟩


/-! ## Facts about the file names -/

/-- The decimal digits. -/
theorem digitChar_mem (n : Nat) (h : n < 10) :
    Nat.digitChar n ∈ ['0', '1', '2', '3', '4', '5', '6', '7', '8', '9'] := by
  interval_cases n <;> decide

theorem mem_toDigitsCore (c : Char) (fuel n : Nat) (ds : List Char)
    (h : c ∈ Nat.toDigitsCore 10 fuel n ds) :
    c ∈ ds ∨ c ∈ ['0', '1', '2', '3', '4', '5', '6', '7', '8', '9'] := by
  induction fuel generalizing n ds with
  | zero => exact Or.inl (by simpa [Nat.toDigitsCore] using h)
  | succ fuel ih =>
    simp only [Nat.toDigitsCore] at h
    split at h
    · rcases List.mem_cons.1 h with h | h
      · exact Or.inr (h ▸ digitChar_mem _ (Nat.mod_lt _ (by decide)))
      · exact Or.inl h
    · rcases ih _ _ h with h | h
      · rcases List.mem_cons.1 h with h | h
        · exact Or.inr (h ▸ digitChar_mem _ (Nat.mod_lt _ (by decide)))
        · exact Or.inl h
      · exact Or.inr h

theorem mem_natRepr (c : Char) (n : Nat) (h : c ∈ (Nat.repr n).data) :
    c ∈ ['0', '1', '2', '3', '4', '5', '6', '7', '8', '9'] := by
  simp only [Nat.repr, Nat.toDigits, List.asString] at h
  rcases mem_toDigitsCore c _ _ _ h with h | h
  · simp at h
  · exact h

/-- The decimal form of an integer holds digits and at most a minus sign. -/
theorem mem_formatInt (c : Char) (n : Int) (h : c ∈ (formatInt n).data) :
    c ∈ ['-', '0', '1', '2', '3', '4', '5', '6', '7', '8', '9'] := by
  cases n with
  | ofNat m => exact List.mem_cons_of_mem _ (mem_natRepr c m h)
  | negSucc m =>
    simp only [formatInt, String.data_append, List.mem_append] at h
    rcases h with h | h
    · have hc : c = '-' := by simpa using h
      simp [hc]
    · exact List.mem_cons_of_mem _ (mem_natRepr c _ h)

theorem slash_not_mem_formatInt (n : Int) : '/' ∉ (formatInt n).data :=
  fun h => absurd (mem_formatInt _ _ h) (by decide)

theorem getFilePath_data (id : String) :
    (getFilePath id).data = id.data ++ ['.', 'j', 's', 'o', 'n'] := by
  simp [getFilePath, jsonExtension, String.data_append]

theorem getUniqJobRunID_data (jobID : List Byte) (fin : Bool) (t : Int) :
    (getUniqJobRunID jobID fin t).data =
      [if fin then '1' else '0', '_'] ++ (formatInt t).data ++ '_' :: hexChars jobID := by
  cases fin <;>
    simp [getUniqJobRunID, String.intercalate, String.intercalate.go, markerRunning,
      markerFinished, encodeJobID, hexEncodeToString, String.data_append]

theorem duplicateRunsPattern_data (jobID : List Byte) :
    (duplicateRunsPattern jobID).data =
      ['0', '_'] ++ '*' :: ('_' :: hexChars jobID ++ ['.', 'j', 's', 'o', 'n']) := by
  simp [duplicateRunsPattern, markerRunning, jsonExtension, encodeJobID, hexEncodeToString,
    String.data_append]

theorem finishedJobsPattern_data :
    finishedJobsPattern.data = ['1', '_'] ++ '*' :: ('_' :: '*' :: ['.', 'j', 's', 'o', 'n']) := by
  decide

/-- The names the duplicate-run pattern of a job ID matches. -/
theorem filepathMatch_duplicateRunsPattern (jobID : List Byte) (name : String) :
    filepathMatch (duplicateRunsPattern jobID) name = true ↔
      ∃ mid, name.data = ['0', '_'] ++ mid ++ ('_' :: hexChars jobID ++ ['.', 'j', 's', 'o', 'n']) ∧
        '/' ∉ mid := by
  rw [filepathMatch, duplicateRunsPattern_data]
  apply matchChars_pre_star_suf
  · decide
  · intro h
    rcases List.mem_cons.1 h with h | h
    · exact absurd h (by decide)
    · rcases List.mem_append.1 h with h | h
      · exact star_not_mem_hexChars _ h
      · exact absurd h (by decide)

/-- A name the finished pattern matches starts with the finished marker. -/
theorem filepathMatch_finishedJobsPattern (name : String)
    (h : filepathMatch finishedJobsPattern name = true) :
    ∃ t, name.data = '1' :: '_' :: t := by
  rw [filepathMatch, finishedJobsPattern_data,
    matchChars_literal_append _ _ _ (by decide)] at h
  obtain ⟨t, ht, -⟩ := h
  exact ⟨t, ht⟩

/-- The file of a running uniqID is a running entry of its job ID. -/
theorem filepathMatch_running (jobID : List Byte) (t : Int) :
    filepathMatch (duplicateRunsPattern jobID)
      (getFilePath (getUniqJobRunID jobID false t)) = true := by
  rw [filepathMatch_duplicateRunsPattern]
  refine ⟨(formatInt t).data, ?_, slash_not_mem_formatInt t⟩
  simp [getFilePath_data, getUniqJobRunID_data]

/-- The file of a finished uniqID is a running entry of no job ID. -/
theorem filepathMatch_finished_eq_false (jobID jobID' : List Byte) (t : Int) :
    filepathMatch (duplicateRunsPattern jobID')
      (getFilePath (getUniqJobRunID jobID true t)) = false := by
  rw [Bool.eq_false_iff]
  intro h
  rw [filepathMatch_duplicateRunsPattern] at h
  obtain ⟨mid, hmid, -⟩ := h
  simp [getFilePath_data, getUniqJobRunID_data] at hmid

/-- The file of a uniqID is a running entry only of its own job ID. -/
theorem eq_of_filepathMatch_running (jobID jobID' : List Byte) (fin : Bool) (t : Int)
    (h : filepathMatch (duplicateRunsPattern jobID')
      (getFilePath (getUniqJobRunID jobID fin t)) = true) : fin = false ∧ jobID = jobID' := by
  cases fin with
  | true => rw [filepathMatch_finished_eq_false] at h; exact absurd h (by decide)
  | false =>
    rw [filepathMatch_duplicateRunsPattern] at h
    obtain ⟨mid, hmid, -⟩ := h
    simp only [getFilePath_data, getUniqJobRunID_data, List.append_assoc, List.cons_append,
      List.nil_append, List.cons.injEq, true_and, Bool.false_eq_true, if_false] at hmid
    have h1 : ((formatInt t).data ++ '_' :: hexChars jobID) ++ ['.', 'j', 's', 'o', 'n'] =
        (mid ++ '_' :: hexChars jobID') ++ ['.', 'j', 's', 'o', 'n'] := by
      simpa using hmid
    have h2 := eq_of_append_cons_eq '_' _ _ _ _ (underscore_not_mem_hexChars _)
      (underscore_not_mem_hexChars _) (List.append_cancel_right h1)
    exact ⟨rfl, hexChars_injective _ _ h2.2⟩

/-- The files of two uniqIDs coincide only for the same job ID and marker. -/
theorem getFilePath_getUniqJobRunID_inj (jobID jobID' : List Byte) (fin fin' : Bool) (t t' : Int)
    (h : getFilePath (getUniqJobRunID jobID fin t) = getFilePath (getUniqJobRunID jobID' fin' t')) :
    fin = fin' ∧ jobID = jobID' := by
  have h' := congrArg String.data h
  simp only [getFilePath_data, getUniqJobRunID_data, List.append_assoc, List.cons_append,
    List.nil_append, List.cons.injEq, true_and] at h'
  obtain ⟨hm, h'⟩ := h'
  have h1 : ((formatInt t).data ++ '_' :: hexChars jobID) ++ ['.', 'j', 's', 'o', 'n'] =
      ((formatInt t').data ++ '_' :: hexChars jobID') ++ ['.', 'j', 's', 'o', 'n'] := by
    simpa using h'
  have h2 := eq_of_append_cons_eq '_' _ _ _ _ (underscore_not_mem_hexChars _)
    (underscore_not_mem_hexChars _) (List.append_cancel_right h1)
  refine ⟨?_, hexChars_injective _ _ h2.2⟩
  cases fin <;> cases fin' <;> first | rfl | (exact absurd hm (by decide))


/-! ## Facts about the directory -/

theorem Dir.read_nil (p : String) : Dir.read [] p = none := rfl

theorem Dir.read_cons (e : String × String) (d : Dir) (p : String) :
    Dir.read (e :: d) p = if e.1 = p then some e.2 else Dir.read d p := by
  by_cases h : e.1 = p <;> simp [Dir.read, List.find?_cons, h]

theorem Dir.remove_nil (p : String) : Dir.remove [] p = [] := rfl

theorem Dir.remove_cons (e : String × String) (d : Dir) (p : String) :
    Dir.remove (e :: d) p = if e.1 = p then Dir.remove d p else e :: Dir.remove d p := by
  by_cases h : e.1 = p <;> simp [Dir.remove, List.filter_cons, h]

theorem Dir.names_nil : Dir.names [] = [] := rfl

theorem Dir.names_cons (e : String × String) (d : Dir) :
    Dir.names (e :: d) = e.1 :: Dir.names d := rfl

theorem Dir.names_append (d d' : Dir) : Dir.names (d ++ d') = Dir.names d ++ Dir.names d' := by
  simp [Dir.names]

theorem Dir.names_remove (d : Dir) (p : String) :
    (d.remove p).names = d.names.filter (fun n => n != p) := by
  induction d with
  | nil => rfl
  | cons e d ih =>
    rw [Dir.remove_cons, Dir.names_cons, List.filter_cons]
    by_cases h : e.1 = p
    · simp only [h, if_true, bne_self_eq_false, Bool.false_eq_true, if_false]
      exact ih
    · have hb : (e.1 != p) = true := by simpa using h
      simp only [h, if_false, hb, if_true, Dir.names_cons]
      rw [ih]

theorem Dir.names_write (d : Dir) (p c : String) :
    (d.write p c).names = d.names.filter (fun n => n != p) ++ [p] := by
  rw [Dir.write, Dir.names_append, Dir.names_remove]
  rfl

theorem Dir.read_eq_none_iff (d : Dir) (p : String) : d.read p = none ↔ p ∉ d.names := by
  induction d with
  | nil => simp [Dir.read_nil, Dir.names_nil]
  | cons e d ih =>
    rw [Dir.read_cons, Dir.names_cons, List.mem_cons, not_or]
    by_cases h : e.1 = p
    · simp [h]
    · have h' : ¬ p = e.1 := fun x => h x.symm
      simp only [h, if_false, h', not_false_eq_true, true_and]
      exact ih

theorem Dir.read_remove_self (d : Dir) (p : String) : (d.remove p).read p = none := by
  rw [Dir.read_eq_none_iff, Dir.names_remove]
  simp

theorem Dir.read_remove_of_ne (d : Dir) (p q : String) (h : q ≠ p) :
    (d.remove p).read q = d.read q := by
  induction d with
  | nil => rfl
  | cons e d ih =>
    rw [Dir.remove_cons, Dir.read_cons]
    by_cases h1 : e.1 = p
    · have h2 : ¬ e.1 = q := fun x => h (x.symm.trans h1)
      simp only [h1, if_true]
      rw [← h1, if_neg h2, h1]
      exact ih
    · simp only [h1, if_false]
      rw [Dir.read_cons, ih]

theorem Dir.read_append_of_not_mem (d d' : Dir) (q : String) (h : q ∉ d.names) :
    (d ++ d').read q = d'.read q := by
  induction d with
  | nil => rfl
  | cons e d ih =>
    rw [Dir.names_cons, List.mem_cons, not_or] at h
    have h1 : ¬ e.1 = q := fun x => h.1 x.symm
    rw [List.cons_append, Dir.read_cons, if_neg h1]
    exact ih h.2

theorem Dir.read_append_of_mem (d d' : Dir) (q : String) (h : q ∈ d.names) :
    (d ++ d').read q = d.read q := by
  induction d with
  | nil => simp [Dir.names_nil] at h
  | cons e d ih =>
    rw [List.cons_append, Dir.read_cons, Dir.read_cons]
    by_cases h1 : e.1 = q
    · simp [h1]
    · rw [Dir.names_cons, List.mem_cons] at h
      have h2 : q ∈ Dir.names d := by
        rcases h with h | h
        · exact absurd h.symm h1
        · exact h
      rw [if_neg h1, if_neg h1]
      exact ih h2

theorem Dir.read_write_self (d : Dir) (p c : String) : (d.write p c).read p = some c := by
  rw [Dir.write, Dir.read_append_of_not_mem]
  · simp [Dir.read_cons, Dir.read_nil]
  · rw [← Dir.read_eq_none_iff]
    exact Dir.read_remove_self d p

theorem Dir.read_write_of_ne (d : Dir) (p c q : String) (h : q ≠ p) :
    (d.write p c).read q = d.read q := by
  rw [Dir.write]
  by_cases hq : q ∈ (d.remove p).names
  · rw [Dir.read_append_of_mem _ _ _ hq, Dir.read_remove_of_ne _ _ _ h]
  · rw [Dir.read_append_of_not_mem _ _ _ hq]
    have h1 : (d.remove p).read q = none := (Dir.read_eq_none_iff _ _).2 hq
    rw [Dir.read_remove_of_ne _ _ _ h] at h1
    rw [h1]
    have h2 : ¬ p = q := fun x => h x.symm
    simp [Dir.read_cons, Dir.read_nil, h2]

theorem Dir.count_write_self (d : Dir) (p c : String) : (d.write p c).names.count p = 1 := by
  rw [Dir.names_write, List.count_append]
  have h : (List.filter (fun n => n != p) d.names).count p = 0 := by
    rw [List.count_eq_zero]
    simp
  simp [h]

theorem Dir.remove_WF (d : Dir) (p : String) (h : d.WF) : (d.remove p).WF := by
  rw [Dir.WF, Dir.names_remove]
  exact h.filter _

theorem Dir.write_WF (d : Dir) (p c : String) (h : d.WF) : (d.write p c).WF := by
  rw [Dir.WF, Dir.names_write]
  refine List.Nodup.append (h.filter _) (List.nodup_singleton p) ?_
  intro x hx hx'
  have hxp : x = p := by simpa using hx'
  simp [hxp] at hx

/-! ## Facts about globbing -/

theorem mem_globNames (d : Dir) (pattern name : String) :
    name ∈ globNames d pattern ↔ name ∈ d.names ∧ filepathMatch pattern name = true := by
  simp [globNames, List.mem_insertionSort, List.mem_filter]

theorem length_globNames (d : Dir) (pattern : String) :
    (globNames d pattern).length = d.names.countP (filepathMatch pattern) := by
  simp [globNames, List.length_insertionSort, List.countP_eq_length_filter]

theorem globNames_perm (d : Dir) (pattern : String) :
    (globNames d pattern).Perm (d.names.filter (filepathMatch pattern)) :=
  List.perm_insertionSort _ _

theorem globNames_eq_nil_iff (d : Dir) (pattern : String) :
    globNames d pattern = [] ↔ ∀ name ∈ d.names, filepathMatch pattern name = false := by
  rw [← List.length_eq_zero, length_globNames, List.countP_eq_zero]
  simp

theorem countP_remove_le (d : Dir) (p : String) (f : String → Bool) :
    (d.remove p).names.countP f ≤ d.names.countP f := by
  rw [Dir.names_remove]
  exact List.Sublist.countP_le _ (List.filter_sublist _)

theorem countP_write (d : Dir) (p c : String) (f : String → Bool) :
    (d.write p c).names.countP f = (d.remove p).names.countP f + if f p then 1 else 0 := by
  rw [Dir.names_write, List.countP_append, Dir.names_remove]
  by_cases h : f p = true <;> simp [h]

/-! ## Facts about removal -/

theorem removeFiles_names_sublist (fl : Faults) (d : Dir) (paths : List String) :
    (removeFiles fl d paths).1.names.Sublist d.names := by
  induction paths generalizing d with
  | nil => exact List.Sublist.refl _
  | cons f rest ih =>
    simp only [removeFiles, removeFile]
    cases fl.remove f with
    | some err => exact List.Sublist.refl _
    | none =>
      refine (ih (d.remove f)).trans ?_
      rw [Dir.names_remove]
      exact List.filter_sublist _

theorem removeFiles_read_of_not_mem (fl : Faults) (d : Dir) (paths : List String) (q : String)
    (h : q ∉ paths) : (removeFiles fl d paths).1.read q = d.read q := by
  induction paths generalizing d with
  | nil => rfl
  | cons f rest ih =>
    simp only [List.mem_cons, not_or] at h
    simp only [removeFiles, removeFile]
    cases fl.remove f with
    | some err => rfl
    | none =>
      show (removeFiles fl (d.remove f) rest).1.read q = d.read q
      rw [ih _ h.2, Dir.read_remove_of_ne _ _ _ h.1]

theorem removeFiles_read_of_mem (fl : Faults) (d : Dir) (paths : List String) (q : String)
    (hok : (removeFiles fl d paths).2 = none) (h : q ∈ paths) :
    (removeFiles fl d paths).1.read q = none := by
  induction paths generalizing d with
  | nil => simp at h
  | cons f rest ih =>
    simp only [removeFiles, removeFile] at hok ⊢
    cases hf : fl.remove f with
    | some err => simp [hf] at hok
    | none =>
      simp only [hf] at hok ⊢
      by_cases hq : q ∈ rest
      · exact ih _ hok hq
      · have hqf : q = f := by
          rcases List.mem_cons.1 h with h | h
          · exact h
          · exact absurd h hq
        rw [removeFiles_read_of_not_mem _ _ _ _ hq, hqf]
        exact Dir.read_remove_self d f

theorem removeFiles_WF (fl : Faults) (d : Dir) (paths : List String) (h : d.WF) :
    (removeFiles fl d paths).1.WF :=
  (removeFiles_names_sublist fl d paths).nodup h


/-! ## Facts about `NewJob` -/

theorem AddError_ID (r : JobRun) (msg : String) : (r.AddError msg).ID = r.ID := rfl

theorem AddError_StartedAt (r : JobRun) (msg : String) :
    (r.AddError msg).StartedAt = r.StartedAt := rfl

theorem getUniqJobRunID_ne_empty (jobID : List Byte) (fin : Bool) (t : Int) :
    getUniqJobRunID jobID fin t ≠ "" := by
  intro h
  have h' := congrArg String.data h
  rw [getUniqJobRunID_data] at h'
  simp at h'

/-- What a call of `NewJob` that returns a uniqID has done. -/
theorem NewJob_ok (js : JobRunJSON) (fl : Faults) (d : Dir) (r : JobRun) (forcedRun : Bool)
    (h : (NewJob js fl d r forcedRun).uniqID ≠ "") :
    NewJob js fl d r forcedRun =
      ⟨(if forcedRun then (removeFiles fl d (runningEntries d r.ID)).1 else d).write
          (getFilePath (getUniqJobRunID r.ID (alreadyRunning d r.ID) r.StartedAt))
          (js.encode (if !forcedRun && alreadyRunning d r.ID
            then r.AddError Error.ErrJobAlreadyRunning.text else r)),
        if !forcedRun && alreadyRunning d r.ID
          then r.AddError Error.ErrJobAlreadyRunning.text else r,
        getUniqJobRunID r.ID (alreadyRunning d r.ID) r.StartedAt,
        if !forcedRun && alreadyRunning d r.ID then some .ErrJobAlreadyRunning else none⟩ ∧
    (forcedRun = true → (removeFiles fl d (runningEntries d r.ID)).2 = none) := by
  unfold NewJob at h ⊢
  cases hL : getLock fl r.ID with
  | some err => simp [hL] at h
  | none =>
    simp only [hL] at h ⊢
    unfold findDuplicateRuns at h ⊢
    cases hG : fl.glob with
    | some err => simp [hG] at h
    | none =>
      simp only [hG] at h ⊢
      have hID : ∀ b : Bool,
          (if b = true then r.AddError Error.ErrJobAlreadyRunning.text else r).ID = r.ID := by
        intro b; cases b <;> rfl
      have hSt : ∀ b : Bool,
          (if b = true then r.AddError Error.ErrJobAlreadyRunning.text else r).StartedAt
            = r.StartedAt := by
        intro b; cases b <;> rfl
      simp only [hID, hSt] at h ⊢
      have hS : ∀ (d1 : Dir) (p : String) (r1 : JobRun),
          (saveJobRun js fl d1 p r1).2 = none →
            saveJobRun js fl d1 p r1 = (d1.write p (js.encode r1), none) := by
        intro d1 p r1 hs
        unfold saveJobRun at hs ⊢
        cases h1 : ensureSpoolDirExists fl.ensureDirSave with
        | some e => simp [h1] at hs
        | none =>
          cases h2 : fl.openFile p with
          | some e => simp [h1, h2] at hs
          | none =>
            cases h3 : fl.encode with
            | some e => simp [h1, h2, h3] at hs
            | none => rfl
      cases forcedRun with
      | false =>
        simp only [Bool.false_eq_true, if_false] at h ⊢
        cases hsv : saveJobRun js fl d
            (getFilePath (getUniqJobRunID r.ID
              (decide ((globNames d (duplicateRunsPattern r.ID)).length > 0)) r.StartedAt))
            (if (!false && decide ((globNames d (duplicateRunsPattern r.ID)).length > 0)) = true
              then r.AddError Error.ErrJobAlreadyRunning.text else r) with
        | mk d2 e2 =>
          cases e2 with
          | some e => rw [hsv] at h; exact absurd rfl h
          | none =>
            have := hS _ _ _ (by rw [hsv])
            rw [hsv] at this
            simp only [hsv]
            injection this with hd _
            refine ⟨?_, by simp⟩
            rw [hd]
            rfl
      | true =>
        simp only [if_true] at h ⊢
        cases hrm : removeFiles fl d (globNames d (duplicateRunsPattern r.ID)) with
        | mk d1 e1 =>
          cases e1 with
          | some e => simp [hrm] at h
          | none =>
            simp only [hrm] at h ⊢
            cases hsv : saveJobRun js fl d1
                (getFilePath (getUniqJobRunID r.ID
                  (decide ((globNames d (duplicateRunsPattern r.ID)).length > 0)) r.StartedAt))
                (if (!true && decide ((globNames d (duplicateRunsPattern r.ID)).length > 0)) = true
                  then r.AddError Error.ErrJobAlreadyRunning.text else r) with
            | mk d2 e2 =>
              cases e2 with
              | some e => rw [hsv] at h; exact absurd rfl h
              | none =>
                have := hS _ _ _ (by rw [hsv])
                rw [hsv] at this
                simp only [hsv]
                injection this with hd _
                have hrm' : removeFiles fl d (runningEntries d r.ID) = (d1, none) := hrm
                refine ⟨?_, fun _ => by rw [hrm']⟩
                rw [hd, hrm']
                rfl

/-- The environment never hands up the duplicate-run sentinel. -/
theorem getLockLoop_ne_sentinel (tryLock : Nat → Option String) (fuel retry : Nat) :
    getLockLoop tryLock fuel retry ≠ some .ErrJobAlreadyRunning := by
  induction fuel generalizing retry with
  | zero => simp [getLockLoop]
  | succ fuel ih =>
    unfold getLockLoop
    cases tryLock retry with
    | none => simp
    | some err =>
      by_cases hr : retry + 1 ≥ retryLimit
      · simp [hr]
      · simp only [hr, if_false]
        exact ih _

theorem ensureSpoolDirExists_ne_sentinel (check : DirCheck) :
    ensureSpoolDirExists check ≠ some .ErrJobAlreadyRunning := by
  cases check <;> simp [ensureSpoolDirExists]

theorem getLock_ne_sentinel (fl : Faults) (jobID : List Byte) :
    getLock fl jobID ≠ some .ErrJobAlreadyRunning := by
  unfold getLock
  cases h1 : ensureSpoolDirExists fl.ensureDirLock with
  | some err =>
    intro h
    simp only [Option.some.injEq] at h
    exact ensureSpoolDirExists_ne_sentinel _ (h ▸ h1)
  | none =>
    cases fl.lockNew (lockFileName jobID) with
    | some err => simp
    | none => exact getLockLoop_ne_sentinel _ _ _

theorem removeFiles_ne_sentinel (fl : Faults) (d : Dir) (paths : List String) :
    (removeFiles fl d paths).2 ≠ some .ErrJobAlreadyRunning := by
  induction paths generalizing d with
  | nil => simp [removeFiles]
  | cons f rest ih =>
    simp only [removeFiles, removeFile]
    cases fl.remove f with
    | some err => simp
    | none => exact ih _

theorem saveJobRun_ne_sentinel (js : JobRunJSON) (fl : Faults) (d : Dir) (p : String)
    (r : JobRun) : (saveJobRun js fl d p r).2 ≠ some .ErrJobAlreadyRunning := by
  unfold saveJobRun
  cases h1 : ensureSpoolDirExists fl.ensureDirSave with
  | some err =>
    intro h
    simp only [Option.some.injEq] at h
    exact ensureSpoolDirExists_ne_sentinel _ (h ▸ h1)
  | none =>
    cases fl.openFile p with
    | some err => simp
    | none =>
      cases fl.encode with
      | some e => simp
      | none => simp

theorem saveJobRun_dir (js : JobRunJSON) (fl : Faults) (d : Dir) (p : String) (r : JobRun) :
    (saveJobRun js fl d p r).1 = d ∨ ∃ c, (saveJobRun js fl d p r).1 = d.write p c := by
  unfold saveJobRun
  cases ensureSpoolDirExists fl.ensureDirSave with
  | some err => exact Or.inl rfl
  | none =>
    cases fl.openFile p with
    | some err => exact Or.inl rfl
    | none =>
      cases fl.encode with
      | some e => exact Or.inr ⟨e.1, rfl⟩
      | none => exact Or.inr ⟨js.encode r, rfl⟩

/-- What a call of `NewJob` that returns no uniqID has done. -/
theorem NewJob_failed (js : JobRunJSON) (fl : Faults) (d : Dir) (r : JobRun) (forcedRun : Bool)
    (h : (NewJob js fl d r forcedRun).uniqID = "") :
    ∃ e d' r0, e ≠ Error.ErrJobAlreadyRunning ∧
      NewJob js fl d r forcedRun = ⟨d', r0, "", some e⟩ ∧
      (d' = d ∨ d' = (if forcedRun then (removeFiles fl d (runningEntries d r.ID)).1 else d) ∨
        ∃ c, d' = (if forcedRun then (removeFiles fl d (runningEntries d r.ID)).1 else d).write
          (getFilePath (getUniqJobRunID r.ID (alreadyRunning d r.ID) r.StartedAt)) c) := by
  unfold NewJob at h ⊢
  cases hL : getLock fl r.ID with
  | some err =>
    refine ⟨err, d, r, ?_, rfl, Or.inl rfl⟩
    intro he
    exact getLock_ne_sentinel fl r.ID (he ▸ hL)
  | none =>
    simp only [hL] at h ⊢
    unfold findDuplicateRuns at h ⊢
    cases hG : fl.glob with
    | some err => exact ⟨_, d, r, by simp, rfl, Or.inl rfl⟩
    | none =>
      simp only [hG] at h ⊢
      have hID : ∀ b : Bool,
          (if b = true then r.AddError Error.ErrJobAlreadyRunning.text else r).ID = r.ID := by
        intro b; cases b <;> rfl
      have hSt : ∀ b : Bool,
          (if b = true then r.AddError Error.ErrJobAlreadyRunning.text else r).StartedAt
            = r.StartedAt := by
        intro b; cases b <;> rfl
      simp only [hID, hSt] at h ⊢
      cases forcedRun with
      | false =>
        simp only [Bool.false_eq_true, if_false] at h ⊢
        have hne := saveJobRun_ne_sentinel js fl d
            (getFilePath (getUniqJobRunID r.ID
              (decide ((globNames d (duplicateRunsPattern r.ID)).length > 0)) r.StartedAt))
            (if (!false && decide ((globNames d (duplicateRunsPattern r.ID)).length > 0)) = true
              then r.AddError Error.ErrJobAlreadyRunning.text else r)
        have hdir := saveJobRun_dir js fl d
            (getFilePath (getUniqJobRunID r.ID
              (decide ((globNames d (duplicateRunsPattern r.ID)).length > 0)) r.StartedAt))
            (if (!false && decide ((globNames d (duplicateRunsPattern r.ID)).length > 0)) = true
              then r.AddError Error.ErrJobAlreadyRunning.text else r)
        cases hsv : saveJobRun js fl d
            (getFilePath (getUniqJobRunID r.ID
              (decide ((globNames d (duplicateRunsPattern r.ID)).length > 0)) r.StartedAt))
            (if (!false && decide ((globNames d (duplicateRunsPattern r.ID)).length > 0)) = true
              then r.AddError Error.ErrJobAlreadyRunning.text else r) with
        | mk d2 e2 =>
          rw [hsv] at h hne hdir
          cases e2 with
          | none => exact absurd h (getUniqJobRunID_ne_empty _ _ _)
          | some e =>
            refine ⟨e, d2, _, fun he => hne (by rw [he]), rfl, ?_⟩
            rcases hdir with hd | ⟨c, hd⟩
            · exact Or.inl hd
            · exact Or.inr (Or.inr ⟨c, hd⟩)
      | true =>
        simp only [if_true] at h ⊢
        have hrne := removeFiles_ne_sentinel fl d (globNames d (duplicateRunsPattern r.ID))
        cases hrm : removeFiles fl d (globNames d (duplicateRunsPattern r.ID)) with
        | mk d1 e1 =>
          have hrm' : removeFiles fl d (runningEntries d r.ID) = (d1, e1) := hrm
          rw [hrm] at hrne
          cases e1 with
          | some e =>
            refine ⟨e, d1, _, fun he => hrne (by rw [he]), rfl, Or.inr (Or.inl ?_)⟩
            rw [hrm']
          | none =>
            simp only [hrm] at h ⊢
            have hne := saveJobRun_ne_sentinel js fl d1
                (getFilePath (getUniqJobRunID r.ID
                  (decide ((globNames d (duplicateRunsPattern r.ID)).length > 0)) r.StartedAt))
                (if (!true && decide ((globNames d (duplicateRunsPattern r.ID)).length > 0)) = true
                  then r.AddError Error.ErrJobAlreadyRunning.text else r)
            have hdir := saveJobRun_dir js fl d1
                (getFilePath (getUniqJobRunID r.ID
                  (decide ((globNames d (duplicateRunsPattern r.ID)).length > 0)) r.StartedAt))
                (if (!true && decide ((globNames d (duplicateRunsPattern r.ID)).length > 0)) = true
                  then r.AddError Error.ErrJobAlreadyRunning.text else r)
            cases hsv : saveJobRun js fl d1
                (getFilePath (getUniqJobRunID r.ID
                  (decide ((globNames d (duplicateRunsPattern r.ID)).length > 0)) r.StartedAt))
                (if (!true && decide ((globNames d (duplicateRunsPattern r.ID)).length > 0)) = true
                  then r.AddError Error.ErrJobAlreadyRunning.text else r) with
            | mk d2 e2 =>
              rw [hsv] at h hne hdir
              cases e2 with
              | none => exact absurd h (getUniqJobRunID_ne_empty _ _ _)
              | some e =>
                refine ⟨e, d2, _, fun he => hne (by rw [he]), rfl, ?_⟩
                rw [hrm']
                rcases hdir with hd | ⟨c, hd⟩
                · exact Or.inr (Or.inl hd)
                · exact Or.inr (Or.inr ⟨c, hd⟩)

/-- A call of `NewJob` succeeded exactly when it returns a uniqID. -/
theorem NewJob_succeeded_iff (js : JobRunJSON) (fl : Faults) (d : Dir) (r : JobRun)
    (forcedRun : Bool) :
    (NewJob js fl d r forcedRun).succeeded ↔ (NewJob js fl d r forcedRun).uniqID ≠ "" := by
  constructor
  · intro h1 h2
    obtain ⟨e, d', r0, hne, heq, -⟩ := NewJob_failed js fl d r forcedRun h2
    rw [heq] at h1
    rcases h1 with h1 | h1
    · exact absurd h1 (by simp)
    · simp only [Option.some.injEq] at h1
      exact hne h1
  · intro h
    rw [(NewJob_ok js fl d r forcedRun h).1]
    unfold NewJobResult.succeeded
    by_cases hb : (!forcedRun && alreadyRunning d r.ID) = true <;> simp [hb]


/-! ## Counting running entries -/

theorem length_runningEntries (d : Dir) (jobID : List Byte) :
    (runningEntries d jobID).length =
      d.names.countP (filepathMatch (duplicateRunsPattern jobID)) :=
  length_globNames d _

theorem length_runningEntries_le_of_sublist (d d' : Dir) (jobID : List Byte)
    (h : d'.names.Sublist d.names) :
    (runningEntries d' jobID).length ≤ (runningEntries d jobID).length := by
  rw [length_runningEntries, length_runningEntries]
  exact h.countP_le _

theorem names_remove_sublist (d : Dir) (p : String) : (d.remove p).names.Sublist d.names := by
  rw [Dir.names_remove]
  exact List.filter_sublist _

theorem countP_remove_of_not (d : Dir) (p : String) (f : String → Bool) (hp : f p = false) :
    (d.remove p).names.countP f = d.names.countP f := by
  rw [Dir.names_remove, List.countP_filter]
  apply List.countP_congr
  intro a _
  by_cases ha : a = p
  · subst ha
    simp [hp]
  · simp [ha]

theorem countP_write_of_not (d : Dir) (p c : String) (f : String → Bool) (hp : f p = false) :
    (d.write p c).names.countP f = d.names.countP f := by
  rw [countP_write, countP_remove_of_not _ _ _ hp]
  simp [hp]

/-- Writing the file of a finished uniqID leaves the running entries of every job in number. -/
theorem length_runningEntries_write_finished (d : Dir) (jobID jobID' : List Byte) (t : Int)
    (c : String) :
    (runningEntries (d.write (getFilePath (getUniqJobRunID jobID true t)) c) jobID').length =
      (runningEntries d jobID').length := by
  rw [length_runningEntries, length_runningEntries]
  exact countP_write_of_not _ _ _ _ (filepathMatch_finished_eq_false _ _ _)

/-- Writing the file of a uniqID adds at most one running entry, and none to another job or
under the finished marker. -/
theorem length_runningEntries_write_le (d : Dir) (jobID jobID' : List Byte) (fin : Bool)
    (t : Int) (c : String) :
    (runningEntries (d.write (getFilePath (getUniqJobRunID jobID fin t)) c) jobID').length ≤
      (runningEntries d jobID').length +
        if fin = false ∧ jobID = jobID' then 1 else 0 := by
  rw [length_runningEntries, length_runningEntries, countP_write]
  have h1 := countP_remove_le d (getFilePath (getUniqJobRunID jobID fin t))
    (filepathMatch (duplicateRunsPattern jobID'))
  by_cases hm : filepathMatch (duplicateRunsPattern jobID')
      (getFilePath (getUniqJobRunID jobID fin t)) = true
  · have h2 := eq_of_filepathMatch_running _ _ _ _ hm
    rw [if_pos hm, if_pos h2]
    omega
  · rw [if_neg hm]
    omega

/-! ## Facts about `FinishJob` -/

/-- What a call of `FinishJob` that returns no error has done. -/
theorem FinishJob_ok (js : JobRunJSON) (fl : Faults) (d : Dir) (uniqID : String) (r : JobRun)
    (h : (FinishJob js fl d uniqID r).2 = none) :
    ∃ content, d.read (getFilePath uniqID) = some content ∧
      (FinishJob js fl d uniqID r).1 =
        (((d.remove (getFilePath uniqID)).write
          (getFilePath (getUniqJobRunID r.ID true r.StartedAt)) content).write
          (getFilePath (getUniqJobRunID r.ID true r.StartedAt)) (js.encode r)) := by
  unfold FinishJob at h ⊢
  cases hL : getLock fl r.ID with
  | some err => simp [hL] at h
  | none =>
    simp only [hL] at h ⊢
    cases hR : fl.rename with
    | some err => simp [hR] at h
    | none =>
      simp only [hR] at h ⊢
      unfold Dir.rename at h ⊢
      cases hread : d.read (getFilePath uniqID) with
      | none => simp [hread] at h
      | some content =>
        simp only [hread] at h ⊢
        refine ⟨content, rfl, ?_⟩
        unfold saveJobRun at h ⊢
        cases h1 : ensureSpoolDirExists fl.ensureDirSave with
        | some e => simp [h1] at h
        | none =>
          cases h2 : fl.openFile (getFilePath (getUniqJobRunID r.ID true r.StartedAt)) with
          | some e => simp [h1, h2] at h
          | none =>
            cases h3 : fl.encode with
            | some e => simp [h1, h2, h3] at h
            | none => rfl

/-- The directory `FinishJob` leaves: untouched, or with the file renamed to the finished
path of the run, and that file then possibly rewritten. -/
theorem FinishJob_dir (js : JobRunJSON) (fl : Faults) (d : Dir) (uniqID : String) (r : JobRun) :
    (FinishJob js fl d uniqID r).1 = d ∨
    ∃ content, d.read (getFilePath uniqID) = some content ∧
      ((FinishJob js fl d uniqID r).1 =
        (d.remove (getFilePath uniqID)).write
          (getFilePath (getUniqJobRunID r.ID true r.StartedAt)) content ∨
      ∃ c, (FinishJob js fl d uniqID r).1 =
        ((d.remove (getFilePath uniqID)).write
          (getFilePath (getUniqJobRunID r.ID true r.StartedAt)) content).write
          (getFilePath (getUniqJobRunID r.ID true r.StartedAt)) c) := by
  unfold FinishJob
  cases hL : getLock fl r.ID with
  | some err => exact Or.inl rfl
  | none =>
    simp only [hL]
    cases hR : fl.rename with
    | some err => exact Or.inl rfl
    | none =>
      simp only [hR]
      unfold Dir.rename
      cases hread : d.read (getFilePath uniqID) with
      | none => exact Or.inl rfl
      | some content =>
        simp only [hread]
        refine Or.inr ⟨content, rfl, ?_⟩
        exact saveJobRun_dir js fl _ _ r

/-- A call of `FinishJob` on a missing file fails and changes nothing. -/
theorem FinishJob_missing (js : JobRunJSON) (fl : Faults) (d : Dir) (uniqID : String)
    (r : JobRun) (h : d.read (getFilePath uniqID) = none) :
    (FinishJob js fl d uniqID r).2 ≠ none ∧ (FinishJob js fl d uniqID r).1 = d := by
  unfold FinishJob
  cases hL : getLock fl r.ID with
  | some err => exact ⟨by simp, rfl⟩
  | none =>
    simp only [hL]
    cases hR : fl.rename with
    | some err => exact ⟨by simp, rfl⟩
    | none =>
      simp only [hR]
      unfold Dir.rename
      simp only [h]
      exact ⟨by simp, trivial⟩


/-! ## Running entries across the operations -/

theorem alreadyRunning_eq_true_iff (d : Dir) (jobID : List Byte) :
    alreadyRunning d jobID = true ↔ runningEntries d jobID ≠ [] := by
  simp [alreadyRunning, List.length_pos]

theorem alreadyRunning_eq_false_iff (d : Dir) (jobID : List Byte) :
    alreadyRunning d jobID = false ↔ runningEntries d jobID = [] := by
  rw [← Bool.not_eq_true, alreadyRunning_eq_true_iff, not_not]

/-- A running entry is never the file of a finished uniqID. -/
theorem ne_finished_of_mem_runningEntries (d : Dir) (jobID jobID' : List Byte) (t : Int)
    (p : String) (h : p ∈ runningEntries d jobID') :
    p ≠ getFilePath (getUniqJobRunID jobID true t) := by
  intro hp
  have hm := ((mem_globNames _ _ _).1 h).2
  rw [hp, filepathMatch_finished_eq_false] at hm
  exact absurd hm (by decide)

/-- The directory `NewJob` leaves: some of the old files, and possibly the file of the
uniqID written on top. -/
theorem NewJob_dir (js : JobRunJSON) (fl : Faults) (d : Dir) (r : JobRun) (forcedRun : Bool) :
    ∃ d1 : Dir, d1.names.Sublist d.names ∧
      ((NewJob js fl d r forcedRun).dir = d1 ∨
        ∃ c, (NewJob js fl d r forcedRun).dir =
          d1.write (getFilePath (getUniqJobRunID r.ID (alreadyRunning d r.ID) r.StartedAt)) c) := by
  have hsub : (if forcedRun then (removeFiles fl d (runningEntries d r.ID)).1 else d).names.Sublist
      d.names := by
    cases forcedRun with
    | false => exact List.Sublist.refl _
    | true => exact removeFiles_names_sublist _ _ _
  by_cases h : (NewJob js fl d r forcedRun).uniqID = ""
  · obtain ⟨e, d', r0, -, heq, hd⟩ := NewJob_failed js fl d r forcedRun h
    rw [heq]
    rcases hd with hd | hd | ⟨c, hd⟩
    · exact ⟨d, List.Sublist.refl _, Or.inl hd⟩
    · exact ⟨_, hsub, Or.inl hd⟩
    · exact ⟨_, hsub, Or.inr ⟨c, hd⟩⟩
  · have heq := (NewJob_ok js fl d r forcedRun h).1
    rw [heq]
    exact ⟨_, hsub, Or.inr ⟨_, rfl⟩⟩

/-- A call of `NewJob` leaves a job with at most one running entry, or with no more than
it had. -/
theorem NewJob_running_le (js : JobRunJSON) (fl : Faults) (d : Dir) (r : JobRun)
    (forcedRun : Bool) (jobID : List Byte) :
    (runningEntries (NewJob js fl d r forcedRun).dir jobID).length ≤
      max 1 (runningEntries d jobID).length := by
  obtain ⟨d1, hsub, hd⟩ := NewJob_dir js fl d r forcedRun
  have h1 := length_runningEntries_le_of_sublist d d1 jobID hsub
  rcases hd with hd | ⟨c, hd⟩
  · rw [hd]
    exact le_trans h1 (le_max_right _ _)
  · rw [hd]
    have h2 := length_runningEntries_write_le d1 r.ID jobID (alreadyRunning d r.ID)
      r.StartedAt c
    by_cases hc : alreadyRunning d r.ID = false ∧ r.ID = jobID
    · rw [if_pos hc] at h2
      have h3 := (alreadyRunning_eq_false_iff d r.ID).1 hc.1
      rw [hc.2] at h3
      rw [h3] at h1
      simp only [List.length_nil, Nat.le_zero] at h1
      rw [h1] at h2
      exact le_trans h2 (le_max_left _ _)
    · rw [if_neg hc] at h2
      exact le_trans (le_trans h2 h1) (le_max_right _ _)

theorem FinishJob_running_le (js : JobRunJSON) (fl : Faults) (d : Dir) (uniqID : String)
    (r : JobRun) (jobID : List Byte) :
    (runningEntries (FinishJob js fl d uniqID r).1 jobID).length ≤
      (runningEntries d jobID).length := by
  have hrm := length_runningEntries_le_of_sublist d (d.remove (getFilePath uniqID)) jobID
    (names_remove_sublist _ _)
  rcases FinishJob_dir js fl d uniqID r with h | ⟨content, -, h | ⟨c, h⟩⟩
  · rw [h]
  · rw [h, length_runningEntries_write_finished]
    exact hrm
  · rw [h, length_runningEntries_write_finished, length_runningEntries_write_finished]
    exact hrm

theorem RemoveJobs_running_le (fl : Faults) (d : Dir) (ids : List String) (jobID : List Byte) :
    (runningEntries (RemoveJobs fl d ids).1 jobID).length ≤ (runningEntries d jobID).length :=
  length_runningEntries_le_of_sublist _ _ _ (removeFiles_names_sublist _ _ _)

/-- In a reachable spool every job has at most one running entry. -/
theorem Reachable.running_le_one (js : JobRunJSON) (d : Dir) (h : Reachable js d)
    (jobID : List Byte) : (runningEntries d jobID).length ≤ 1 := by
  induction h with
  | empty => simp [runningEntries, globNames, Dir.names]
  | newJob fl d r forcedRun _ ih =>
    exact le_trans (NewJob_running_le js fl d r forcedRun jobID) (max_le (le_refl 1) ih)
  | finishJob fl d uniqID r _ ih =>
    exact le_trans (FinishJob_running_le js fl d uniqID r jobID) ih
  | removeJobs fl d ids _ ih =>
    exact le_trans (RemoveJobs_running_le fl d ids jobID) ih

/-- A successful unforced `NewJob` leaves its job with one running entry if it had none,
and with those it had otherwise. -/
theorem NewJob_unforced_running (js : JobRunJSON) (fl : Faults) (d : Dir) (r : JobRun)
    (hok : (NewJob js fl d r false).succeeded) :
    (runningEntries (NewJob js fl d r false).dir r.ID).length =
      max 1 (runningEntries d r.ID).length := by
  have hne := (NewJob_succeeded_iff js fl d r false).1 hok
  rw [(NewJob_ok js fl d r false hne).1]
  simp only [Bool.false_eq_true, if_false]
  cases har : alreadyRunning d r.ID with
  | true =>
    rw [length_runningEntries_write_finished]
    have := List.length_pos.2 ((alreadyRunning_eq_true_iff d r.ID).1 har)
    omega
  | false =>
    have h0 := (alreadyRunning_eq_false_iff d r.ID).1 har
    rw [length_runningEntries, countP_write, if_pos (filepathMatch_running _ _)]
    have h1 := countP_remove_le d (getFilePath (getUniqJobRunID r.ID false r.StartedAt))
      (filepathMatch (duplicateRunsPattern r.ID))
    have h2 : d.names.countP (filepathMatch (duplicateRunsPattern r.ID)) = 0 := by
      rw [← length_runningEntries, h0]
      rfl
    rw [h2] at h1
    rw [h0]
    simp only [Nat.le_zero] at h1
    rw [h1]
    rfl

/-! ## Adequacy of the model -/

theorem getLockLoop_succ (tryLock : Nat → Option String) (fuel retry : Nat) :
    getLockLoop tryLock (fuel + 1) retry =
      match tryLock retry with
      | none => none
      | some err =>
        if retry + 1 ≥ retryLimit then some (.sys err)
        else getLockLoop tryLock fuel (retry + 1) := rfl

/-- The retry loop never runs out of fuel: once the fuel covers the attempts that are left,
more fuel does not change the result. -/
theorem getLockLoop_fuel (tryLock : Nat → Option String) (fuel retry : Nat)
    (hfuel : retryLimit ≤ fuel + retry) (hpos : 1 ≤ fuel) :
    getLockLoop tryLock (fuel + 1) retry = getLockLoop tryLock fuel retry := by
  induction fuel generalizing retry with
  | zero => omega
  | succ fuel ih =>
    rw [getLockLoop_succ tryLock (fuel + 1) retry, getLockLoop_succ tryLock fuel retry]
    cases tryLock retry with
    | none => rfl
    | some err =>
      by_cases hr : retry + 1 ≥ retryLimit
      · simp only [hr, if_true]
      · simp only [hr, if_false]
        have hlt : retry + 1 < retryLimit := Nat.lt_of_not_ge hr
        exact ih (retry + 1) (by omega) (by omega)

/-- The loop of `getLock` ends in the lock or in the error of an attempt, never in the
fuel bound. -/
theorem getLockLoop_result (tryLock : Nat → Option String) (fuel retry : Nat)
    (hfuel : retryLimit ≤ fuel + retry) (hpos : 1 ≤ fuel) :
    getLockLoop tryLock fuel retry = none ∨
      ∃ n err, tryLock n = some err ∧ getLockLoop tryLock fuel retry = some (.sys err) := by
  induction fuel generalizing retry with
  | zero => omega
  | succ fuel ih =>
    rw [getLockLoop_succ]
    cases htl : tryLock retry with
    | none => exact Or.inl rfl
    | some err =>
      by_cases hr : retry + 1 ≥ retryLimit
      · simp only [hr, if_true]
        exact Or.inr ⟨retry, err, htl, rfl⟩
      · simp only [hr, if_false]
        have hlt : retry + 1 < retryLimit := Nat.lt_of_not_ge hr
        exact ih (retry + 1) (by omega) (by omega)

/-- The operations keep the file names of the directory distinct. -/
theorem Reachable.WF (js : JobRunJSON) (d : Dir) (h : Reachable js d) : d.WF := by
  induction h with
  | empty => exact List.nodup_nil
  | newJob fl d r forcedRun _ ih =>
    obtain ⟨d1, hsub, hd⟩ := NewJob_dir js fl d r forcedRun
    have h1 : d1.WF := hsub.nodup ih
    rcases hd with hd | ⟨c, hd⟩
    · rw [hd]
      exact h1
    · rw [hd]
      exact Dir.write_WF _ _ _ h1
  | finishJob fl d uniqID r _ ih =>
    rcases FinishJob_dir js fl d uniqID r with h | ⟨content, -, h | ⟨c, h⟩⟩
    · rw [h]
      exact ih
    · rw [h]
      exact Dir.write_WF _ _ _ (Dir.remove_WF _ _ ih)
    · rw [h]
      exact Dir.write_WF _ _ _ (Dir.write_WF _ _ _ (Dir.remove_WF _ _ ih))
  | removeJobs fl d ids _ ih => exact removeFiles_WF fl d _ ih


/-! ## More facts about removal and listing -/

theorem Dir.remove_of_absent (d : Dir) (p : String) (h : d.read p = none) : d.remove p = d := by
  have hp := (Dir.read_eq_none_iff d p).1 h
  unfold Dir.remove
  rw [List.filter_eq_self]
  intro e he
  have hne : e.1 ≠ p := by
    intro heq
    apply hp
    rw [← heq]
    exact List.mem_map_of_mem Prod.fst he
  simpa using hne

/-- A batch removal succeeds exactly when `os.Remove` refuses none of the paths. -/
theorem removeFiles_ok_iff (fl : Faults) (d : Dir) (paths : List String) :
    (removeFiles fl d paths).2 = none ↔ ∀ p ∈ paths, fl.remove p = none := by
  induction paths generalizing d with
  | nil => simp [removeFiles]
  | cons f rest ih =>
    simp only [removeFiles, removeFile, List.mem_cons, forall_eq_or_imp]
    cases hf : fl.remove f with
    | some err => simp
    | none =>
      simp only [true_and]
      exact ih _

/-- Removing files that are not there changes nothing. -/
theorem removeFiles_of_absent (fl : Faults) (d : Dir) (paths : List String)
    (habs : ∀ p ∈ paths, d.read p = none) (hok : ∀ p ∈ paths, fl.remove p = none) :
    removeFiles fl d paths = (d, none) := by
  induction paths with
  | nil => rfl
  | cons f rest ih =>
    simp only [List.mem_cons, forall_eq_or_imp] at habs hok
    simp only [removeFiles, removeFile, hok.1, Dir.remove_of_absent d f habs.1]
    exact ih habs.2 hok.2

/-- A batch removal stops at the first path `os.Remove` refuses. -/
theorem removeFiles_append_fail (fl : Faults) (d : Dir) (pre post : List String) (f msg : String)
    (hpre : ∀ p ∈ pre, fl.remove p = none) (hfail : fl.remove f = some msg) :
    removeFiles fl d (pre ++ f :: post) =
      ((removeFiles fl d pre).1, some (.wrap (.sys msg) ("while removing " ++ f))) := by
  induction pre generalizing d with
  | nil => simp [removeFiles, removeFile, hfail]
  | cons p pre ih =>
    simp only [List.mem_cons, forall_eq_or_imp] at hpre
    simp only [List.cons_append, removeFiles, removeFile, hpre.1]
    exact ih _ hpre.2

theorem removeFilesT_fst (fl : Faults) (d : Dir) (paths : List String) :
    (removeFilesT fl d paths).1 = removeFiles fl d paths := by
  induction paths generalizing d with
  | nil => rfl
  | cons f rest ih =>
    simp only [removeFilesT, removeFiles]
    cases hf : removeFile fl d f with
    | mk d' e =>
      cases e with
      | some err => rfl
      | none => exact ih d'

/-- The calls of a batch removal that stops at a refused path: one per path up to and
including that one. -/
theorem removeFilesT_append_fail (fl : Faults) (d : Dir) (pre post : List String)
    (f msg : String) (hpre : ∀ p ∈ pre, fl.remove p = none) (hfail : fl.remove f = some msg) :
    (removeFilesT fl d (pre ++ f :: post)).2 = (pre ++ [f]).map Event.remove := by
  induction pre generalizing d with
  | nil => simp [removeFilesT, removeFile, hfail]
  | cons p pre ih =>
    simp only [List.mem_cons, forall_eq_or_imp] at hpre
    simp only [List.cons_append, removeFilesT, removeFile, hpre.1, List.map_cons]
    exact congrArg _ (ih _ hpre.2)

theorem toDigitsCore_ne_nil (fuel n : Nat) (ds : List Char) (h : ds ≠ []) :
    Nat.toDigitsCore 10 fuel n ds ≠ [] := by
  induction fuel generalizing n ds with
  | zero => simpa [Nat.toDigitsCore] using h
  | succ fuel ih =>
    simp only [Nat.toDigitsCore]
    split
    · simp
    · exact ih _ _ (by simp)

/-- The decimal form of an integer is not empty. -/
theorem formatInt_ne_nil (n : Int) : (formatInt n).data ≠ [] := by
  have hrepr : ∀ m : Nat, (Nat.repr m).data ≠ [] := by
    intro m
    simp only [Nat.repr, Nat.toDigits, List.asString, Nat.toDigitsCore]
    split
    · simp
    · exact toDigitsCore_ne_nil _ _ _ (by simp)
  cases n with
  | ofNat m => exact hrepr m
  | negSucc m => simp [formatInt, String.data_append]

/-- The file of a finished uniqID matches the pattern of `GetFinishedJobs`. -/
theorem filepathMatch_finished (jobID : List Byte) (t : Int) :
    filepathMatch finishedJobsPattern (getFilePath (getUniqJobRunID jobID true t)) = true := by
  rw [filepathMatch, finishedJobsPattern_data, matchChars_literal_append _ _ _ (by decide)]
  refine ⟨(formatInt t).data ++ '_' :: hexChars jobID ++ ['.', 'j', 's', 'o', 'n'], ?_, ?_⟩
  · simp [getFilePath_data, getUniqJobRunID_data]
  · rw [matchChars_star, matchStar_iff]
    refine ⟨(formatInt t).data, '_' :: hexChars jobID ++ ['.', 'j', 's', 'o', 'n'], by simp,
      slash_not_mem_formatInt t, ?_⟩
    rw [show ('_' :: '*' :: ['.', 'j', 's', 'o', 'n'] : List Char) =
      ['_'] ++ '*' :: ['.', 'j', 's', 'o', 'n'] from rfl,
      matchChars_pre_star_suf _ _ _ (by decide) (by decide)]
    exact ⟨hexChars jobID, by simp, slash_not_mem_hexChars jobID⟩


/-! ## Facts about the lock coordinator -/

theorem getLockLoopT_fst (fl : Faults) (jobID : List Byte) (fuel retry : Nat) :
    (getLockLoopT fl jobID fuel retry).1 =
      getLockLoop (fl.tryLock (lockFileName jobID)) fuel retry := by
  induction fuel generalizing retry with
  | zero => rfl
  | succ fuel ih =>
    rw [getLockLoop_succ]
    unfold getLockLoopT
    cases fl.tryLock (lockFileName jobID) retry with
    | none => rfl
    | some err =>
      by_cases hr : retry + 1 ≥ retryLimit
      · simp only [hr, if_true]
      · simp only [hr, if_false]
        exact ih _

/-- The traced `getLock` returns what `getLock` returns. -/
theorem getLockT_fst (fl : Faults) (jobID : List Byte) :
    (getLockT fl jobID).1 = getLock fl jobID := by
  unfold getLockT getLock
  cases ensureSpoolDirExists fl.ensureDirLock with
  | some err => rfl
  | none =>
    cases fl.lockNew (lockFileName jobID) with
    | some err => rfl
    | none => exact getLockLoopT_fst _ _ _ _

/-- The calls of the retry loop: failed attempts, each followed by the owner lookup, the log
line and the pause, and then one last attempt, which gets the lock or is the last one
allowed. -/
theorem getLockLoopT_shape (fl : Faults) (jobID : List Byte) (fuel retry : Nat)
    (hretry : retry < retryLimit) (hfuel : retryLimit ≤ fuel + retry) :
    ∃ (n : Nat) (ok : Bool), retry + n < retryLimit ∧
      (getLockLoopT fl jobID fuel retry).2 =
        (List.range' retry n).flatMap (failedAttempt fl jobID) ++
          [.tryLock (lockFileName jobID) ok] ∧
      (∀ j, retry ≤ j → j < retry + n → fl.tryLock (lockFileName jobID) j ≠ none) ∧
      (ok = true → fl.tryLock (lockFileName jobID) (retry + n) = none ∧
        (getLockLoopT fl jobID fuel retry).1 = none) ∧
      (ok = false → retry + n + 1 = retryLimit ∧
        ∃ err, fl.tryLock (lockFileName jobID) (retry + n) = some err ∧
          (getLockLoopT fl jobID fuel retry).1 = some (.sys err)) := by
  induction fuel generalizing retry with
  | zero => omega
  | succ fuel ih =>
    unfold getLockLoopT
    cases htl : fl.tryLock (lockFileName jobID) retry with
    | none =>
      refine ⟨0, true, by omega, by simp, fun j h1 h2 => by omega, fun _ => ⟨htl, rfl⟩, ?_⟩
      intro h
      exact absurd h (by decide)
    | some err =>
      by_cases hr : retry + 1 ≥ retryLimit
      · simp only [hr, if_true]
        refine ⟨0, false, by omega, by simp, fun j h1 h2 => by omega, ?_, ?_⟩
        · intro h
          exact absurd h (by decide)
        · intro _
          exact ⟨by omega, err, htl, rfl⟩
      · simp only [hr, if_false]
        have hlt : retry + 1 < retryLimit := Nat.lt_of_not_ge hr
        obtain ⟨n, ok, hn, htrace, hfail, hok, hbad⟩ := ih (retry + 1) hlt (by omega)
        refine ⟨n + 1, ok, by omega, ?_, ?_, ?_, ?_⟩
        · rw [htrace, List.range'_succ, List.flatMap_cons, List.append_assoc]
        · intro j h1 h2
          by_cases hj : j = retry
          · rw [hj, htl]
            simp
          · exact hfail j (by omega) (by omega)
        · intro h
          have := hok h
          rw [show retry + (n + 1) = retry + 1 + n by omega]
          exact this
        · intro h
          have := hbad h
          rw [show retry + (n + 1) = retry + 1 + n by omega]
          exact ⟨by omega, this.2⟩

/-- The calls of `getLock` once the directory check and `lockfile.New` went through. -/
theorem getLockT_shape (fl : Faults) (jobID : List Byte)
    (hdir : ensureSpoolDirExists fl.ensureDirLock = none)
    (hnew : fl.lockNew (lockFileName jobID) = none) :
    ∃ (n : Nat) (ok : Bool), n < retryLimit ∧
      (getLockT fl jobID).2 =
        (List.range n).flatMap (failedAttempt fl jobID) ++ [.tryLock (lockFileName jobID) ok] ∧
      (∀ j, j < n → fl.tryLock (lockFileName jobID) j ≠ none) ∧
      (ok = true → fl.tryLock (lockFileName jobID) n = none ∧ (getLockT fl jobID).1 = none) ∧
      (ok = false → n + 1 = retryLimit ∧
        ∃ err, fl.tryLock (lockFileName jobID) n = some err ∧
          (getLockT fl jobID).1 = some (.sys err)) := by
  obtain ⟨n, ok, hn, htrace, hfail, hok, hbad⟩ :=
    getLockLoopT_shape fl jobID retryLimit 0 (by decide) (by omega)
  have heq : getLockT fl jobID = getLockLoopT fl jobID retryLimit 0 := by
    unfold getLockT
    rw [hdir, hnew]
  simp only [heq, List.range_eq_range']
  simp only [Nat.zero_add] at hn htrace hfail hok hbad
  exact ⟨n, ok, hn, htrace, fun j hj => hfail j (Nat.zero_le j) hj, hok, hbad⟩

/-- Without the directory or the lock file object, `getLock` makes no call on the lock. -/
theorem getLockT_early (fl : Faults) (jobID : List Byte)
    (h : ensureSpoolDirExists fl.ensureDirLock ≠ none ∨ fl.lockNew (lockFileName jobID) ≠ none) :
    (getLockT fl jobID).2 = [] ∧ (getLockT fl jobID).1 ≠ none := by
  unfold getLockT
  cases hdir : ensureSpoolDirExists fl.ensureDirLock with
  | some err => exact ⟨rfl, by simp⟩
  | none =>
    cases hnew : fl.lockNew (lockFileName jobID) with
    | some err => exact ⟨rfl, by simp⟩
    | none =>
      rcases h with h | h
      · exact absurd hdir h
      · exact absurd hnew h

/-! ### Counting over the failed attempts -/

theorem attempts_append (s t : List Event) : attempts (s ++ t) = attempts s + attempts t := by
  simp [attempts, List.countP_append]

theorem sleeps_append (s t : List Event) : sleeps (s ++ t) = sleeps s + sleeps t := by
  simp [sleeps, List.countP_append]

theorem sleepTotal_append (s t : List Event) :
    sleepTotal (s ++ t) = sleepTotal s + sleepTotal t := by
  simp [sleepTotal, List.sum_append]

theorem logLines_append (s t : List Event) : logLines (s ++ t) = logLines s ++ logLines t := by
  simp [logLines, List.filterMap_append]

theorem attempts_failedAttempts (fl : Faults) (jobID : List Byte) (l : List Nat) :
    attempts (l.flatMap (failedAttempt fl jobID)) = l.length := by
  induction l with
  | nil => rfl
  | cons a l ih =>
    rw [List.flatMap_cons, attempts_append, ih, List.length_cons, Nat.add_comm]
    rfl

theorem sleeps_failedAttempts (fl : Faults) (jobID : List Byte) (l : List Nat) :
    sleeps (l.flatMap (failedAttempt fl jobID)) = l.length := by
  induction l with
  | nil => rfl
  | cons a l ih =>
    rw [List.flatMap_cons, sleeps_append, ih, List.length_cons, Nat.add_comm]
    rfl

theorem sleepTotal_failedAttempts (fl : Faults) (jobID : List Byte) (l : List Nat) :
    sleepTotal (l.flatMap (failedAttempt fl jobID)) = retryIn * l.length := by
  induction l with
  | nil => rfl
  | cons a l ih =>
    have h1 : sleepTotal (failedAttempt fl jobID a) = retryIn := by
      simp [sleepTotal, failedAttempt, Event.sleepTime]
    rw [List.flatMap_cons, sleepTotal_append, ih, h1, List.length_cons]
    simp only [retryIn]
    omega

theorem logLines_failedAttempts (fl : Faults) (jobID : List Byte) (l : List Nat) :
    logLines (l.flatMap (failedAttempt fl jobID)) =
      l.map (fun n => lockLogMessage jobID
        (ownerInfo (fl.getOwner (lockFileName jobID) n)) (n + 1)) := by
  induction l with
  | nil => rfl
  | cons a l ih =>
    rw [List.flatMap_cons, logLines_append, ih, List.map_cons]
    rfl

theorem mem_failedAttempts (fl : Faults) (jobID : List Byte) (l : List Nat) (e : Event)
    (h : e ∈ l.flatMap (failedAttempt fl jobID)) :
    e.isMutation = false ∧ e.changesLock = false ∧ e.isUnlock = false := by
  rw [List.mem_flatMap] at h
  obtain ⟨n, -, hn⟩ := h
  simp only [failedAttempt, List.mem_cons, List.mem_singleton, List.not_mem_nil, or_false] at hn
  rcases hn with rfl | rfl | rfl | rfl <;> exact ⟨rfl, rfl, rfl⟩


/-! ## Facts about the traced operations -/

theorem NewJob_of_getLock_error (js : JobRunJSON) (fl : Faults) (d : Dir) (r : JobRun)
    (forcedRun : Bool) (err : Error) (h : getLock fl r.ID = some err) :
    NewJob js fl d r forcedRun = ⟨d, r, "", some err⟩ := by
  unfold NewJob
  rw [h]

theorem FinishJob_of_getLock_error (js : JobRunJSON) (fl : Faults) (d : Dir) (uniqID : String)
    (r : JobRun) (err : Error) (h : getLock fl r.ID = some err) :
    FinishJob js fl d uniqID r = (d, some err) := by
  unfold FinishJob
  rw [h]

theorem NewJobT_of_getLock_error (js : JobRunJSON) (fl : Faults) (d : Dir) (r : JobRun)
    (forcedRun : Bool) (err : Error) (h : getLock fl r.ID = some err) :
    NewJobT js fl d r forcedRun = (⟨d, r, "", some err⟩, (getLockT fl r.ID).2) := by
  unfold NewJobT
  have h1 := getLockT_fst fl r.ID
  rw [h] at h1
  cases hL : getLockT fl r.ID with
  | mk e ev =>
    rw [hL] at h1
    simp only at h1
    subst h1
    rfl

theorem FinishJobT_of_getLock_error (js : JobRunJSON) (fl : Faults) (d : Dir) (uniqID : String)
    (r : JobRun) (err : Error) (h : getLock fl r.ID = some err) :
    FinishJobT js fl d uniqID r = ((d, some err), (getLockT fl r.ID).2) := by
  unfold FinishJobT
  have h1 := getLockT_fst fl r.ID
  rw [h] at h1
  cases hL : getLockT fl r.ID with
  | mk e ev =>
    rw [hL] at h1
    simp only at h1
    subst h1
    rfl

theorem NewJobT_of_getLock_ok (js : JobRunJSON) (fl : Faults) (d : Dir) (r : JobRun)
    (forcedRun : Bool) (h : getLock fl r.ID = none) :
    NewJobT js fl d r forcedRun =
      ((NewJobLockedT js fl d r forcedRun).1,
        (getLockT fl r.ID).2 ++ (NewJobLockedT js fl d r forcedRun).2 ++
          releaseLock fl (lockFileName r.ID)) := by
  unfold NewJobT
  have h1 := getLockT_fst fl r.ID
  rw [h] at h1
  cases hL : getLockT fl r.ID with
  | mk e ev =>
    rw [hL] at h1
    simp only at h1
    subst h1
    rfl

theorem FinishJobT_of_getLock_ok (js : JobRunJSON) (fl : Faults) (d : Dir) (uniqID : String)
    (r : JobRun) (h : getLock fl r.ID = none) :
    FinishJobT js fl d uniqID r =
      ((FinishJobLockedT js fl d uniqID r).1,
        (getLockT fl r.ID).2 ++ (FinishJobLockedT js fl d uniqID r).2 ++
          releaseLock fl (lockFileName r.ID)) := by
  unfold FinishJobT
  have h1 := getLockT_fst fl r.ID
  rw [h] at h1
  cases hL : getLockT fl r.ID with
  | mk e ev =>
    rw [hL] at h1
    simp only at h1
    subst h1
    rfl

/-- The calls `getLock` makes change no file of the spool and release no lock. -/
theorem mem_getLockT (fl : Faults) (jobID : List Byte) (e : Event)
    (h : e ∈ (getLockT fl jobID).2) : e.isMutation = false ∧ e.isUnlock = false := by
  by_cases hd : ensureSpoolDirExists fl.ensureDirLock = none ∧
      fl.lockNew (lockFileName jobID) = none
  · obtain ⟨n, ok, -, htrace, -⟩ := getLockT_shape fl jobID hd.1 hd.2
    rw [htrace, List.mem_append] at h
    rcases h with h | h
    · exact ⟨(mem_failedAttempts fl jobID _ e h).1, (mem_failedAttempts fl jobID _ e h).2.2⟩
    · rw [List.mem_singleton] at h
      subst h
      exact ⟨rfl, rfl⟩
  · have hd' : ensureSpoolDirExists fl.ensureDirLock ≠ none ∨
        fl.lockNew (lockFileName jobID) ≠ none := by
      by_cases h1 : ensureSpoolDirExists fl.ensureDirLock = none
      · exact Or.inr (fun h2 => hd ⟨h1, h2⟩)
      · exact Or.inl h1
    rw [(getLockT_early fl jobID hd').1] at h
    simp at h

/-- When every attempt fails, `getLock` returns the error of the last one. -/
theorem getLock_all_failed (fl : Faults) (jobID : List Byte)
    (hdir : ensureSpoolDirExists fl.ensureDirLock = none)
    (hnew : fl.lockNew (lockFileName jobID) = none)
    (hall : ∀ n, n < retryLimit → fl.tryLock (lockFileName jobID) n ≠ none) :
    ∃ err, fl.tryLock (lockFileName jobID) (retryLimit - 1) = some err ∧
      getLock fl jobID = some (.sys err) ∧
      (getLockT fl jobID).2 =
        (List.range (retryLimit - 1)).flatMap (failedAttempt fl jobID) ++
          [.tryLock (lockFileName jobID) false] := by
  obtain ⟨n, ok, hn, htrace, -, hok, hbad⟩ := getLockT_shape fl jobID hdir hnew
  cases ok with
  | true => exact absurd (hok rfl).1 (hall n hn)
  | false =>
    obtain ⟨hlast, err, herr, hres⟩ := hbad rfl
    have hn' : n = retryLimit - 1 := by omega
    subst hn'
    rw [getLockT_fst] at hres
    exact ⟨err, herr, hres, htrace⟩

/-- When an attempt succeeds after `n` failed ones, `getLock` returns the lock after it. -/
theorem getLock_first_success (fl : Faults) (jobID : List Byte) (n : Nat)
    (hdir : ensureSpoolDirExists fl.ensureDirLock = none)
    (hnew : fl.lockNew (lockFileName jobID) = none) (hn : n < retryLimit)
    (hfail : ∀ j, j < n → fl.tryLock (lockFileName jobID) j ≠ none)
    (hok : fl.tryLock (lockFileName jobID) n = none) :
    getLock fl jobID = none ∧
      (getLockT fl jobID).2 =
        (List.range n).flatMap (failedAttempt fl jobID) ++
          [.tryLock (lockFileName jobID) true] := by
  obtain ⟨m, ok, hm, htrace, hfail', hok', hbad⟩ := getLockT_shape fl jobID hdir hnew
  have hmn : m = n := by
    cases ok with
    | true =>
      have h1 := (hok' rfl).1
      by_contra hne
      rcases Nat.lt_or_gt_of_ne hne with h | h
      · exact hfail m h h1
      · exact hfail' n h hok
    | false =>
      obtain ⟨hlast, err, herr, -⟩ := hbad rfl
      by_contra hne
      have hlt : n < m := by omega
      exact hfail' n hlt hok
  subst hmn
  cases ok with
  | true =>
    have h2 := (hok' rfl).2
    rw [getLockT_fst] at h2
    exact ⟨h2, htrace⟩
  | false =>
    obtain ⟨-, err, herr, -⟩ := hbad rfl
    rw [hok] at herr
    exact absurd herr (by simp)


/-! ## The traced operations and the operations -/

theorem saveJobRunT_fst (js : JobRunJSON) (fl : Faults) (d : Dir) (p : String) (r : JobRun) :
    (saveJobRunT js fl d p r).1 = saveJobRun js fl d p r := by
  unfold saveJobRunT saveJobRun
  cases ensureSpoolDirExists fl.ensureDirSave with
  | some err => rfl
  | none =>
    cases fl.openFile p with
    | some err => rfl
    | none =>
      cases fl.encode with
      | some e => rfl
      | none => rfl

theorem NewJobLockedT_fst (js : JobRunJSON) (fl : Faults) (d : Dir) (r : JobRun)
    (forcedRun : Bool) (h : getLock fl r.ID = none) :
    (NewJobLockedT js fl d r forcedRun).1 = NewJob js fl d r forcedRun := by
  unfold NewJob NewJobLockedT
  rw [h]
  cases hG : findDuplicateRuns fl d r.ID with
  | error err => rfl
  | ok dups =>
    simp only
    cases forcedRun with
    | false =>
      simp only [Bool.false_eq_true, if_false]
      rw [← saveJobRunT_fst]
      cases saveJobRunT js fl d _ _ with
      | mk res ev =>
        cases res with
        | mk d2 e2 => cases e2 <;> rfl
    | true =>
      simp only [if_true]
      rw [← removeFilesT_fst]
      cases removeFilesT fl d dups with
      | mk res ev =>
        cases res with
        | mk d1 e1 =>
          cases e1 with
          | some err => rfl
          | none =>
            simp only
            rw [← saveJobRunT_fst]
            cases saveJobRunT js fl d1 _ _ with
            | mk res' ev' =>
              cases res' with
              | mk d2 e2 => cases e2 <;> rfl

/-- The traced `NewJob` returns what `NewJob` returns. -/
theorem NewJobT_fst (js : JobRunJSON) (fl : Faults) (d : Dir) (r : JobRun) (forcedRun : Bool) :
    (NewJobT js fl d r forcedRun).1 = NewJob js fl d r forcedRun := by
  cases h : getLock fl r.ID with
  | some err =>
    rw [NewJobT_of_getLock_error js fl d r forcedRun err h,
      NewJob_of_getLock_error js fl d r forcedRun err h]
  | none =>
    rw [NewJobT_of_getLock_ok js fl d r forcedRun h]
    exact NewJobLockedT_fst js fl d r forcedRun h

theorem FinishJobLockedT_fst (js : JobRunJSON) (fl : Faults) (d : Dir) (uniqID : String)
    (r : JobRun) (h : getLock fl r.ID = none) :
    (FinishJobLockedT js fl d uniqID r).1 = FinishJob js fl d uniqID r := by
  unfold FinishJob FinishJobLockedT
  rw [h]
  simp only
  cases fl.rename with
  | some err => rfl
  | none =>
    simp only
    cases d.rename (getFilePath uniqID) (getFilePath (getUniqJobRunID r.ID true r.StartedAt)) with
    | none => rfl
    | some d' => exact saveJobRunT_fst js fl d' _ r

/-- The traced `FinishJob` returns what `FinishJob` returns. -/
theorem FinishJobT_fst (js : JobRunJSON) (fl : Faults) (d : Dir) (uniqID : String)
    (r : JobRun) : (FinishJobT js fl d uniqID r).1 = FinishJob js fl d uniqID r := by
  cases h : getLock fl r.ID with
  | some err =>
    rw [FinishJobT_of_getLock_error js fl d uniqID r err h,
      FinishJob_of_getLock_error js fl d uniqID r err h]
  | none =>
    rw [FinishJobT_of_getLock_ok js fl d uniqID r h]
    exact FinishJobLockedT_fst js fl d uniqID r h

/-- The traced `RemoveJobs` returns what `RemoveJobs` returns. -/
theorem RemoveJobsT_fst (fl : Faults) (d : Dir) (ids : List String) :
    (RemoveJobsT fl d ids).1 = RemoveJobs fl d ids :=
  removeFilesT_fst fl d _

/-! ### The calls made with the lock held -/

theorem mem_removeFilesT (fl : Faults) (d : Dir) (paths : List String) (e : Event)
    (h : e ∈ (removeFilesT fl d paths).2) : ∃ p ∈ paths, e = .remove p := by
  induction paths generalizing d with
  | nil => simp [removeFilesT] at h
  | cons f rest ih =>
    unfold removeFilesT at h
    cases hf : removeFile fl d f with
    | mk d' err =>
      rw [hf] at h
      cases err with
      | some x =>
        simp only [List.mem_singleton] at h
        exact ⟨f, List.mem_cons_self _ _, h⟩
      | none =>
        simp only [List.mem_cons] at h
        rcases h with h | h
        · exact ⟨f, List.mem_cons_self _ _, h⟩
        · obtain ⟨p, hp, he⟩ := ih d' h
          exact ⟨p, List.mem_cons_of_mem _ hp, he⟩

theorem mem_saveJobRunT (js : JobRunJSON) (fl : Faults) (d : Dir) (p : String) (r : JobRun)
    (e : Event) (h : e ∈ (saveJobRunT js fl d p r).2) : e = .write p := by
  unfold saveJobRunT at h
  cases h1 : ensureSpoolDirExists fl.ensureDirSave with
  | some err => simp [h1] at h
  | none =>
    cases h2 : fl.openFile p with
    | some err => simp [h1, h2] at h
    | none =>
      cases h3 : fl.encode with
      | some x => simpa [h1, h2, h3] using h
      | none => simpa [h1, h2, h3] using h

theorem mem_releaseLock (fl : Faults) (lockFile : String) (e : Event)
    (h : e ∈ releaseLock fl lockFile) : e.isMutation = false := by
  unfold releaseLock at h
  cases hu : fl.unlock lockFile with
  | none =>
    rw [hu] at h
    simp only [List.mem_singleton] at h
    subst h
    rfl
  | some err =>
    rw [hu] at h
    simp only [List.mem_cons, List.mem_singleton, List.not_mem_nil, or_false] at h
    rcases h with rfl | rfl <;> rfl

/-- With the lock held `NewJob` globs, removes running entries of its job when forced, and
writes the file of the uniqID. -/
theorem mem_NewJobLockedT (js : JobRunJSON) (fl : Faults) (d : Dir) (r : JobRun)
    (forcedRun : Bool) (e : Event) (h : e ∈ (NewJobLockedT js fl d r forcedRun).2) :
    e = .glob (duplicateRunsPattern r.ID) ∨
    (forcedRun = true ∧ ∃ p ∈ runningEntries d r.ID, e = .remove p) ∨
    e = .write (getFilePath (getUniqJobRunID r.ID (alreadyRunning d r.ID) r.StartedAt)) := by
  unfold NewJobLockedT at h
  unfold findDuplicateRuns at h
  cases hG : fl.glob with
  | some err =>
    simp only [hG, List.mem_singleton] at h
    exact Or.inl h
  | none =>
    simp only [hG] at h
    have hID : ∀ b : Bool,
        (if b = true then r.AddError Error.ErrJobAlreadyRunning.text else r).ID = r.ID := by
      intro b; cases b <;> rfl
    have hSt : ∀ b : Bool,
        (if b = true then r.AddError Error.ErrJobAlreadyRunning.text else r).StartedAt
          = r.StartedAt := by
      intro b; cases b <;> rfl
    simp only [hID, hSt] at h
    cases forcedRun with
    | false =>
      simp only [Bool.false_eq_true, if_false] at h
      have hs := mem_saveJobRunT js fl d
        (getFilePath (getUniqJobRunID r.ID
          (decide ((globNames d (duplicateRunsPattern r.ID)).length > 0)) r.StartedAt))
        (if (!false && decide ((globNames d (duplicateRunsPattern r.ID)).length > 0)) = true
          then r.AddError Error.ErrJobAlreadyRunning.text else r) e
      cases hsv : saveJobRunT js fl d
          (getFilePath (getUniqJobRunID r.ID
            (decide ((globNames d (duplicateRunsPattern r.ID)).length > 0)) r.StartedAt))
          (if (!false && decide ((globNames d (duplicateRunsPattern r.ID)).length > 0)) = true
            then r.AddError Error.ErrJobAlreadyRunning.text else r) with
      | mk res ev =>
        rw [hsv] at h hs
        cases res with
        | mk d2 e2 =>
          cases e2 <;>
          · simp only [List.nil_append, List.mem_cons] at h
            rcases h with h | h
            · exact Or.inl h
            · exact Or.inr (Or.inr (hs h))
    | true =>
      simp only [if_true] at h
      have hr := mem_removeFilesT fl d (globNames d (duplicateRunsPattern r.ID)) e
      cases hrm : removeFilesT fl d (globNames d (duplicateRunsPattern r.ID)) with
      | mk res ev =>
        rw [hrm] at h hr
        cases res with
        | mk d1 e1 =>
          cases e1 with
          | some err =>
            simp only [List.mem_cons] at h
            rcases h with h | h
            · exact Or.inl h
            · exact Or.inr (Or.inl ⟨rfl, hr h⟩)
          | none =>
            simp only at h
            have hs := mem_saveJobRunT js fl d1
              (getFilePath (getUniqJobRunID r.ID
                (decide ((globNames d (duplicateRunsPattern r.ID)).length > 0)) r.StartedAt))
              (if (!true && decide ((globNames d (duplicateRunsPattern r.ID)).length > 0)) = true
                then r.AddError Error.ErrJobAlreadyRunning.text else r) e
            cases hsv : saveJobRunT js fl d1
                (getFilePath (getUniqJobRunID r.ID
                  (decide ((globNames d (duplicateRunsPattern r.ID)).length > 0)) r.StartedAt))
                (if (!true && decide ((globNames d (duplicateRunsPattern r.ID)).length > 0)) = true
                  then r.AddError Error.ErrJobAlreadyRunning.text else r) with
            | mk res' ev' =>
              rw [hsv] at h hs
              cases res' with
              | mk d2 e2 =>
                cases e2 <;>
                · simp only [List.mem_cons, List.mem_append] at h
                  rcases h with h | h | h
                  · exact Or.inl h
                  · exact Or.inr (Or.inl ⟨rfl, hr h⟩)
                  · exact Or.inr (Or.inr (hs h))

/-- With the lock held `FinishJob` renames the file of the uniqID to the finished file of the
run and writes that file. -/
theorem mem_FinishJobLockedT (js : JobRunJSON) (fl : Faults) (d : Dir) (uniqID : String)
    (r : JobRun) (e : Event) (h : e ∈ (FinishJobLockedT js fl d uniqID r).2) :
    e = .rename (getFilePath uniqID) (getFilePath (getUniqJobRunID r.ID true r.StartedAt)) ∨
    e = .write (getFilePath (getUniqJobRunID r.ID true r.StartedAt)) := by
  unfold FinishJobLockedT at h
  simp only at h
  cases hR : fl.rename with
  | some err =>
    simp only [hR, List.mem_singleton] at h
    exact Or.inl h
  | none =>
    simp only [hR] at h
    cases hd : d.rename (getFilePath uniqID)
        (getFilePath (getUniqJobRunID r.ID true r.StartedAt)) with
    | none =>
      simp only [hd, List.mem_singleton] at h
      exact Or.inl h
    | some d' =>
      simp only [hd, List.mem_cons] at h
      rcases h with h | h
      · exact Or.inl h
      · exact Or.inr (mem_saveJobRunT js fl d' _ r e h)


/-! ## Holding the lock along a trace -/

theorem heldAfter_cons_of_neutral (lockFile : String) (held : Bool) (e : Event)
    (rest : List Event) (he : e.changesLock = false) :
    heldAfter lockFile held (e :: rest) = heldAfter lockFile held rest := by
  cases e with
  | tryLock lf ok => cases ok <;> first | rfl | (simp [Event.changesLock] at he)
  | unlock lf ok => cases ok <;> first | rfl | (simp [Event.changesLock] at he)
  | _ => rfl

theorem heldAfter_append_of_neutral (lockFile : String) (held : Bool) (s t : List Event)
    (hs : ∀ e ∈ s, e.changesLock = false) :
    heldAfter lockFile held (s ++ t) = heldAfter lockFile held t := by
  induction s with
  | nil => rfl
  | cons e s ih =>
    rw [List.cons_append, heldAfter_cons_of_neutral _ _ _ _ (hs e (List.mem_cons_self _ _))]
    exact ih (fun x hx => hs x (List.mem_cons_of_mem _ hx))

theorem mutationsUnderLock_cons_of_neutral (lockFile : String) (held : Bool) (e : Event)
    (rest : List Event) (he : e.changesLock = false) :
    mutationsUnderLock lockFile held (e :: rest) =
      ((!e.isMutation || held) && mutationsUnderLock lockFile held rest) := by
  cases e with
  | tryLock lf ok => cases ok <;> first | rfl | (simp [Event.changesLock] at he)
  | unlock lf ok => cases ok <;> first | rfl | (simp [Event.changesLock] at he)
  | _ => rfl

/-- Calls that neither take nor give back a lock, and change a file only with the lock held,
can be skipped when checking a trace. -/
theorem mutationsUnderLock_append_of_neutral (lockFile : String) (held : Bool)
    (s t : List Event) (hs : ∀ e ∈ s, e.changesLock = false)
    (hm : ∀ e ∈ s, e.isMutation = true → held = true) :
    mutationsUnderLock lockFile held (s ++ t) = mutationsUnderLock lockFile held t := by
  induction s with
  | nil => rfl
  | cons e s ih =>
    rw [List.cons_append,
      mutationsUnderLock_cons_of_neutral _ _ _ _ (hs e (List.mem_cons_self _ _)),
      ih (fun x hx => hs x (List.mem_cons_of_mem _ hx))
        (fun x hx => hm x (List.mem_cons_of_mem _ hx))]
    have h1 : (!e.isMutation || held) = true := by
      cases hmut : e.isMutation with
      | false => rfl
      | true =>
        rw [hm e (List.mem_cons_self _ _) hmut]
        rfl
    rw [h1, Bool.true_and]

theorem mutationsUnderLock_of_neutral (lockFile : String) (held : Bool) (s : List Event)
    (hs : ∀ e ∈ s, e.changesLock = false) (hm : ∀ e ∈ s, e.isMutation = true → held = true) :
    mutationsUnderLock lockFile held s = true := by
  have h := mutationsUnderLock_append_of_neutral lockFile held s [] hs hm
  rw [List.append_nil] at h
  rw [h]
  rfl

theorem changesLock_of_mem_NewJobLockedT (js : JobRunJSON) (fl : Faults) (d : Dir) (r : JobRun)
    (forcedRun : Bool) (e : Event) (h : e ∈ (NewJobLockedT js fl d r forcedRun).2) :
    e.changesLock = false ∧ e.isUnlock = false ∧ e.isTryLock = false := by
  rcases mem_NewJobLockedT js fl d r forcedRun e h with rfl | ⟨-, p, -, rfl⟩ | rfl <;>
    exact ⟨rfl, rfl, rfl⟩

theorem changesLock_of_mem_FinishJobLockedT (js : JobRunJSON) (fl : Faults) (d : Dir)
    (uniqID : String) (r : JobRun) (e : Event)
    (h : e ∈ (FinishJobLockedT js fl d uniqID r).2) :
    e.changesLock = false ∧ e.isUnlock = false ∧ e.isTryLock = false := by
  rcases mem_FinishJobLockedT js fl d uniqID r e h with rfl | rfl <;> exact ⟨rfl, rfl, rfl⟩

/-- The calls of a `getLock` that got the lock: neutral calls and then the `TryLock` that
took it. -/
theorem getLockT_acquired (fl : Faults) (jobID : List Byte) (h : getLock fl jobID = none) :
    ∃ rounds : List Event,
      (getLockT fl jobID).2 = rounds ++ [.tryLock (lockFileName jobID) true] ∧
      ∀ e ∈ rounds, e.isMutation = false ∧ e.changesLock = false ∧ e.isUnlock = false := by
  by_cases hd : ensureSpoolDirExists fl.ensureDirLock = none ∧
      fl.lockNew (lockFileName jobID) = none
  · obtain ⟨n, ok, -, htrace, -, -, hbad⟩ := getLockT_shape fl jobID hd.1 hd.2
    cases ok with
    | true => exact ⟨_, htrace, fun e he => mem_failedAttempts fl jobID _ e he⟩
    | false =>
      obtain ⟨-, err, -, hres⟩ := hbad rfl
      rw [getLockT_fst, h] at hres
      exact absurd hres (by simp)
  · have hd' : ensureSpoolDirExists fl.ensureDirLock ≠ none ∨
        fl.lockNew (lockFileName jobID) ≠ none := by
      by_cases h1 : ensureSpoolDirExists fl.ensureDirLock = none
      · exact Or.inr (fun h2 => hd ⟨h1, h2⟩)
      · exact Or.inl h1
    have := (getLockT_early fl jobID hd').2
    rw [getLockT_fst] at this
    exact absurd h this

/-- The calls of a `getLock` that did not get the lock take no lock. -/
theorem getLockT_not_acquired (fl : Faults) (jobID : List Byte) (h : getLock fl jobID ≠ none) :
    ∀ e ∈ (getLockT fl jobID).2,
      e.isMutation = false ∧ e.changesLock = false ∧ e.isUnlock = false := by
  intro e he
  by_cases hd : ensureSpoolDirExists fl.ensureDirLock = none ∧
      fl.lockNew (lockFileName jobID) = none
  · obtain ⟨n, ok, -, htrace, -, hok, -⟩ := getLockT_shape fl jobID hd.1 hd.2
    cases ok with
    | true =>
      have := (hok rfl).2
      rw [getLockT_fst] at this
      exact absurd this h
    | false =>
      rw [htrace, List.mem_append] at he
      rcases he with he | he
      · exact mem_failedAttempts fl jobID _ e he
      · rw [List.mem_singleton] at he
        subst he
        exact ⟨rfl, rfl, rfl⟩
  · have hd' : ensureSpoolDirExists fl.ensureDirLock ≠ none ∨
        fl.lockNew (lockFileName jobID) ≠ none := by
      by_cases h1 : ensureSpoolDirExists fl.ensureDirLock = none
      · exact Or.inr (fun h2 => hd ⟨h1, h2⟩)
      · exact Or.inl h1
    rw [(getLockT_early fl jobID hd').1] at he
    simp at he

/-- A trace made of a `getLock` that got the lock, calls that leave the lock alone, and
`releaseLock`: the lock is held up to the release, `Unlock` is called once, at the end, and
the files are changed with the lock held. -/
theorem locked_section (fl : Faults) (jobID : List Byte) (body : List Event)
    (h : getLock fl jobID = none)
    (hbody : ∀ e ∈ body, e.changesLock = false ∧ e.isUnlock = false ∧ e.isTryLock = false) :
    heldAfter (lockFileName jobID) false ((getLockT fl jobID).2 ++ body) = true ∧
    (∀ e ∈ (getLockT fl jobID).2 ++ body, e.isUnlock = false) ∧
    ((getLockT fl jobID).2 ++ body ++ releaseLock fl (lockFileName jobID)).countP
      Event.isUnlock = 1 ∧
    (fl.unlock (lockFileName jobID) = none →
      ((getLockT fl jobID).2 ++ body ++ releaseLock fl (lockFileName jobID)).getLast? =
        some (.unlock (lockFileName jobID) true) ∧
      heldAfter (lockFileName jobID) false
        ((getLockT fl jobID).2 ++ body ++ releaseLock fl (lockFileName jobID)) = false) ∧
    mutationsUnderLock (lockFileName jobID) false
      ((getLockT fl jobID).2 ++ body ++ releaseLock fl (lockFileName jobID)) = true := by
  obtain ⟨rounds, htrace, hrounds⟩ := getLockT_acquired fl jobID h
  have hheld : ∀ t : List Event, heldAfter (lockFileName jobID) false
      ((getLockT fl jobID).2 ++ body ++ t) = heldAfter (lockFileName jobID) true t := by
    intro t
    rw [htrace, List.append_assoc, List.append_assoc,
      heldAfter_append_of_neutral _ _ _ _ (fun e he => (hrounds e he).2.1)]
    show heldAfter (lockFileName jobID) (false || lockFileName jobID == lockFileName jobID)
      (body ++ t) = _
    rw [heldAfter_append_of_neutral _ _ _ _ (fun e he => (hbody e he).1)]
    simp
  have hnoUnlock : ∀ e ∈ (getLockT fl jobID).2 ++ body, e.isUnlock = false := by
    intro e he
    rw [htrace] at he
    simp only [List.mem_append, List.mem_singleton] at he
    rcases he with (he | he) | he
    · exact (hrounds e he).2.2
    · subst he
      rfl
    · exact (hbody e he).2.1
  have hzero : ((getLockT fl jobID).2 ++ body).countP Event.isUnlock = 0 := by
    rw [List.countP_eq_zero]
    intro e he
    rw [hnoUnlock e he]
    decide
  refine ⟨?_, hnoUnlock, ?_, ?_, ?_⟩
  · have := hheld []
    rw [List.append_nil] at this
    rw [this]
    rfl
  · rw [List.countP_append, hzero]
    unfold releaseLock
    cases fl.unlock (lockFileName jobID) <;> rfl
  · intro hu
    have hrel : releaseLock fl (lockFileName jobID) = [.unlock (lockFileName jobID) true] := by
      unfold releaseLock
      rw [hu]
    rw [hheld, hrel]
    refine ⟨List.getLast?_concat _, ?_⟩
    show heldAfter (lockFileName jobID)
      (true && lockFileName jobID != lockFileName jobID) [] = false
    simp [heldAfter]
  · rw [htrace, List.append_assoc, List.append_assoc,
      mutationsUnderLock_append_of_neutral _ _ _ _ (fun e he => (hrounds e he).2.1)
        (fun e he hm => by rw [(hrounds e he).1] at hm; exact absurd hm (by decide))]
    show mutationsUnderLock (lockFileName jobID)
      (false || lockFileName jobID == lockFileName jobID)
      (body ++ releaseLock fl (lockFileName jobID)) = true
    have hb : (false || lockFileName jobID == lockFileName jobID) = true := by simp
    rw [hb, mutationsUnderLock_append_of_neutral _ _ _ _ (fun e he => (hbody e he).1)
      (fun _ _ _ => rfl)]
    unfold releaseLock
    cases fl.unlock (lockFileName jobID) <;> rfl

/-- A trace of a `getLock` that did not get the lock: no lock is held, `Unlock` is not
called and no file is changed. -/
theorem unlocked_section (fl : Faults) (jobID : List Byte) (h : getLock fl jobID ≠ none) :
    (getLockT fl jobID).2.countP Event.isUnlock = 0 ∧
    heldAfter (lockFileName jobID) false (getLockT fl jobID).2 = false ∧
    mutationsUnderLock (lockFileName jobID) false (getLockT fl jobID).2 = true := by
  have hall := getLockT_not_acquired fl jobID h
  refine ⟨?_, ?_, ?_⟩
  · rw [List.countP_eq_zero]
    intro e he
    rw [(hall e he).2.2]
    decide
  · have := heldAfter_append_of_neutral (lockFileName jobID) false (getLockT fl jobID).2 []
      (fun e he => (hall e he).2.1)
    rw [List.append_nil] at this
    rw [this]
    rfl
  · exact mutationsUnderLock_of_neutral _ _ _ (fun e he => (hall e he).2.1)
      (fun e he hm => by rw [(hall e he).1] at hm; exact absurd hm (by decide))


/-! ## More facts about the ID codec -/

theorem fromHexChar_hexDigit (n : Nat) (h : n < 16) : fromHexChar (hexDigit n) = some n := by
  interval_cases n <;> decide

/-- Decoding the hex digits of a job ID gives the job ID back. -/
theorem hexDecodeChars_hexChars (id : List Byte) : hexDecodeChars (hexChars id) = some id := by
  induction id with
  | nil => rfl
  | cons v rest ih =>
    simp only [hexChars, hexDecodeChars, fromHexChar_hexDigit _ (show v.val / 16 < 16 by omega),
      fromHexChar_hexDigit _ (show v.val % 16 < 16 by omega), ih]
    have hv : v.val / 16 * 16 + v.val % 16 = v.val := by omega
    rw [hv]
    congr 2
    apply Fin.ext
    simp [Fin.ofNat]

theorem length_hexChars (id : List Byte) : (hexChars id).length = 2 * id.length := by
  induction id with
  | nil => rfl
  | cons v rest ih =>
    simp only [hexChars, List.length_cons, ih]
    omega

/-! ### Decimal numbers -/

theorem digitChar_toNat (d : Nat) (h : d < 10) : (Nat.digitChar d).toNat - '0'.toNat = d := by
  interval_cases d <;> decide

theorem parseDigits_toDigitsCore (fuel n : Nat) (ds : List Char) (h : n < fuel) :
    (Nat.toDigitsCore 10 fuel n ds).foldl (fun a c => a * 10 + (c.toNat - '0'.toNat)) 0 =
      ds.foldl (fun a c => a * 10 + (c.toNat - '0'.toNat)) n := by
  induction fuel generalizing n ds with
  | zero => omega
  | succ fuel ih =>
    simp only [Nat.toDigitsCore]
    have hd := digitChar_toNat (n % 10) (Nat.mod_lt _ (by decide))
    split
    · rename_i h0
      simp only [List.foldl_cons, hd, Nat.zero_mul, Nat.zero_add]
      have hn : n % 10 = n := by omega
      rw [hn]
    · rename_i h0
      rw [ih (n / 10) _ (by omega)]
      simp only [List.foldl_cons, hd]
      have hn : n / 10 * 10 + n % 10 = n := by omega
      rw [hn]

/-- Reading the decimal form of a number gives the number back. -/
theorem parseDigits_natRepr (n : Nat) : parseDigits (Nat.repr n).data = n := by
  simp only [parseDigits, Nat.repr, Nat.toDigits, List.asString]
  rw [parseDigits_toDigitsCore _ _ _ (Nat.lt_succ_self n)]
  rfl

theorem natRepr_injective (m n : Nat) (h : Nat.repr m = Nat.repr n) : m = n := by
  rw [← parseDigits_natRepr m, ← parseDigits_natRepr n, h]

theorem natRepr_ne_nil (m : Nat) : (Nat.repr m).data ≠ [] := formatInt_ne_nil (Int.ofNat m)

/-- The decimal forms of two integers coincide only for the same integer. -/
theorem formatInt_injective (a b : Int) (h : formatInt a = formatInt b) : a = b := by
  have hminus : ∀ (m k : Nat), Nat.repr m ≠ "-" ++ Nat.repr k := by
    intro m k heq
    have hd := congrArg String.data heq
    rw [String.data_append] at hd
    cases hm : (Nat.repr m).data with
    | nil => exact natRepr_ne_nil m hm
    | cons c cs =>
      rw [hm] at hd
      have hc : c = '-' := by
        have := List.head_eq_of_cons_eq hd
        simpa using this
      have hmem : c ∈ (Nat.repr m).data := by
        rw [hm]
        exact List.mem_cons_self _ _
      have := mem_natRepr c m hmem
      rw [hc] at this
      exact absurd this (by decide)
  cases a with
  | ofNat m =>
    cases b with
    | ofNat k =>
      have : m = k := natRepr_injective m k h
      rw [this]
    | negSucc k => exact absurd h (hminus m (k + 1))
  | negSucc m =>
    cases b with
    | ofNat k => exact absurd h.symm (hminus k (m + 1))
    | negSucc k =>
      have hd := congrArg String.data h
      simp only [formatInt, String.data_append] at hd
      have hd' : (Nat.repr (m + 1)).data = (Nat.repr (k + 1)).data := by simpa using hd
      have : m + 1 = k + 1 := natRepr_injective _ _ (String.ext hd')
      have hmk : m = k := by omega
      rw [hmk]

theorem underscore_not_mem_formatInt (n : Int) : '_' ∉ (formatInt n).data :=
  fun h => absurd (mem_formatInt _ _ h) (by decide)

/-! ### Splitting at the underscores -/

theorem splitChars_of_not_mem (sep : Char) (a : List Char) (h : sep ∉ a) :
    splitChars sep a = [a] := by
  induction a with
  | nil => rfl
  | cons c a ih =>
    simp only [List.mem_cons, not_or] at h
    have hc : ¬ c = sep := fun e => h.1 e.symm
    simp only [splitChars, hc, if_false, ih h.2]

theorem splitChars_append (sep : Char) (a b : List Char) (h : sep ∉ a) :
    splitChars sep (a ++ sep :: b) = a :: splitChars sep b := by
  induction a with
  | nil => simp [splitChars]
  | cons c a ih =>
    simp only [List.mem_cons, not_or] at h
    have hc : ¬ c = sep := fun e => h.1 e.symm
    have ih' := ih h.2
    rw [List.cons_append, splitChars, if_neg hc, ih']

/-- The uniqIDs of two runs coincide only for the same marker, second and job ID. -/
theorem getUniqJobRunID_injective (jobID jobID' : List Byte) (fin fin' : Bool) (t t' : Int)
    (h : getUniqJobRunID jobID fin t = getUniqJobRunID jobID' fin' t') :
    fin = fin' ∧ t = t' ∧ jobID = jobID' := by
  have h' := congrArg String.data h
  simp only [getUniqJobRunID_data, List.append_assoc, List.cons_append, List.nil_append,
    List.cons.injEq, true_and] at h'
  obtain ⟨hm, h'⟩ := h'
  have h2 := eq_of_append_cons_eq '_' _ _ _ _ (underscore_not_mem_hexChars _)
    (underscore_not_mem_hexChars _) h'
  refine ⟨?_, formatInt_injective _ _ (String.ext h2.1), hexChars_injective _ _ h2.2⟩
  cases fin <;> cases fin' <;> first | rfl | (exact absurd hm (by decide))

theorem lockFileName_data (jobID : List Byte) :
    (lockFileName jobID).data =
      ['j', 'o', 'b', '_'] ++ hexChars jobID ++ ['.', 'l', 'o', 'c', 'k'] := by
  simp [lockFileName, encodeJobID, hexEncodeToString, String.data_append]

theorem lockFileName_injective (jobID jobID' : List Byte)
    (h : lockFileName jobID = lockFileName jobID') : jobID = jobID' := by
  have h' := congrArg String.data h
  rw [lockFileName_data, lockFileName_data] at h'
  have h1 := List.append_cancel_right h'
  exact hexChars_injective _ _ (List.append_cancel_left h1)


/-! ## Creation: the duplicate-run signal and the uniqID -/

/-- C1: when a running entry of `run.ID` exists, a successful `NewJob(run, false)`
appends the text of `ErrJobAlreadyRunning` to `run.Errors`, still writes the entry,
whose payload is the run with that diagnostic, and returns a non-empty uniqID that
is the uniqID of none of the running entries found, together with
`ErrJobAlreadyRunning`; with no running entry, or with `forcedRun`, a successful
call returns no error and leaves `run.Errors` as it was. -/
theorem NewJob_duplicate_signal (js : JobRunJSON) (fl : Faults) (d : Dir) (r : JobRun)
    (forcedRun : Bool) (hok : (NewJob js fl d r forcedRun).succeeded) :
    (forcedRun = false ∧ runningEntries d r.ID ≠ [] →
      (NewJob js fl d r forcedRun).run.Errors = r.Errors ++ [Error.ErrJobAlreadyRunning.text] ∧
      (NewJob js fl d r forcedRun).dir.read (getFilePath (NewJob js fl d r forcedRun).uniqID) =
        some (js.encode (NewJob js fl d r forcedRun).run) ∧
      (NewJob js fl d r forcedRun).uniqID ≠ "" ∧
      (∀ p ∈ runningEntries d r.ID, p ≠ getFilePath (NewJob js fl d r forcedRun).uniqID) ∧
      (NewJob js fl d r forcedRun).err = some Error.ErrJobAlreadyRunning) ∧
    (runningEntries d r.ID = [] ∨ forcedRun = true →
      (NewJob js fl d r forcedRun).err = none ∧
      (NewJob js fl d r forcedRun).run.Errors = r.Errors) := by
  have hne := (NewJob_succeeded_iff js fl d r forcedRun).1 hok
  have heq := (NewJob_ok js fl d r forcedRun hne).1
  constructor
  · rintro ⟨hf, hdup⟩
    have har := (alreadyRunning_eq_true_iff d r.ID).2 hdup
    subst hf
    rw [heq]
    simp only [har, Bool.not_false, Bool.and_self, if_true]
    refine ⟨rfl, Dir.read_write_self _ _ _, getUniqJobRunID_ne_empty _ _ _, ?_, trivial⟩
    intro p hp
    exact ne_finished_of_mem_runningEntries d r.ID r.ID r.StartedAt p hp
  · intro h
    rw [heq]
    rcases h with h | h
    · have har := (alreadyRunning_eq_false_iff d r.ID).2 h
      simp [har]
    · simp [h]

/-- The duplicate of C1 on the sample spool: the second run of "dup-check" is
recorded with the diagnostic and reported as a duplicate. -/
theorem NewJob_duplicate_signal_witness :
    (NewJob (sampleJSON []) noFaults sampleDir sampleRerun false).succeeded ∧
    runningEntries sampleDir sampleRerun.ID ≠ [] ∧
    (NewJob (sampleJSON []) noFaults sampleDir sampleRerun false).run.Errors =
      ["A job with same ID is already running"] ∧
    (NewJob (sampleJSON []) noFaults sampleDir sampleRerun false).err =
      some Error.ErrJobAlreadyRunning ∧
    (NewJob (sampleJSON []) noFaults [] sampleRun false).err = none :=
  ⟨by decide, by decide,
    ((NewJob_duplicate_signal (sampleJSON []) noFaults sampleDir sampleRerun false
      (by decide)).1 ⟨rfl, by decide⟩).1,
    ((NewJob_duplicate_signal (sampleJSON []) noFaults sampleDir sampleRerun false
      (by decide)).1 ⟨rfl, by decide⟩).2.2.2.2,
    ((NewJob_duplicate_signal (sampleJSON []) noFaults [] sampleRun false
      (by decide)).2 (Or.inl (by decide))).1⟩

/-- C2, as stated, fails: with "dup-check" already running, the second call
returns a uniqID with the finished marker, not the one of the running marker. -/
theorem NewJob_uniqID_counterexample :
    (NewJob (sampleJSON []) noFaults sampleDir sampleRerun false).uniqID =
      "1_1060_6475702d636865636b" ∧
    getUniqJobRunID sampleRerun.ID false sampleRerun.StartedAt = "0_1060_6475702d636865636b" ∧
    (NewJob (sampleJSON []) noFaults sampleDir sampleRerun false).uniqID ≠ "" ∧
    (NewJob (sampleJSON []) noFaults sampleDir sampleRerun false).uniqID ≠
      getUniqJobRunID sampleRerun.ID false sampleRerun.StartedAt := by
  decide

/-- C2, amended: a uniqID that `NewJob` returns carries the running marker when
no running entry of `run.ID` was found, and the finished marker when one was
found and the run is not forced; in both cases the entry is written to the file
of that uniqID. -/
theorem NewJob_uniqID (js : JobRunJSON) (fl : Faults) (d : Dir) (r : JobRun)
    (forcedRun : Bool) (h : (NewJob js fl d r forcedRun).uniqID ≠ "") :
    (runningEntries d r.ID = [] →
      (NewJob js fl d r forcedRun).uniqID = getUniqJobRunID r.ID false r.StartedAt) ∧
    (runningEntries d r.ID ≠ [] → forcedRun = false →
      (NewJob js fl d r forcedRun).uniqID = getUniqJobRunID r.ID true r.StartedAt) ∧
    (NewJob js fl d r forcedRun).dir.read (getFilePath (NewJob js fl d r forcedRun).uniqID) =
      some (js.encode (NewJob js fl d r forcedRun).run) := by
  have heq := (NewJob_ok js fl d r forcedRun h).1
  rw [heq]
  refine ⟨fun h0 => ?_, fun h1 _ => ?_, Dir.read_write_self _ _ _⟩
  · show getUniqJobRunID r.ID (alreadyRunning d r.ID) r.StartedAt = _
    rw [(alreadyRunning_eq_false_iff d r.ID).2 h0]
  · show getUniqJobRunID r.ID (alreadyRunning d r.ID) r.StartedAt = _
    rw [(alreadyRunning_eq_true_iff d r.ID).2 h1]

/-- The amended C2 on the sample data: the first run gets the running marker,
the duplicate the finished one. -/
theorem NewJob_uniqID_witness :
    (NewJob (sampleJSON []) noFaults [] sampleRun false).uniqID ≠ "" ∧
    (NewJob (sampleJSON []) noFaults [] sampleRun false).uniqID =
      getUniqJobRunID sampleRun.ID false sampleRun.StartedAt ∧
    (NewJob (sampleJSON []) noFaults sampleDir sampleRerun false).uniqID =
      getUniqJobRunID sampleRerun.ID true sampleRerun.StartedAt :=
  ⟨by decide,
    (NewJob_uniqID (sampleJSON []) noFaults [] sampleRun false (by decide)).1 (by decide),
    (NewJob_uniqID (sampleJSON []) noFaults sampleDir sampleRerun false (by decide)).2.1
      (by decide) rfl⟩


/-! ## Creation: how many running entries a job has -/

/-- C3: in a spool reached from the empty one through `NewJob`, `FinishJob` and
`RemoveJobs`, an unforced `NewJob` leaves every job, its own included, with at most
one running entry, however the call ends; and after two successful unforced calls
for one job ID in a row that job has exactly one running entry. -/
theorem NewJob_running_at_most_one (js : JobRunJSON) (d : Dir) (hd : Reachable js d) :
    (∀ (fl : Faults) (r : JobRun) (jobID : List Byte),
      (runningEntries (NewJob js fl d r false).dir jobID).length ≤ 1) ∧
    (∀ (fl fl' : Faults) (r r' : JobRun), r'.ID = r.ID →
      (NewJob js fl d r false).succeeded →
      (NewJob js fl' (NewJob js fl d r false).dir r' false).succeeded →
      (runningEntries (NewJob js fl' (NewJob js fl d r false).dir r' false).dir r.ID).length
        = 1) := by
  constructor
  · intro fl r jobID
    exact Reachable.running_le_one js _ (Reachable.newJob fl d r false hd) jobID
  · intro fl fl' r r' hid h1 h2
    have e1 := NewJob_unforced_running js fl d r h1
    have e2 := NewJob_unforced_running js fl' _ r' h2
    have hle := Reachable.running_le_one js d hd r.ID
    rw [hid] at e2
    rw [e2, e1]
    omega

/-- C3 on the sample data: "dup-check" created twice on the empty spool has one
running entry. -/
theorem NewJob_running_at_most_one_witness :
    (runningEntries (NewJob (sampleJSON []) noFaults
      (NewJob (sampleJSON []) noFaults [] sampleRun false).dir sampleRerun false).dir
      sampleRun.ID).length = 1 :=
  (NewJob_running_at_most_one (sampleJSON []) [] Reachable.empty).2 noFaults noFaults
    sampleRun sampleRerun rfl (by decide) (by decide)


/-! ## Creation: forced reruns and back-to-back duplicates -/

/-- C4, at the failing input: "dup-check" is running (started at 1000) and a
forced rerun started at 1060 is created.  The call succeeds, removes the old
running entry and stores the new run under the finished marker, so the job is
left with no running entry instead of exactly one. -/
theorem NewJob_forced_over_running :
    (NewJob (sampleJSON []) noFaults sampleDir sampleRerun true).succeeded ∧
    runningEntries sampleDir sampleRerun.ID = ["0_1000_6475702d636865636b.json"] ∧
    (NewJob (sampleJSON []) noFaults sampleDir sampleRerun true).uniqID =
      "1_1060_6475702d636865636b" ∧
    (NewJob (sampleJSON []) noFaults sampleDir sampleRerun true).dir.names =
      ["1_1060_6475702d636865636b.json"] ∧
    runningEntries (NewJob (sampleJSON []) noFaults sampleDir sampleRerun true).dir
      sampleRerun.ID = [] := by
  decide

/-- C5, as stated, fails: after two unforced creations of "dup-check" on the
empty spool `findDuplicateRuns` reports one path, the entry of the first run. -/
theorem NewJob_twice_counterexample :
    (NewJob (sampleJSON []) noFaults [] sampleRun false).succeeded ∧
    (NewJob (sampleJSON []) noFaults
      (NewJob (sampleJSON []) noFaults [] sampleRun false).dir sampleRerun false).succeeded ∧
    (findDuplicateRuns noFaults (NewJob (sampleJSON []) noFaults
      (NewJob (sampleJSON []) noFaults [] sampleRun false).dir sampleRerun false).dir
      (asciiBytes "dup-check")).toOption = some ["0_1000_6475702d636865636b.json"] := by
  decide

/-- The running entries of a spool holding the file of one running uniqID and
the file of one finished uniqID. -/
theorem runningEntries_pair (jobID jobID' : List Byte) (t t' : Int) (c c' : String) :
    runningEntries
      [(getFilePath (getUniqJobRunID jobID false t), c),
        (getFilePath (getUniqJobRunID jobID' true t'), c')] jobID =
      [getFilePath (getUniqJobRunID jobID false t)] := by
  simp [runningEntries, globNames, Dir.names, List.filter_cons, filepathMatch_running,
    filepathMatch_finished_eq_false]

/-- C5, amended: two successful unforced creations for one job ID, one after the
other on the empty spool, leave two entries of that job: the running entry of
the first run and an entry under the finished marker holding the second run with
the diagnostic.  The first call returns no error and the second the duplicate-run
error, and `findDuplicateRuns` then reports one path, that of the first run. -/
theorem NewJob_twice (js : JobRunJSON) (fl fl' : Faults) (r r' : JobRun) (hid : r'.ID = r.ID)
    (h1 : (NewJob js fl [] r false).succeeded)
    (h2 : (NewJob js fl' (NewJob js fl [] r false).dir r' false).succeeded) :
    (NewJob js fl [] r false).err = none ∧
    (NewJob js fl' (NewJob js fl [] r false).dir r' false).err =
      some Error.ErrJobAlreadyRunning ∧
    (NewJob js fl [] r false).uniqID = getUniqJobRunID r.ID false r.StartedAt ∧
    (NewJob js fl' (NewJob js fl [] r false).dir r' false).uniqID =
      getUniqJobRunID r.ID true r'.StartedAt ∧
    (NewJob js fl' (NewJob js fl [] r false).dir r' false).dir =
      [(getFilePath (getUniqJobRunID r.ID false r.StartedAt), js.encode r),
        (getFilePath (getUniqJobRunID r.ID true r'.StartedAt),
          js.encode (r'.AddError Error.ErrJobAlreadyRunning.text))] ∧
    (∀ fl'' : Faults, fl''.glob = none →
      findDuplicateRuns fl'' (NewJob js fl' (NewJob js fl [] r false).dir r' false).dir r.ID =
        .ok [getFilePath (getUniqJobRunID r.ID false r.StartedAt)]) := by
  have hne1 := (NewJob_succeeded_iff js fl [] r false).1 h1
  have e1 := (NewJob_ok js fl [] r false hne1).1
  have har1 : alreadyRunning [] r.ID = false := by
    rw [alreadyRunning_eq_false_iff]
    rfl
  simp only [har1, Bool.false_eq_true, if_false, Bool.and_false] at e1
  have hd1 : Dir.write [] (getFilePath (getUniqJobRunID r.ID false r.StartedAt)) (js.encode r) =
      [(getFilePath (getUniqJobRunID r.ID false r.StartedAt), js.encode r)] := rfl
  rw [hd1] at e1
  rw [e1] at h2 ⊢
  have hne2 := (NewJob_succeeded_iff js fl' _ r' false).1 h2
  have e2 := (NewJob_ok js fl' _ r' false hne2).1
  have hrun : runningEntries
      [(getFilePath (getUniqJobRunID r.ID false r.StartedAt), js.encode r)] r'.ID =
      [getFilePath (getUniqJobRunID r.ID false r.StartedAt)] := by
    rw [hid]
    simp [runningEntries, globNames, Dir.names, List.filter_cons, filepathMatch_running]
  have har2 : alreadyRunning
      [(getFilePath (getUniqJobRunID r.ID false r.StartedAt), js.encode r)] r'.ID = true := by
    rw [alreadyRunning_eq_true_iff, hrun]
    simp
  simp only [har2, Bool.not_false, Bool.and_self, if_true, Bool.false_eq_true, if_false] at e2
  have hpne : getFilePath (getUniqJobRunID r.ID false r.StartedAt) ≠
      getFilePath (getUniqJobRunID r'.ID true r'.StartedAt) := by
    intro h
    exact absurd (getFilePath_getUniqJobRunID_inj _ _ _ _ _ _ h).1 (by decide)
  have hd2 : Dir.write [(getFilePath (getUniqJobRunID r.ID false r.StartedAt), js.encode r)]
      (getFilePath (getUniqJobRunID r'.ID true r'.StartedAt))
      (js.encode (r'.AddError Error.ErrJobAlreadyRunning.text)) =
      [(getFilePath (getUniqJobRunID r.ID false r.StartedAt), js.encode r),
        (getFilePath (getUniqJobRunID r'.ID true r'.StartedAt),
          js.encode (r'.AddError Error.ErrJobAlreadyRunning.text))] := by
    simp [Dir.write, Dir.remove, List.filter_cons, hpne]
  rw [hd2] at e2
  rw [e2, ← hid]
  refine ⟨rfl, rfl, rfl, rfl, rfl, ?_⟩
  intro fl'' hg
  unfold findDuplicateRuns
  rw [hg]
  show Except.ok (runningEntries _ r'.ID) = _
  rw [runningEntries_pair]

/-- The amended C5 on the sample data. -/
theorem NewJob_twice_witness :
    (NewJob (sampleJSON []) noFaults (NewJob (sampleJSON []) noFaults [] sampleRun false).dir
      sampleRerun false).dir.names =
      ["0_1000_6475702d636865636b.json", "1_1060_6475702d636865636b.json"] ∧
    (NewJob (sampleJSON []) noFaults [] sampleRun false).err = none ∧
    (NewJob (sampleJSON []) noFaults (NewJob (sampleJSON []) noFaults [] sampleRun false).dir
      sampleRerun false).err = some Error.ErrJobAlreadyRunning :=
  ⟨by decide,
    (NewJob_twice (sampleJSON []) noFaults noFaults sampleRun sampleRerun rfl
      (by decide) (by decide)).1,
    (NewJob_twice (sampleJSON []) noFaults noFaults sampleRun sampleRerun rfl
      (by decide) (by decide)).2.1⟩

/-- C6: a successful `NewJob(run, true)` deletes every running entry of `run.ID`
that was there before the call, and leaves the file of every uniqID of another
job ID, running or finished, as it was. -/
theorem NewJob_forced_frame (js : JobRunJSON) (fl : Faults) (d : Dir) (r : JobRun)
    (hok : (NewJob js fl d r true).succeeded) :
    (∀ p ∈ runningEntries d r.ID, (NewJob js fl d r true).dir.read p = none) ∧
    (∀ (jobID : List Byte) (fin : Bool) (t : Int), jobID ≠ r.ID →
      (NewJob js fl d r true).dir.read (getFilePath (getUniqJobRunID jobID fin t)) =
        d.read (getFilePath (getUniqJobRunID jobID fin t))) := by
  have hne := (NewJob_succeeded_iff js fl d r true).1 hok
  obtain ⟨heq, hrm⟩ := NewJob_ok js fl d r true hne
  rw [heq]
  simp only [if_true]
  constructor
  · intro p hp
    have har : alreadyRunning d r.ID = true :=
      (alreadyRunning_eq_true_iff d r.ID).2 (List.ne_nil_of_mem hp)
    rw [har, Dir.read_write_of_ne _ _ _ _
      (ne_finished_of_mem_runningEntries d r.ID r.ID r.StartedAt p hp)]
    exact removeFiles_read_of_mem fl d _ p (hrm rfl) hp
  · intro jobID fin t hj
    have h1 : getFilePath (getUniqJobRunID jobID fin t) ≠
        getFilePath (getUniqJobRunID r.ID (alreadyRunning d r.ID) r.StartedAt) :=
      fun h => hj (getFilePath_getUniqJobRunID_inj _ _ _ _ _ _ h).2
    have h2 : getFilePath (getUniqJobRunID jobID fin t) ∉ runningEntries d r.ID := by
      intro hmem
      exact hj (eq_of_filepathMatch_running _ _ _ _ ((mem_globNames _ _ _).1 hmem).2).2
    rw [Dir.read_write_of_ne _ _ _ _ h1, removeFiles_read_of_not_mem _ _ _ _ h2]

/-- C6 on the sample data: the forced rerun removes the entry of the first run
of "dup-check" and keeps the entry of the job "other". -/
theorem NewJob_forced_frame_witness :
    (NewJob (sampleJSON []) noFaults sampleDirTwoJobs sampleRerun true).succeeded ∧
    (NewJob (sampleJSON []) noFaults sampleDirTwoJobs sampleRerun true).dir.read
      "0_1000_6475702d636865636b.json" = none ∧
    (NewJob (sampleJSON []) noFaults sampleDirTwoJobs sampleRerun true).dir.read
      (getFilePath (getUniqJobRunID (asciiBytes "other") false 900)) = some "other run" :=
  ⟨by decide,
    (NewJob_forced_frame (sampleJSON []) noFaults sampleDirTwoJobs sampleRerun (by decide)).1
      "0_1000_6475702d636865636b.json" (by decide),
    ((NewJob_forced_frame (sampleJSON []) noFaults sampleDirTwoJobs sampleRerun (by decide)).2
      (asciiBytes "other") false 900 (by decide)).trans (by decide)⟩


/-! ## Completion -/

/-- The two uniqIDs of a run differ in the marker only. -/
theorem getUniqJobRunID_marker (jobID : List Byte) (fin : Bool) (t : Int) :
    getUniqJobRunID jobID fin t =
      (if fin then markerFinished else markerRunning) ++
        ("_" ++ formatInt t ++ "_" ++ encodeJobID jobID) := by
  apply String.ext
  cases fin <;>
    simp [getUniqJobRunID, String.intercalate, String.intercalate.go, markerRunning,
      markerFinished, String.data_append]

/-- A call of `FinishJob` that nothing outside the spool hinders returns no error when the
file is there. -/
theorem FinishJob_succeeds (js : JobRunJSON) (fl : Faults) (d : Dir) (uniqID : String)
    (r : JobRun) (hfile : d.read (getFilePath uniqID) ≠ none)
    (hlock : getLock fl r.ID = none) (hren : fl.rename = none)
    (hdir : ensureSpoolDirExists fl.ensureDirSave = none)
    (hopen : fl.openFile (getFilePath (getUniqJobRunID r.ID true r.StartedAt)) = none)
    (henc : fl.encode = none) : (FinishJob js fl d uniqID r).2 = none := by
  obtain ⟨content, hc⟩ := Option.ne_none_iff_exists'.1 hfile
  unfold FinishJob
  simp only [hlock, hren]
  unfold Dir.rename
  simp only [hc]
  unfold saveJobRun
  simp only [hdir, hopen, henc]

/-- C7: if the spool holds the running entry of a run, the lock can be acquired
and neither the rename nor the write is refused by the system, `FinishJob` with
that uniqID and any final state of the same ID and start time succeeds; and
whenever it succeeds, the running file is gone and exactly one file carries the
finished marker with that timestamp and job ID, holding the encoded final state. -/
theorem FinishJob_completes (js : JobRunJSON) (fl : Faults) (d : Dir) (r r' : JobRun)
    (hid : r'.ID = r.ID) (hst : r'.StartedAt = r.StartedAt) :
    (d.read (getFilePath (getUniqJobRunID r.ID false r.StartedAt)) ≠ none →
      getLock fl r'.ID = none → fl.rename = none →
      ensureSpoolDirExists fl.ensureDirSave = none →
      fl.openFile (getFilePath (getUniqJobRunID r.ID true r.StartedAt)) = none →
      fl.encode = none →
      (FinishJob js fl d (getUniqJobRunID r.ID false r.StartedAt) r').2 = none) ∧
    ((FinishJob js fl d (getUniqJobRunID r.ID false r.StartedAt) r').2 = none →
      (FinishJob js fl d (getUniqJobRunID r.ID false r.StartedAt) r').1.read
        (getFilePath (getUniqJobRunID r.ID false r.StartedAt)) = none ∧
      (FinishJob js fl d (getUniqJobRunID r.ID false r.StartedAt) r').1.read
        (getFilePath (getUniqJobRunID r.ID true r.StartedAt)) = some (js.encode r') ∧
      (FinishJob js fl d (getUniqJobRunID r.ID false r.StartedAt) r').1.names.count
        (getFilePath (getUniqJobRunID r.ID true r.StartedAt)) = 1 ∧
      (FinishJob js fl d (getUniqJobRunID r.ID false r.StartedAt) r').1.names.count
        (getFilePath (getUniqJobRunID r.ID false r.StartedAt)) = 0) := by
  constructor
  · intro hfile hlock hren hdir hopen henc
    rw [← hid, ← hst] at hopen
    exact FinishJob_succeeds js fl d _ r' hfile hlock hren hdir hopen henc
  · intro hok
    obtain ⟨content, -, heq⟩ := FinishJob_ok js fl d _ r' hok
    rw [heq, hid, hst]
    have hne : getFilePath (getUniqJobRunID r.ID false r.StartedAt) ≠
        getFilePath (getUniqJobRunID r.ID true r.StartedAt) := by
      intro h
      exact absurd (getFilePath_getUniqJobRunID_inj _ _ _ _ _ _ h).1 (by decide)
    have hgone : Dir.read (((d.remove (getFilePath (getUniqJobRunID r.ID false r.StartedAt))).write
        (getFilePath (getUniqJobRunID r.ID true r.StartedAt)) content).write
        (getFilePath (getUniqJobRunID r.ID true r.StartedAt)) (js.encode r'))
        (getFilePath (getUniqJobRunID r.ID false r.StartedAt)) = none := by
      rw [Dir.read_write_of_ne _ _ _ _ hne, Dir.read_write_of_ne _ _ _ _ hne]
      exact Dir.read_remove_self _ _
    refine ⟨hgone, Dir.read_write_self _ _ _, Dir.count_write_self _ _ _, ?_⟩
    rw [List.count_eq_zero]
    exact (Dir.read_eq_none_iff _ _).1 hgone

/-- C7 on the sample data: finishing the running "dup-check" with its final state. -/
theorem FinishJob_completes_witness :
    (FinishJob (sampleJSON []) noFaults sampleDir
      (getUniqJobRunID sampleRun.ID false sampleRun.StartedAt) sampleRunDone).2 = none ∧
    (FinishJob (sampleJSON []) noFaults sampleDir
      (getUniqJobRunID sampleRun.ID false sampleRun.StartedAt) sampleRunDone).1.read
        (getFilePath (getUniqJobRunID sampleRun.ID true sampleRun.StartedAt)) =
      some ((sampleJSON []).encode sampleRunDone) :=
  ⟨(FinishJob_completes (sampleJSON []) noFaults sampleDir sampleRun sampleRunDone rfl rfl).1
      (by decide) (by decide) rfl rfl rfl rfl,
    ((FinishJob_completes (sampleJSON []) noFaults sampleDir sampleRun sampleRunDone rfl rfl).2
      (by decide)).2.1⟩

/-- C8: when no file exists at the path of the uniqID, `FinishJob` returns an
error and leaves the spool as it was; hence, once `FinishJob` has succeeded on a
running uniqID, a second `FinishJob` on that uniqID fails. -/
theorem FinishJob_missing_file (js : JobRunJSON) (fl : Faults) (d : Dir) (uniqID : String)
    (r : JobRun) :
    (d.read (getFilePath uniqID) = none →
      (FinishJob js fl d uniqID r).2 ≠ none ∧ (FinishJob js fl d uniqID r).1 = d) ∧
    (∀ (jobID : List Byte) (t : Int) (fl' : Faults) (r' : JobRun),
      uniqID = getUniqJobRunID jobID false t →
      (FinishJob js fl d uniqID r).2 = none →
      (FinishJob js fl' (FinishJob js fl d uniqID r).1 uniqID r').2 ≠ none ∧
      (FinishJob js fl' (FinishJob js fl d uniqID r).1 uniqID r').1 =
        (FinishJob js fl d uniqID r).1) := by
  constructor
  · exact FinishJob_missing js fl d uniqID r
  · intro jobID t fl' r' hu hok
    apply FinishJob_missing
    obtain ⟨content, -, heq⟩ := FinishJob_ok js fl d uniqID r hok
    have hne : getFilePath uniqID ≠ getFilePath (getUniqJobRunID r.ID true r.StartedAt) := by
      intro h
      rw [hu] at h
      exact absurd (getFilePath_getUniqJobRunID_inj _ _ _ _ _ _ h).1 (by decide)
    rw [heq, Dir.read_write_of_ne _ _ _ _ hne, Dir.read_write_of_ne _ _ _ _ hne]
    exact Dir.read_remove_self _ _

/-- C8 on the sample data: finishing on the empty spool fails, and finishing
"dup-check" a second time fails. -/
theorem FinishJob_missing_file_witness :
    (FinishJob (sampleJSON []) noFaults [] "0_1000_6475702d636865636b" sampleRunDone).2 ≠ none ∧
    (FinishJob (sampleJSON []) noFaults
      (FinishJob (sampleJSON []) noFaults sampleDir "0_1000_6475702d636865636b"
        sampleRunDone).1 "0_1000_6475702d636865636b" sampleRunDone).2 ≠ none :=
  ⟨((FinishJob_missing_file (sampleJSON []) noFaults [] "0_1000_6475702d636865636b"
      sampleRunDone).1 (by decide)).1,
    ((FinishJob_missing_file (sampleJSON []) noFaults sampleDir "0_1000_6475702d636865636b"
      sampleRunDone).2 (asciiBytes "dup-check") 1000 noFaults sampleRunDone (by decide)
      (by decide)).1⟩

/-- C9, as stated, fails: finishing the uniqID `0_1000_…` with a run whose
`StartedAt` is 1060 succeeds and moves the file to `1_1060_….json`; no file with
the timestamp 1000 of the uniqID carries the finished marker afterwards. -/
theorem FinishJob_rename_counterexample :
    (FinishJob (sampleJSON []) noFaults sampleDir "0_1000_6475702d636865636b" sampleRerun).2
      = none ∧
    (FinishJob (sampleJSON []) noFaults sampleDir "0_1000_6475702d636865636b"
      sampleRerun).1.names = ["1_1060_6475702d636865636b.json"] ∧
    (FinishJob (sampleJSON []) noFaults sampleDir "0_1000_6475702d636865636b"
      sampleRerun).1.read "1_1000_6475702d636865636b.json" = none := by
  decide

/-- C9, amended: when `FinishJob(uniqID, run)` succeeds, the file at the path of
`uniqID` was renamed to the finished path computed from the run handed in,
`getUniqJobRunID(run.ID, true, run.StartedAt)`, and rewritten there; that path
has the timestamp and job ID of `uniqID`, with the marker flipped, when `uniqID`
is the running uniqID of that run. -/
theorem FinishJob_rename (js : JobRunJSON) (fl : Faults) (d : Dir) (uniqID : String)
    (r : JobRun) (hok : (FinishJob js fl d uniqID r).2 = none) :
    (∃ d', d.rename (getFilePath uniqID)
        (getFilePath (getUniqJobRunID r.ID true r.StartedAt)) = some d' ∧
      (FinishJob js fl d uniqID r).1 =
        d'.write (getFilePath (getUniqJobRunID r.ID true r.StartedAt)) (js.encode r)) ∧
    (getFilePath uniqID ≠ getFilePath (getUniqJobRunID r.ID true r.StartedAt) →
      (FinishJob js fl d uniqID r).1.read (getFilePath uniqID) = none) ∧
    (uniqID = getUniqJobRunID r.ID false r.StartedAt →
      ∃ segments, uniqID = markerRunning ++ segments ∧
        getUniqJobRunID r.ID true r.StartedAt = markerFinished ++ segments) := by
  obtain ⟨content, hread, heq⟩ := FinishJob_ok js fl d uniqID r hok
  refine ⟨⟨_, ?_, heq⟩, ?_, ?_⟩
  · unfold Dir.rename
    rw [hread]
  · intro hne
    rw [heq, Dir.read_write_of_ne _ _ _ _ hne, Dir.read_write_of_ne _ _ _ _ hne]
    exact Dir.read_remove_self _ _
  · intro hu
    refine ⟨"_" ++ formatInt r.StartedAt ++ "_" ++ encodeJobID r.ID, ?_, ?_⟩
    · rw [hu, getUniqJobRunID_marker]
      rfl
    · rw [getUniqJobRunID_marker]
      rfl

/-- The amended C9 on the sample data. -/
theorem FinishJob_rename_witness :
    (FinishJob (sampleJSON []) noFaults sampleDir "0_1000_6475702d636865636b" sampleRerun).2
      = none ∧
    (FinishJob (sampleJSON []) noFaults sampleDir "0_1000_6475702d636865636b"
      sampleRerun).1.read (getFilePath "0_1000_6475702d636865636b") = none :=
  ⟨by decide,
    (FinishJob_rename (sampleJSON []) noFaults sampleDir "0_1000_6475702d636865636b"
      sampleRerun (by decide)).2.1 (by decide)⟩


/-! ## Listing -/

/-- A file is read back as a run exactly when it exists, `os.Open` and the reads
of `Decode` succeed, and its content decodes to that run. -/
theorem readEntryFile_ok (js : JobRunJSON) (fl : Faults) (d : Dir) (path : String) (j : JobRun) :
    readEntryFile js fl d path = .ok j ↔
      fl.openRead path = none ∧ fl.decodeRead path = none ∧
        ∃ content, d.read path = some content ∧ js.decode content = .ok j := by
  unfold readEntryFile
  cases hr : d.read path with
  | none => simp
  | some content =>
    cases ho : fl.openRead path with
    | some err => simp
    | none =>
      cases hc : fl.decodeRead path with
      | some err => simp
      | none =>
        cases hd : js.decode content with
        | error e => simp [hd]
        | ok j' => simp [hd]

/-- The loop of `GetFinishedJobs` succeeds exactly when every file is read back,
and then appends one id and one run per file, in order. -/
theorem readFinished_ok (js : JobRunJSON) (fl : Faults) (d : Dir) (files ids ids' : List String)
    (jobs jobs' : List JobRun) :
    readFinished js fl d files ids jobs = .ok (ids', jobs') ↔
    ∃ found : List JobRun,
      List.Forall₂ (fun f j => fl.openRead f = none ∧ fl.decodeRead f = none ∧
          ∃ content, d.read f = some content ∧ js.decode content = .ok j) files found ∧
      ids' = ids ++ found.map (fun j => getUniqJobRunID j.ID true j.StartedAt) ∧
      jobs' = jobs ++ found := by
  induction files generalizing ids jobs with
  | nil =>
    simp only [readFinished, Except.ok.injEq, Prod.mk.injEq]
    constructor
    · intro h
      exact ⟨[], List.Forall₂.nil, by simp [h.1], by simp [h.2]⟩
    · rintro ⟨found, hall, hids, hjobs⟩
      cases hall
      simp [hids, hjobs]
  | cons f rest ih =>
    unfold readFinished
    constructor
    · intro h
      cases hf : readEntryFile js fl d f with
      | error e => simp [hf] at h
      | ok j =>
        simp only [hf] at h
        obtain ⟨found, hall, hids, hjobs⟩ := (ih _ _).1 h
        refine ⟨j :: found,
          List.Forall₂.cons ((readEntryFile_ok js fl d f j).1 hf) hall, ?_, ?_⟩
        · simp [hids]
        · simp [hjobs]
    · rintro ⟨found, hall, hids, hjobs⟩
      cases hall with
      | cons hj hrest =>
        rename_i j found'
        rw [(readEntryFile_ok js fl d f j).2 hj]
        simp only []
        apply (ih _ _).2
        refine ⟨found', hrest, ?_, ?_⟩
        · simp [hids]
        · simp [hjobs]

/-- A finished entry is a running entry of no job. -/
theorem not_running_of_mem_finishedEntries (d : Dir) (f : String)
    (h : f ∈ finishedEntries d) (jobID : List Byte) :
    filepathMatch (duplicateRunsPattern jobID) f = false := by
  obtain ⟨t, ht⟩ := filepathMatch_finishedJobsPattern f ((mem_globNames _ _ _).1 h).2
  rw [Bool.eq_false_iff]
  intro hm
  obtain ⟨mid, hmid, -⟩ := (filepathMatch_duplicateRunsPattern jobID f).1 hm
  rw [ht] at hmid
  simp at hmid

/-- The listing succeeds exactly when the glob succeeds and every finished file
is read back, and then returns the runs with their recomputed ids. -/
theorem GetFinishedJobs_ok (js : JobRunJSON) (fl : Faults) (d : Dir) (ids : List String)
    (jobs : List JobRun) :
    GetFinishedJobs js fl d = .ok (ids, jobs) ↔
      fl.glob = none ∧
      List.Forall₂ (fun f j => fl.openRead f = none ∧ fl.decodeRead f = none ∧
          ∃ content, d.read f = some content ∧ js.decode content = .ok j)
        (finishedEntries d) jobs ∧
      ids = jobs.map (fun j => getUniqJobRunID j.ID true j.StartedAt) := by
  unfold GetFinishedJobs
  cases hg : fl.glob with
  | some err => simp
  | none =>
    simp only [true_and]
    rw [readFinished_ok]
    constructor
    · rintro ⟨found, hall, hids, hjobs⟩
      simp only [List.nil_append] at hids hjobs
      subst hjobs
      exact ⟨hall, hids⟩
    · rintro ⟨hall, hids⟩
      exact ⟨jobs, hall, by simp [hids], by simp⟩

/-- C10: `GetFinishedJobs` succeeds exactly when the glob succeeds and every
file whose name matches `1_*_*.json` can be opened, read and decoded; its two
results then have the same length and hold one pair for each such file, in the
order of the listing: the run is the decoded content of the file and the id is
`getUniqJobRunID(run.ID, true, run.StartedAt)`.  The files listed are exactly
those of the directory that match the pattern, none of them is a running entry,
and without such a file both results are empty. -/
theorem GetFinishedJobs_listing (js : JobRunJSON) (fl : Faults) (d : Dir) (ids : List String)
    (jobs : List JobRun) :
    (GetFinishedJobs js fl d = .ok (ids, jobs) ↔
      fl.glob = none ∧
      List.Forall₂ (fun f j => fl.openRead f = none ∧ fl.decodeRead f = none ∧
          ∃ content, d.read f = some content ∧ js.decode content = .ok j)
        (finishedEntries d) jobs ∧
      ids = jobs.map (fun j => getUniqJobRunID j.ID true j.StartedAt)) ∧
    (GetFinishedJobs js fl d = .ok (ids, jobs) → ids.length = jobs.length) ∧
    (finishedEntries d).Perm (d.names.filter (filepathMatch finishedJobsPattern)) ∧
    (∀ f ∈ finishedEntries d, ∀ jobID : List Byte,
      filepathMatch (duplicateRunsPattern jobID) f = false ∧ f ∉ runningEntries d jobID) ∧
    (fl.glob = none → (∀ name ∈ d.names, filepathMatch finishedJobsPattern name = false) →
      GetFinishedJobs js fl d = .ok ([], [])) := by
  have hiff := GetFinishedJobs_ok js fl d ids jobs
  refine ⟨hiff, ?_, globNames_perm d _, ?_, ?_⟩
  · intro h
    rw [(hiff.1 h).2.2]
    simp
  · intro f hf jobID
    have hnot := not_running_of_mem_finishedEntries d f hf jobID
    refine ⟨hnot, fun hmem => ?_⟩
    rw [((mem_globNames _ _ _).1 hmem).2] at hnot
    exact absurd hnot (by decide)
  · intro hg hnone
    have hnil : globNames d finishedJobsPattern = [] := (globNames_eq_nil_iff d _).2 hnone
    unfold GetFinishedJobs
    rw [hg]
    simp only [hnil, readFinished]

/-- C10 on the sample data: of a finished entry, a running entry and a lock
file, `GetFinishedJobs` returns the finished one, with its id and its run. -/
theorem GetFinishedJobs_listing_witness :
    finishedEntries sampleDirFinished = ["1_1000_6475702d636865636b.json"] ∧
    GetFinishedJobs (sampleJSON [sampleRunDone]) noFaults sampleDirFinished =
      .ok (["1_1000_6475702d636865636b"], [sampleRunDone]) ∧
    ["1_1000_6475702d636865636b"].length = [sampleRunDone].length :=
  ⟨by decide,
    ((GetFinishedJobs_listing (sampleJSON [sampleRunDone]) noFaults sampleDirFinished
      ["1_1000_6475702d636865636b"] [sampleRunDone]).1).2
      ⟨rfl, (by
        rw [show finishedEntries sampleDirFinished = ["1_1000_6475702d636865636b.json"] from
          by decide]
        exact List.Forall₂.cons ⟨rfl, rfl, sampleEncode sampleRunDone, by decide, by rfl⟩
          List.Forall₂.nil), by decide⟩,
    (GetFinishedJobs_listing (sampleJSON [sampleRunDone]) noFaults sampleDirFinished
      ["1_1000_6475702d636865636b"] [sampleRunDone]).2.1 (by rfl)⟩


/-! ## The life of one run, and removal -/

/-- A successful unforced `NewJob` on the empty spool. -/
theorem NewJob_empty (js : JobRunJSON) (fl : Faults) (r : JobRun)
    (h : (NewJob js fl [] r false).succeeded) :
    NewJob js fl [] r false =
      ⟨[(getFilePath (getUniqJobRunID r.ID false r.StartedAt), js.encode r)], r,
        getUniqJobRunID r.ID false r.StartedAt, none⟩ := by
  have hne := (NewJob_succeeded_iff js fl [] r false).1 h
  have e1 := (NewJob_ok js fl [] r false hne).1
  have har : alreadyRunning [] r.ID = false := by
    rw [alreadyRunning_eq_false_iff]
    rfl
  simp only [har, Bool.false_eq_true, if_false, Bool.and_false] at e1
  exact e1

/-- C11: on the empty spool, for a run and a final state of it that decodes back
from its encoding, when `NewJob`, `FinishJob` and `RemoveJobs` succeed and the
glob, the opening and the reading of the listing are not refused:
`NewJob(run, false)` creates the
running entry of the run and nothing else; `FinishJob` with the uniqID returned
leaves exactly one entry, the finished one of the same job ID and timestamp;
`GetFinishedJobs` then returns one id and one run, the final state; and
`RemoveJobs` on the ids returned leaves the spool empty. -/
theorem scenario_create_finish_list_remove (js : JobRunJSON) (fl1 fl2 fl3 fl4 : Faults)
    (r r' : JobRun) (hid : r'.ID = r.ID) (hst : r'.StartedAt = r.StartedAt)
    (hdec : js.decode (js.encode r') = .ok r')
    (h1 : (NewJob js fl1 [] r false).succeeded)
    (h2 : (FinishJob js fl2 (NewJob js fl1 [] r false).dir
      (NewJob js fl1 [] r false).uniqID r').2 = none)
    (h3 : fl3.glob = none)
    (h3o : fl3.openRead (getFilePath (getUniqJobRunID r.ID true r.StartedAt)) = none)
    (h3d : fl3.decodeRead (getFilePath (getUniqJobRunID r.ID true r.StartedAt)) = none)
    (h4 : (RemoveJobs fl4 (FinishJob js fl2 (NewJob js fl1 [] r false).dir
      (NewJob js fl1 [] r false).uniqID r').1 [getUniqJobRunID r.ID true r.StartedAt]).2 = none) :
    (NewJob js fl1 [] r false).uniqID = getUniqJobRunID r.ID false r.StartedAt ∧
    (NewJob js fl1 [] r false).dir =
      [(getFilePath (getUniqJobRunID r.ID false r.StartedAt), js.encode r)] ∧
    (FinishJob js fl2 (NewJob js fl1 [] r false).dir (NewJob js fl1 [] r false).uniqID r').1 =
      [(getFilePath (getUniqJobRunID r.ID true r.StartedAt), js.encode r')] ∧
    GetFinishedJobs js fl3 (FinishJob js fl2 (NewJob js fl1 [] r false).dir
      (NewJob js fl1 [] r false).uniqID r').1 =
      .ok ([getUniqJobRunID r.ID true r.StartedAt], [r']) ∧
    (RemoveJobs fl4 (FinishJob js fl2 (NewJob js fl1 [] r false).dir
      (NewJob js fl1 [] r false).uniqID r').1 [getUniqJobRunID r.ID true r.StartedAt]).1 = [] := by
  have e1 := NewJob_empty js fl1 r h1
  rw [e1] at h2 h4 ⊢
  simp only at h2 h4 ⊢
  obtain ⟨content, -, e2⟩ := FinishJob_ok js fl2 _ _ r' h2
  rw [hid, hst] at e2
  have hd2 : (((Dir.remove [(getFilePath (getUniqJobRunID r.ID false r.StartedAt), js.encode r)]
      (getFilePath (getUniqJobRunID r.ID false r.StartedAt))).write
      (getFilePath (getUniqJobRunID r.ID true r.StartedAt)) content).write
      (getFilePath (getUniqJobRunID r.ID true r.StartedAt)) (js.encode r')) =
      [(getFilePath (getUniqJobRunID r.ID true r.StartedAt), js.encode r')] := by
    simp [Dir.write, Dir.remove]
  rw [hd2] at e2
  rw [e2] at h4 ⊢
  refine ⟨by first | rfl | trivial, by first | rfl | trivial, rfl, ?_, ?_⟩
  · unfold GetFinishedJobs
    rw [h3]
    have hglob : globNames [(getFilePath (getUniqJobRunID r.ID true r.StartedAt), js.encode r')]
        finishedJobsPattern = [getFilePath (getUniqJobRunID r.ID true r.StartedAt)] := by
      simp [globNames, Dir.names, List.filter_cons, filepathMatch_finished]
    have hread : readEntryFile js fl3
        [(getFilePath (getUniqJobRunID r.ID true r.StartedAt), js.encode r')]
        (getFilePath (getUniqJobRunID r.ID true r.StartedAt)) = .ok r' := by
      simp [readEntryFile, Dir.read_cons, hdec, h3o, h3d]
    simp only [hglob, readFinished, hread, List.nil_append, hid, hst]
  · have hrm := (removeFiles_ok_iff fl4 _ _).1 h4
    simp only [RemoveJobs, List.map_cons, List.map_nil, removeFiles, removeFile] at hrm ⊢
    rw [hrm _ (List.mem_singleton.2 rfl)]
    simp [Dir.remove]

/-- C11 on the sample data: the job "db-ping" started at second 1000. -/
theorem scenario_create_finish_list_remove_witness :
    (NewJob (sampleJSON [dbPingRun]) noFaults [] dbPingRun false).uniqID =
      "0_1000_64622d70696e67" ∧
    (FinishJob (sampleJSON [dbPingRun]) noFaults
      (NewJob (sampleJSON [dbPingRun]) noFaults [] dbPingRun false).dir
      (NewJob (sampleJSON [dbPingRun]) noFaults [] dbPingRun false).uniqID dbPingRun).1.names =
      ["1_1000_64622d70696e67.json"] ∧
    (RemoveJobs noFaults (FinishJob (sampleJSON [dbPingRun]) noFaults
      (NewJob (sampleJSON [dbPingRun]) noFaults [] dbPingRun false).dir
      (NewJob (sampleJSON [dbPingRun]) noFaults [] dbPingRun false).uniqID dbPingRun).1
      [getUniqJobRunID dbPingRun.ID true dbPingRun.StartedAt]).1 = [] ∧
    GetFinishedJobs (sampleJSON [dbPingRun]) noFaults (FinishJob (sampleJSON [dbPingRun]) noFaults
      (NewJob (sampleJSON [dbPingRun]) noFaults [] dbPingRun false).dir
      (NewJob (sampleJSON [dbPingRun]) noFaults [] dbPingRun false).uniqID dbPingRun).1 =
      .ok ([getUniqJobRunID dbPingRun.ID true dbPingRun.StartedAt], [dbPingRun]) :=
  ⟨(scenario_create_finish_list_remove (sampleJSON [dbPingRun]) noFaults noFaults noFaults
      noFaults dbPingRun dbPingRun rfl rfl (by rfl) (by decide) (by decide) rfl rfl rfl
      (by decide)).1.trans (by decide),
    by decide,
    (scenario_create_finish_list_remove (sampleJSON [dbPingRun]) noFaults noFaults noFaults
      noFaults dbPingRun dbPingRun rfl rfl (by rfl) (by decide) (by decide) rfl rfl rfl
      (by decide)).2.2.2.2,
    (scenario_create_finish_list_remove (sampleJSON [dbPingRun]) noFaults noFaults noFaults
      noFaults dbPingRun dbPingRun rfl rfl (by rfl) (by decide) (by decide) rfl rfl rfl
      (by decide)).2.2.2.1⟩

/-- C12: `RemoveJobs` takes an absent file for removed: on ids whose files do not
exist, and for which `os.Remove` reports nothing but that, it returns no error
and leaves the spool as it is; hence, after a `RemoveJobs(ids)` that succeeded,
`RemoveJobs(ids)` again returns no error and leaves the spool as the first call
left it. -/
theorem RemoveJobs_idempotent (fl : Faults) (d : Dir) (ids : List String) :
    ((∀ id ∈ ids, d.read (getFilePath id) = none) →
      (∀ id ∈ ids, fl.remove (getFilePath id) = none) →
      RemoveJobs fl d ids = (d, none)) ∧
    ((RemoveJobs fl d ids).2 = none →
      RemoveJobs fl (RemoveJobs fl d ids).1 ids = ((RemoveJobs fl d ids).1, none)) := by
  constructor
  · intro habs hok
    apply removeFiles_of_absent
    · intro p hp
      obtain ⟨id, hid, rfl⟩ := List.mem_map.1 hp
      exact habs id hid
    · intro p hp
      obtain ⟨id, hid, rfl⟩ := List.mem_map.1 hp
      exact hok id hid
  · intro h
    apply removeFiles_of_absent
    · intro p hp
      exact removeFiles_read_of_mem fl d _ p h hp
    · exact (removeFiles_ok_iff fl d _).1 h

/-- C12 on the sample data: removing the finished run twice, and removing from the
empty spool. -/
theorem RemoveJobs_idempotent_witness :
    RemoveJobs noFaults [] ["1_1000_6475702d636865636b"] = ([], none) ∧
    RemoveJobs noFaults (RemoveJobs noFaults sampleDirFinished ["1_1000_6475702d636865636b"]).1
      ["1_1000_6475702d636865636b"] =
      ((RemoveJobs noFaults sampleDirFinished ["1_1000_6475702d636865636b"]).1, none) :=
  ⟨(RemoveJobs_idempotent noFaults [] ["1_1000_6475702d636865636b"]).1 (by decide) (by decide),
    (RemoveJobs_idempotent noFaults sampleDirFinished ["1_1000_6475702d636865636b"]).2
      (by decide)⟩

/-- C13: when the removal of the file of the id after `before` is the first that
`os.Remove` refuses with an error other than not-exist, `RemoveJobs` returns that
error wrapped with the path and stops: it has called `os.Remove` for the ids up
to that one and for none of those after it, the files of the ids before it are
gone, and every other file is as it was. -/
theorem RemoveJobs_fail_fast (fl : Faults) (d : Dir) (before after : List String)
    (id msg : String) (hbefore : ∀ x ∈ before, fl.remove (getFilePath x) = none)
    (hfail : fl.remove (getFilePath id) = some msg) :
    (RemoveJobs fl d (before ++ id :: after)).2 =
      some (.wrap (.sys msg) ("while removing " ++ getFilePath id)) ∧
    (RemoveJobsT fl d (before ++ id :: after)).2 =
      (before ++ [id]).map (fun x => Event.remove (getFilePath x)) ∧
    (RemoveJobs fl d (before ++ id :: after)).1 = (RemoveJobs fl d before).1 ∧
    (RemoveJobs fl d before).2 = none ∧
    (∀ x ∈ before, (RemoveJobs fl d (before ++ id :: after)).1.read (getFilePath x) = none) ∧
    (∀ path, path ∉ before.map getFilePath →
      (RemoveJobs fl d (before ++ id :: after)).1.read path = d.read path) := by
  have hpre : ∀ p ∈ before.map getFilePath, fl.remove p = none := by
    intro p hp
    obtain ⟨x, hx, rfl⟩ := List.mem_map.1 hp
    exact hbefore x hx
  have hok : (removeFiles fl d (before.map getFilePath)).2 = none :=
    (removeFiles_ok_iff fl d _).2 hpre
  have heq : RemoveJobs fl d (before ++ id :: after) =
      ((removeFiles fl d (before.map getFilePath)).1,
        some (.wrap (.sys msg) ("while removing " ++ getFilePath id))) := by
    unfold RemoveJobs
    rw [List.map_append, List.map_cons]
    exact removeFiles_append_fail fl d _ _ _ msg hpre hfail
  refine ⟨by rw [heq], ?_, by rw [heq]; rfl, hok, ?_, ?_⟩
  · unfold RemoveJobsT
    rw [List.map_append, List.map_cons,
      removeFilesT_append_fail fl d _ _ _ msg hpre hfail]
    simp
  · intro x hx
    rw [heq]
    exact removeFiles_read_of_mem fl d _ _ hok (List.mem_map_of_mem _ hx)
  · intro path hpath
    rw [heq]
    exact removeFiles_read_of_not_mem fl d _ _ hpath

/-- C13 on the sample data: of three ids the second cannot be removed; the first
file is gone, the third call is never made and the lock file is still there. -/
theorem RemoveJobs_fail_fast_witness :
    (RemoveJobs stuckFaults sampleDirFinished
      (["1_1000_6475702d636865636b"] ++ "0_1060_6475702d636865636b" ::
        ["job_6475702d636865636b.lock"])).2 =
      some (.wrap (.sys "permission denied")
        ("while removing " ++ getFilePath "0_1060_6475702d636865636b")) ∧
    (RemoveJobs stuckFaults sampleDirFinished
      (["1_1000_6475702d636865636b"] ++ "0_1060_6475702d636865636b" ::
        ["job_6475702d636865636b.lock"])).1.names =
      ["0_1060_6475702d636865636b.json", "job_6475702d636865636b.lock"] :=
  ⟨(RemoveJobs_fail_fast stuckFaults sampleDirFinished ["1_1000_6475702d636865636b"]
      ["job_6475702d636865636b.lock"] "0_1060_6475702d636865636b" "permission denied"
      (by decide) (by decide)).1,
    by decide⟩

/-- C20: `getUniqJobRunID` returns the marker, "1" for a finished run and "0"
otherwise, the start time in decimal epoch seconds and the hex-encoded job ID,
joined by single underscores; the file of the entry is that stem followed by
`.json`; and ("check-disk", running, 1700000000) gives
`0_1700000000_636865636b2d6469736b`. -/
theorem getUniqJobRunID_format (jobID : List Byte) (isJobFinished : Bool) (jobStartedAt : Int) :
    getUniqJobRunID jobID isJobFinished jobStartedAt =
      (if isJobFinished then "1" else "0") ++ "_" ++ formatInt jobStartedAt ++ "_" ++
        encodeJobID jobID ∧
    getFilePath (getUniqJobRunID jobID isJobFinished jobStartedAt) =
      getUniqJobRunID jobID isJobFinished jobStartedAt ++ ".json" ∧
    (∀ c ∈ (formatInt jobStartedAt).data,
      c ∈ ['-', '0', '1', '2', '3', '4', '5', '6', '7', '8', '9']) ∧
    (formatInt jobStartedAt).data ≠ [] ∧
    (encodeJobID jobID).data = hexChars jobID ∧
    getUniqJobRunID (asciiBytes "check-disk") false 1700000000 =
      "0_1700000000_636865636b2d6469736b" ∧
    formatInt 1700000000 = "1700000000" ∧
    encodeJobID (asciiBytes "check-disk") = "636865636b2d6469736b" := by
  refine ⟨?_, ?_, fun c hc => mem_formatInt c _ hc, formatInt_ne_nil _, rfl, by decide,
    by decide, by decide⟩
  · apply String.ext
    cases isJobFinished <;>
      simp [getUniqJobRunID, String.intercalate, String.intercalate.go, markerRunning,
        markerFinished, String.data_append]
  · apply String.ext
    simp [getFilePath, jsonExtension, String.data_append]


/-! ## The lock coordinator -/

/-- C14: whatever the `TryLock` calls answer, `getLock` makes at most 20 of
them, sleeps 500 ms once between each two and at no other time, and so at most
10 seconds in all: its calls are failed attempts, each followed by the owner
lookup, the log line and the pause, and one attempt after them.  If every attempt
fails it makes exactly 20 and sleeps 9.5 seconds before giving up; if attempt `k`
of 1 to 20 is the first to succeed it returns the lock after exactly `k`
attempts, the last call it makes. -/
theorem getLock_attempts (fl : Faults) (jobID : List Byte) :
    attempts (getLockT fl jobID).2 ≤ 20 ∧
    sleeps (getLockT fl jobID).2 = attempts (getLockT fl jobID).2 - 1 ∧
    sleepTotal (getLockT fl jobID).2 = 500 * sleeps (getLockT fl jobID).2 ∧
    sleepTotal (getLockT fl jobID).2 ≤ 10000 ∧
    ((getLockT fl jobID).2 ≠ [] → ∃ (n : Nat) (ok : Bool),
      (getLockT fl jobID).2 = (List.range n).flatMap (failedAttempt fl jobID) ++
        [.tryLock (lockFileName jobID) ok]) ∧
    (ensureSpoolDirExists fl.ensureDirLock = none → fl.lockNew (lockFileName jobID) = none →
      ((∀ n, n < 20 → fl.tryLock (lockFileName jobID) n ≠ none) →
        attempts (getLockT fl jobID).2 = 20 ∧ sleepTotal (getLockT fl jobID).2 = 9500 ∧
        (getLockT fl jobID).1 ≠ none) ∧
      (∀ k, 1 ≤ k → k ≤ 20 → (∀ n, n < k - 1 → fl.tryLock (lockFileName jobID) n ≠ none) →
        fl.tryLock (lockFileName jobID) (k - 1) = none →
        attempts (getLockT fl jobID).2 = k ∧ sleeps (getLockT fl jobID).2 = k - 1 ∧
        (getLockT fl jobID).1 = none ∧
        (getLockT fl jobID).2.getLast? = some (.tryLock (lockFileName jobID) true))) := by
  have hcount : ∀ (n : Nat) (ok : Bool),
      attempts ((List.range n).flatMap (failedAttempt fl jobID) ++
        [Event.tryLock (lockFileName jobID) ok]) = n + 1 ∧
      sleeps ((List.range n).flatMap (failedAttempt fl jobID) ++
        [Event.tryLock (lockFileName jobID) ok]) = n ∧
      sleepTotal ((List.range n).flatMap (failedAttempt fl jobID) ++
        [Event.tryLock (lockFileName jobID) ok]) = 500 * n := by
    intro n ok
    rw [attempts_append, sleeps_append, sleepTotal_append, attempts_failedAttempts,
      sleeps_failedAttempts, sleepTotal_failedAttempts, List.length_range]
    exact ⟨rfl, rfl, rfl⟩
  have hgen : attempts (getLockT fl jobID).2 ≤ 20 ∧
      sleeps (getLockT fl jobID).2 = attempts (getLockT fl jobID).2 - 1 ∧
      sleepTotal (getLockT fl jobID).2 = 500 * sleeps (getLockT fl jobID).2 ∧
      sleepTotal (getLockT fl jobID).2 ≤ 10000 ∧
      ((getLockT fl jobID).2 ≠ [] → ∃ (n : Nat) (ok : Bool),
        (getLockT fl jobID).2 = (List.range n).flatMap (failedAttempt fl jobID) ++
          [.tryLock (lockFileName jobID) ok]) := by
    by_cases hd : ensureSpoolDirExists fl.ensureDirLock = none ∧
        fl.lockNew (lockFileName jobID) = none
    · obtain ⟨n, ok, hn, htrace, -⟩ := getLockT_shape fl jobID hd.1 hd.2
      obtain ⟨h1, h2, h3⟩ := hcount n ok
      rw [htrace, h1, h2, h3]
      have hn' : n < 20 := hn
      exact ⟨by omega, by omega, rfl, by omega, fun _ => ⟨n, ok, rfl⟩⟩
    · have hd' : ensureSpoolDirExists fl.ensureDirLock ≠ none ∨
          fl.lockNew (lockFileName jobID) ≠ none := by
        by_cases h1 : ensureSpoolDirExists fl.ensureDirLock = none
        · exact Or.inr (fun h2 => hd ⟨h1, h2⟩)
        · exact Or.inl h1
      rw [(getLockT_early fl jobID hd').1]
      exact ⟨by decide, by decide, by decide, by decide, fun h => absurd rfl h⟩
  refine ⟨hgen.1, hgen.2.1, hgen.2.2.1, hgen.2.2.2.1, hgen.2.2.2.2, ?_⟩
  intro hdir hnew
  constructor
  · intro hall
    obtain ⟨err, -, hres, htrace⟩ := getLock_all_failed fl jobID hdir hnew hall
    obtain ⟨h1, -, h3⟩ := hcount (retryLimit - 1) false
    rw [htrace, h1, h3, getLockT_fst, hres]
    exact ⟨rfl, rfl, by simp⟩
  · intro k hk1 hk20 hfail hok
    obtain ⟨hres, htrace⟩ := getLock_first_success fl jobID (k - 1) hdir hnew
      (by show k - 1 < 20; omega) hfail hok
    obtain ⟨h1, h2, -⟩ := hcount (k - 1) true
    rw [htrace, h1, h2, getLockT_fst, hres, List.getLast?_concat]
    exact ⟨by omega, rfl, rfl, rfl⟩

/-- C14 on the sample data: with the lock busy throughout, 20 attempts and 9.5
seconds of sleep; with the third attempt succeeding, 3 attempts and 2 sleeps. -/
theorem getLock_attempts_witness :
    attempts (getLockT busyFaults slowJobRun.ID).2 = 20 ∧
    sleepTotal (getLockT busyFaults slowJobRun.ID).2 = 9500 ∧
    attempts (getLockT contendedFaults dbPingRun.ID).2 = 3 ∧
    sleeps (getLockT contendedFaults dbPingRun.ID).2 = 3 - 1 :=
  ⟨(((getLock_attempts busyFaults slowJobRun.ID).2.2.2.2.2 rfl rfl).1 (by decide)).1,
    (((getLock_attempts busyFaults slowJobRun.ID).2.2.2.2.2 rfl rfl).1 (by decide)).2.1,
    (((getLock_attempts contendedFaults dbPingRun.ID).2.2.2.2.2 rfl rfl).2 3 (by decide)
      (by decide) (by decide) rfl).1,
    (((getLock_attempts contendedFaults dbPingRun.ID).2.2.2.2.2 rfl rfl).2 3 (by decide)
      (by decide) (by decide) rfl).2.1⟩

/-- C15: if all lock attempts fail, `getLock` returns the error of the last
`TryLock`; `NewJob` then returns the empty uniqID with that error and `FinishJob`
that error, the spool and the run are as they were, and neither has made a call
that creates, renames, rewrites or removes a file. -/
theorem lock_failure_fails_operation (js : JobRunJSON) (fl : Faults) (d : Dir) (r : JobRun)
    (forcedRun : Bool) (uniqID : String)
    (hdir : ensureSpoolDirExists fl.ensureDirLock = none)
    (hnew : fl.lockNew (lockFileName r.ID) = none)
    (hall : ∀ n, n < retryLimit → fl.tryLock (lockFileName r.ID) n ≠ none) :
    ∃ err, fl.tryLock (lockFileName r.ID) (retryLimit - 1) = some err ∧
      getLock fl r.ID = some (.sys err) ∧
      NewJob js fl d r forcedRun = ⟨d, r, "", some (.sys err)⟩ ∧
      FinishJob js fl d uniqID r = (d, some (.sys err)) ∧
      (NewJobT js fl d r forcedRun).1 = ⟨d, r, "", some (.sys err)⟩ ∧
      (FinishJobT js fl d uniqID r).1 = (d, some (.sys err)) ∧
      (∀ e ∈ (NewJobT js fl d r forcedRun).2, e.isMutation = false) ∧
      (∀ e ∈ (FinishJobT js fl d uniqID r).2, e.isMutation = false) := by
  obtain ⟨err, herr, hres, -⟩ := getLock_all_failed fl r.ID hdir hnew hall
  refine ⟨err, herr, hres, NewJob_of_getLock_error js fl d r forcedRun _ hres,
    FinishJob_of_getLock_error js fl d uniqID r _ hres, ?_, ?_, ?_, ?_⟩
  · rw [NewJobT_of_getLock_error js fl d r forcedRun _ hres]
  · rw [FinishJobT_of_getLock_error js fl d uniqID r _ hres]
  · intro e he
    rw [NewJobT_of_getLock_error js fl d r forcedRun _ hres] at he
    exact (mem_getLockT fl r.ID e he).1
  · intro e he
    rw [FinishJobT_of_getLock_error js fl d uniqID r _ hres] at he
    exact (mem_getLockT fl r.ID e he).1

/-- C15 on the sample data: "slow-job" with its lock busy throughout. -/
theorem lock_failure_fails_operation_witness :
    ∃ err, busyFaults.tryLock (lockFileName slowJobRun.ID) (retryLimit - 1) = some err ∧
      getLock busyFaults slowJobRun.ID = some (.sys err) ∧
      NewJob (sampleJSON []) busyFaults sampleDir slowJobRun false =
        ⟨sampleDir, slowJobRun, "", some (.sys err)⟩ :=
  (lock_failure_fails_operation (sampleJSON []) busyFaults sampleDir slowJobRun false
    "0_2000_736c6f772d6a6f62" rfl rfl (by decide)).imp
    (fun _ h => ⟨h.1, h.2.1, h.2.2.1⟩)

/-- C16, as stated, fails: with the lock of "slow-job" held by process 4711
throughout, `NewJob` returns the error of `TryLock`, whose text does not hold the
owner that was reported; the owner is in the lines handed to the logger. -/
theorem NewJob_lock_owner_counterexample :
    (NewJob (sampleJSON []) busyFaults [] slowJobRun false).err =
      some (.sys "Locked by other process") ∧
    ownerInfo (busyFaults.getOwner (lockFileName slowJobRun.ID) 0) = "process with id 4711" ∧
    ¬ ("process with id 4711".data <:+: (Error.sys "Locked by other process").text.data) ∧
    ¬ ("4711".data <:+: (Error.sys "Locked by other process").text.data) ∧
    "job slow-job: could not get lock. Lockfile owner: process with id 4711. Attempt 1 of 20, retrying in 500ms"
      ∈ logLines (NewJobT (sampleJSON []) busyFaults [] slowJobRun false).2 := by
  decide

/-- C16, amended: when the lock of a job ID is held for the whole retry window,
`NewJob` returns the error of the last `TryLock` as it is, whatever `GetOwner`
answered; the owner obtained after each of the first 19 failed attempts is
handed to the logger, one line per attempt, and these are all the lines logged. -/
theorem NewJob_lock_owner (js : JobRunJSON) (fl : Faults) (d : Dir) (r : JobRun)
    (forcedRun : Bool) (hdir : ensureSpoolDirExists fl.ensureDirLock = none)
    (hnew : fl.lockNew (lockFileName r.ID) = none)
    (hall : ∀ n, n < retryLimit → fl.tryLock (lockFileName r.ID) n ≠ none) :
    ∃ err, fl.tryLock (lockFileName r.ID) (retryLimit - 1) = some err ∧
      (NewJob js fl d r forcedRun).err = some (.sys err) ∧
      (NewJobT js fl d r forcedRun).1.err = some (.sys err) ∧
      logLines (NewJobT js fl d r forcedRun).2 =
        (List.range 19).map (fun n => lockLogMessage r.ID
          (ownerInfo (fl.getOwner (lockFileName r.ID) n)) (n + 1)) := by
  obtain ⟨err, herr, hres, htrace⟩ := getLock_all_failed fl r.ID hdir hnew hall
  refine ⟨err, herr, ?_, ?_, ?_⟩
  · rw [NewJob_of_getLock_error js fl d r forcedRun _ hres]
  · rw [NewJobT_of_getLock_error js fl d r forcedRun _ hres]
  · rw [NewJobT_of_getLock_error js fl d r forcedRun _ hres]
    simp only
    rw [htrace, logLines_append, logLines_failedAttempts]
    simp [logLines, Event.logLine, retryLimit]

/-- The amended C16 on the sample data. -/
theorem NewJob_lock_owner_witness :
    ∃ err, busyFaults.tryLock (lockFileName slowJobRun.ID) (retryLimit - 1) = some err ∧
      (NewJob (sampleJSON []) busyFaults [] slowJobRun false).err = some (.sys err) :=
  (NewJob_lock_owner (sampleJSON []) busyFaults [] slowJobRun false rfl rfl (by decide)).imp
    (fun _ h => ⟨h.1, h.2.1⟩)


/-! ## Releasing the lock, and what is done under it -/

/-- The lock held after two traces in a row. -/
theorem heldAfter_append (lockFile : String) (held : Bool) (s t : List Event) :
    heldAfter lockFile held (s ++ t) = heldAfter lockFile (heldAfter lockFile held s) t := by
  induction s generalizing held with
  | nil => rfl
  | cons e s ih =>
    cases e with
    | tryLock lf ok => cases ok <;> (simp only [List.cons_append, heldAfter]; exact ih _)
    | unlock lf ok => cases ok <;> (simp only [List.cons_append, heldAfter]; exact ih _)
    | getOwner lf => simp only [List.cons_append, heldAfter]; exact ih _
    | log msg => simp only [List.cons_append, heldAfter]; exact ih _
    | sleep ms => simp only [List.cons_append, heldAfter]; exact ih _
    | glob pattern => simp only [List.cons_append, heldAfter]; exact ih _
    | remove path => simp only [List.cons_append, heldAfter]; exact ih _
    | rename a b => simp only [List.cons_append, heldAfter]; exact ih _
    | write path => simp only [List.cons_append, heldAfter]; exact ih _

/-- A release whose `Unlock` fails logs the error and leaves the lock held. -/
theorem releaseLock_failed (fl : Faults) (lockFile err : String) (pre : List Event)
    (hpre : heldAfter lockFile false pre = true) (hu : fl.unlock lockFile = some err) :
    (pre ++ releaseLock fl lockFile).getLast? =
      some (.log ("could not release lock: " ++ err)) ∧
    heldAfter lockFile false (pre ++ releaseLock fl lockFile) = true := by
  have hrel : releaseLock fl lockFile =
      [.unlock lockFile false, .log ("could not release lock: " ++ err)] := by
    unfold releaseLock
    rw [hu]
  rw [hrel, heldAfter_append, hpre]
  refine ⟨?_, rfl⟩
  rw [show pre ++ [Event.unlock lockFile false, Event.log ("could not release lock: " ++ err)] =
    (pre ++ [Event.unlock lockFile false]) ++ [Event.log ("could not release lock: " ++ err)]
    from by simp]
  exact List.getLast?_concat _

/-- C17 fails when `Unlock` itself fails: with every other call succeeding,
`NewJob` for "db-ping" on the empty spool gets the lock, writes the entry, calls
`Unlock` once, logs its error and returns the uniqID with a nil error while the
lock is still held; so does `FinishJob` of that run. -/
theorem lock_released_once_counterexample :
    getLock unlockFaults dbPingRun.ID = none ∧
    (NewJobT (sampleJSON []) unlockFaults [] dbPingRun false).1.uniqID = "0_1000_64622d70696e67" ∧
    (NewJobT (sampleJSON []) unlockFaults [] dbPingRun false).1.err = none ∧
    (NewJobT (sampleJSON []) unlockFaults [] dbPingRun false).2.countP Event.isUnlock = 1 ∧
    logLines (NewJobT (sampleJSON []) unlockFaults [] dbPingRun false).2 =
      ["could not release lock: permission denied"] ∧
    heldAfter (lockFileName dbPingRun.ID) false
      (NewJobT (sampleJSON []) unlockFaults [] dbPingRun false).2 = true ∧
    (FinishJobT (sampleJSON []) unlockFaults
      (NewJobT (sampleJSON []) unlockFaults [] dbPingRun false).1.dir
      "0_1000_64622d70696e67" dbPingRun).1.2 = none ∧
    heldAfter (lockFileName dbPingRun.ID) false
      (FinishJobT (sampleJSON []) unlockFaults
        (NewJobT (sampleJSON []) unlockFaults [] dbPingRun false).1.dir
        "0_1000_64622d70696e67" dbPingRun).2 = true := by
  decide

/-- C17, amended: when `getLock` got the lock, the calls of `NewJob` and of
`FinishJob` are those of `getLock`, those of the critical section and those of
`releaseLock`, in this order, whichever way the critical section ends: the lock
is held up to `releaseLock` and `Unlock` is called exactly once.  When `Unlock`
succeeds it is the last call and the lock is not held on return; when `Unlock`
fails its error is logged, nothing else is done, and the lock is still held on
return.  When `getLock` failed, `Unlock` is never called and no lock is held. -/
theorem lock_released_once (js : JobRunJSON) (fl : Faults) (d : Dir) (r : JobRun)
    (forcedRun : Bool) (uniqID : String) :
    (getLock fl r.ID = none →
      ((NewJobT js fl d r forcedRun).2 =
        (getLockT fl r.ID).2 ++ (NewJobLockedT js fl d r forcedRun).2 ++
          releaseLock fl (lockFileName r.ID) ∧
      heldAfter (lockFileName r.ID) false
        ((getLockT fl r.ID).2 ++ (NewJobLockedT js fl d r forcedRun).2) = true ∧
      (∀ e ∈ (getLockT fl r.ID).2 ++ (NewJobLockedT js fl d r forcedRun).2,
        e.isUnlock = false) ∧
      (NewJobT js fl d r forcedRun).2.countP Event.isUnlock = 1 ∧
      (fl.unlock (lockFileName r.ID) = none →
        (NewJobT js fl d r forcedRun).2.getLast? = some (.unlock (lockFileName r.ID) true) ∧
        heldAfter (lockFileName r.ID) false (NewJobT js fl d r forcedRun).2 = false) ∧
      (∀ err, fl.unlock (lockFileName r.ID) = some err →
        (NewJobT js fl d r forcedRun).2.getLast? =
          some (.log ("could not release lock: " ++ err)) ∧
        heldAfter (lockFileName r.ID) false (NewJobT js fl d r forcedRun).2 = true)) ∧
      ((FinishJobT js fl d uniqID r).2 =
        (getLockT fl r.ID).2 ++ (FinishJobLockedT js fl d uniqID r).2 ++
          releaseLock fl (lockFileName r.ID) ∧
      heldAfter (lockFileName r.ID) false
        ((getLockT fl r.ID).2 ++ (FinishJobLockedT js fl d uniqID r).2) = true ∧
      (∀ e ∈ (getLockT fl r.ID).2 ++ (FinishJobLockedT js fl d uniqID r).2,
        e.isUnlock = false) ∧
      (FinishJobT js fl d uniqID r).2.countP Event.isUnlock = 1 ∧
      (fl.unlock (lockFileName r.ID) = none →
        (FinishJobT js fl d uniqID r).2.getLast? = some (.unlock (lockFileName r.ID) true) ∧
        heldAfter (lockFileName r.ID) false (FinishJobT js fl d uniqID r).2 = false) ∧
      (∀ err, fl.unlock (lockFileName r.ID) = some err →
        (FinishJobT js fl d uniqID r).2.getLast? =
          some (.log ("could not release lock: " ++ err)) ∧
        heldAfter (lockFileName r.ID) false (FinishJobT js fl d uniqID r).2 = true))) ∧
    (getLock fl r.ID ≠ none →
      (NewJobT js fl d r forcedRun).2.countP Event.isUnlock = 0 ∧
      heldAfter (lockFileName r.ID) false (NewJobT js fl d r forcedRun).2 = false ∧
      (FinishJobT js fl d uniqID r).2.countP Event.isUnlock = 0 ∧
      heldAfter (lockFileName r.ID) false (FinishJobT js fl d uniqID r).2 = false) := by
  constructor
  · intro h
    obtain ⟨n1, n2, n3, n4, -⟩ := locked_section fl r.ID (NewJobLockedT js fl d r forcedRun).2 h
      (changesLock_of_mem_NewJobLockedT js fl d r forcedRun)
    obtain ⟨f1, f2, f3, f4, -⟩ := locked_section fl r.ID (FinishJobLockedT js fl d uniqID r).2 h
      (changesLock_of_mem_FinishJobLockedT js fl d uniqID r)
    rw [NewJobT_of_getLock_ok js fl d r forcedRun h,
      FinishJobT_of_getLock_ok js fl d uniqID r h]
    exact ⟨⟨rfl, n1, n2, n3, n4,
        fun err hu => releaseLock_failed fl (lockFileName r.ID) err _ n1 hu⟩,
      ⟨rfl, f1, f2, f3, f4,
        fun err hu => releaseLock_failed fl (lockFileName r.ID) err _ f1 hu⟩⟩
  · intro h
    obtain ⟨err, herr⟩ := Option.ne_none_iff_exists'.1 h
    obtain ⟨u1, u2, -⟩ := unlocked_section fl r.ID h
    rw [NewJobT_of_getLock_error js fl d r forcedRun err herr,
      FinishJobT_of_getLock_error js fl d uniqID r err herr]
    exact ⟨u1, u2, u1, u2⟩

/-- C17, amended, on the sample data: a forced rerun releases the lock once, at
the end; a creation that never got the lock does not release it; a creation whose
`Unlock` fails returns with the lock held. -/
theorem lock_released_once_witness :
    (NewJobT (sampleJSON []) noFaults sampleDir sampleRerun true).2.countP Event.isUnlock = 1 ∧
    (NewJobT (sampleJSON []) noFaults sampleDir sampleRerun true).2.getLast? =
      some (.unlock (lockFileName sampleRerun.ID) true) ∧
    (NewJobT (sampleJSON []) busyFaults sampleDir slowJobRun false).2.countP Event.isUnlock = 0 ∧
    heldAfter (lockFileName sampleRerun.ID) false
      (NewJobT (sampleJSON []) unlockFaults sampleDir sampleRerun true).2 = true :=
  ⟨((lock_released_once (sampleJSON []) noFaults sampleDir sampleRerun true
      "0_1000_6475702d636865636b").1 (by decide)).1.2.2.2.1,
    (((lock_released_once (sampleJSON []) noFaults sampleDir sampleRerun true
      "0_1000_6475702d636865636b").1 (by decide)).1.2.2.2.2.1 rfl).1,
    ((lock_released_once (sampleJSON []) busyFaults sampleDir slowJobRun false
      "0_2000_736c6f772d6a6f62").2 (by decide)).1,
    (((lock_released_once (sampleJSON []) unlockFaults sampleDir sampleRerun true
      "0_1000_6475702d636865636b").1 (by decide)).1.2.2.2.2.2 "permission denied" rfl).2⟩

/-- C18, as stated, fails: `RemoveJobs` removes the finished entry of
"dup-check" with a single call of `os.Remove`; it takes no lock, so the file is
changed while the lock of its job is not held. -/
theorem RemoveJobs_without_lock :
    (RemoveJobsT noFaults sampleDirFinished ["1_1000_6475702d636865636b"]).2 =
      [.remove "1_1000_6475702d636865636b.json"] ∧
    (RemoveJobsT noFaults sampleDirFinished ["1_1000_6475702d636865636b"]).1.1.names =
      ["0_1060_6475702d636865636b.json", "job_6475702d636865636b.lock"] ∧
    sampleDirFinished.names =
      ["1_1000_6475702d636865636b.json", "0_1060_6475702d636865636b.json",
        "job_6475702d636865636b.lock"] ∧
    lockFileName (asciiBytes "dup-check") = "job_6475702d636865636b.lock" ∧
    mutationsUnderLock (lockFileName (asciiBytes "dup-check")) false
      (RemoveJobsT noFaults sampleDirFinished ["1_1000_6475702d636865636b"]).2 = false := by
  decide

/-- C18, amended: every call by which `NewJob` or `FinishJob` changes a file is
made while the lock of `run.ID` is held.  The files `NewJob` removes are running
entries of `run.ID` and the file it writes is the one of the uniqID it computes
for `run.ID`; `FinishJob` renames the file of the uniqID handed in to the
finished file of `run.ID` and writes that file.  `RemoveJobs` calls `os.Remove`
on the files of the ids handed in and never `TryLock`. -/
theorem mutations_under_lock (js : JobRunJSON) (fl : Faults) (d : Dir) (r : JobRun)
    (forcedRun : Bool) (uniqID : String) (ids : List String) :
    mutationsUnderLock (lockFileName r.ID) false (NewJobT js fl d r forcedRun).2 = true ∧
    (∀ e ∈ (NewJobT js fl d r forcedRun).2, e.isMutation = true →
      (∃ p ∈ runningEntries d r.ID, e = .remove p) ∨
      e = .write (getFilePath (getUniqJobRunID r.ID (alreadyRunning d r.ID) r.StartedAt))) ∧
    mutationsUnderLock (lockFileName r.ID) false (FinishJobT js fl d uniqID r).2 = true ∧
    (∀ e ∈ (FinishJobT js fl d uniqID r).2, e.isMutation = true →
      e = .rename (getFilePath uniqID) (getFilePath (getUniqJobRunID r.ID true r.StartedAt)) ∨
      e = .write (getFilePath (getUniqJobRunID r.ID true r.StartedAt))) ∧
    (∀ e ∈ (RemoveJobsT fl d ids).2, e.isTryLock = false ∧
      ∃ id ∈ ids, e = .remove (getFilePath id)) := by
  have hrel : ∀ e ∈ releaseLock fl (lockFileName r.ID), e.isMutation = true → False := by
    intro e he hm
    rw [mem_releaseLock fl _ e he] at hm
    exact absurd hm (by decide)
  have hlock : ∀ e ∈ (getLockT fl r.ID).2, e.isMutation = true → False := by
    intro e he hm
    rw [(mem_getLockT fl r.ID e he).1] at hm
    exact absurd hm (by decide)
  refine ⟨?_, ?_, ?_, ?_, ?_⟩
  · cases h : getLock fl r.ID with
    | none =>
      rw [NewJobT_of_getLock_ok js fl d r forcedRun h]
      exact (locked_section fl r.ID _ h
        (changesLock_of_mem_NewJobLockedT js fl d r forcedRun)).2.2.2.2
    | some err =>
      rw [NewJobT_of_getLock_error js fl d r forcedRun err h]
      exact (unlocked_section fl r.ID (by rw [h]; simp)).2.2
  · intro e he hm
    cases h : getLock fl r.ID with
    | none =>
      rw [NewJobT_of_getLock_ok js fl d r forcedRun h] at he
      simp only [List.mem_append] at he
      rcases he with (he | he) | he
      · exact absurd hm (fun hm => hlock e he hm)
      · rcases mem_NewJobLockedT js fl d r forcedRun e he with rfl | ⟨-, hp⟩ | hw
        · simp [Event.isMutation] at hm
        · exact Or.inl hp
        · exact Or.inr hw
      · exact absurd hm (fun hm => hrel e he hm)
    | some err =>
      rw [NewJobT_of_getLock_error js fl d r forcedRun err h] at he
      exact absurd hm (fun hm => hlock e he hm)
  · cases h : getLock fl r.ID with
    | none =>
      rw [FinishJobT_of_getLock_ok js fl d uniqID r h]
      exact (locked_section fl r.ID _ h
        (changesLock_of_mem_FinishJobLockedT js fl d uniqID r)).2.2.2.2
    | some err =>
      rw [FinishJobT_of_getLock_error js fl d uniqID r err h]
      exact (unlocked_section fl r.ID (by rw [h]; simp)).2.2
  · intro e he hm
    cases h : getLock fl r.ID with
    | none =>
      rw [FinishJobT_of_getLock_ok js fl d uniqID r h] at he
      simp only [List.mem_append] at he
      rcases he with (he | he) | he
      · exact absurd hm (fun hm => hlock e he hm)
      · exact mem_FinishJobLockedT js fl d uniqID r e he
      · exact absurd hm (fun hm => hrel e he hm)
    | some err =>
      rw [FinishJobT_of_getLock_error js fl d uniqID r err h] at he
      exact absurd hm (fun hm => hlock e he hm)
  · intro e he
    obtain ⟨p, hp, rfl⟩ := mem_removeFilesT fl d _ e he
    obtain ⟨id, hid, rfl⟩ := List.mem_map.1 hp
    exact ⟨rfl, id, hid, rfl⟩

/-- The amended C18 on the sample data: the forced rerun of "dup-check" removes
and writes with the lock of "dup-check" held. -/
theorem mutations_under_lock_witness :
    (NewJobT (sampleJSON []) noFaults sampleDir sampleRerun true).2 =
      [.tryLock "job_6475702d636865636b.lock" true, .glob "0_*_6475702d636865636b.json",
        .remove "0_1000_6475702d636865636b.json", .write "1_1060_6475702d636865636b.json",
        .unlock "job_6475702d636865636b.lock" true] ∧
    mutationsUnderLock (lockFileName sampleRerun.ID) false
      (NewJobT (sampleJSON []) noFaults sampleDir sampleRerun true).2 = true :=
  ⟨by decide,
    (mutations_under_lock (sampleJSON []) noFaults sampleDir sampleRerun true
      "0_1000_6475702d636865636b" []).1⟩


/-! ## The ID codec -/

/-- C21: `encodeJobID` can be undone, `hex.DecodeString` giving the job ID back,
and is therefore injective; its result is exactly twice as long as the job ID,
within the documented `len(id)*2`, and is made of the characters 0-9 and a-f,
so holds no underscore, path separator or glob metacharacter. -/
theorem encodeJobID_reversible (id id' : List Byte) :
    hexDecodeString (encodeJobID id) = some id ∧
    (encodeJobID id = encodeJobID id' → id = id') ∧
    (encodeJobID id).length = 2 * id.length ∧
    (encodeJobID id).length ≤ id.length * 2 ∧
    (∀ c ∈ (encodeJobID id).data, c ∈ hextable) ∧
    (∀ c ∈ ['_', '/', '*', '?', '[', ']', '\\', '.', '-'], c ∉ (encodeJobID id).data) := by
  have hlen : (encodeJobID id).length = 2 * id.length := length_hexChars id
  refine ⟨hexDecodeChars_hexChars id, ?_, hlen, by omega, fun c hc => mem_hexChars c id hc, ?_⟩
  · intro h
    exact hexChars_injective id id' (congrArg String.data h)
  · intro c hc hmem
    have h1 : c ∈ hextable := mem_hexChars c id hmem
    have h2 : ∀ x ∈ ['_', '/', '*', '?', '[', ']', '\\', '.', '-'], x ∉ hextable := by decide
    exact h2 c hc h1

/-- C22: `getUniqJobRunID` returns the same uniqID for two runs only when the
marker, the epoch second of `StartedAt` and the job ID are the same, and a
uniqID split at its underscores gives exactly the marker, the decimal second
and the hex job ID, from which the second and the job ID are read back. -/
theorem getUniqJobRunID_identifies (jobID jobID' : List Byte) (fin fin' : Bool) (t t' : Int) :
    (getUniqJobRunID jobID fin t = getUniqJobRunID jobID' fin' t' →
      fin = fin' ∧ t = t' ∧ jobID = jobID') ∧
    splitChars '_' (getUniqJobRunID jobID fin t).data =
      [(if fin then markerFinished else markerRunning).data, (formatInt t).data,
        (encodeJobID jobID).data] ∧
    hexDecodeChars (encodeJobID jobID).data = some jobID ∧
    (∀ n : Nat, parseDigits (formatInt (Int.ofNat n)).data = n) := by
  refine ⟨getUniqJobRunID_injective _ _ _ _ _ _, ?_, hexDecodeChars_hexChars jobID,
    parseDigits_natRepr⟩
  rw [getUniqJobRunID_data]
  have h1 : splitChars '_' ((formatInt t).data ++ '_' :: hexChars jobID) =
      [(formatInt t).data, hexChars jobID] := by
    rw [splitChars_append _ _ _ (underscore_not_mem_formatInt t),
      splitChars_of_not_mem _ _ (underscore_not_mem_hexChars jobID)]
  cases fin <;> simp [splitChars, h1, markerRunning, markerFinished, encodeJobID,
    hexEncodeToString]

/-- C22 on the sample data: two runs of "dup-check" in different seconds, and
the parts of a uniqID. -/
theorem getUniqJobRunID_identifies_witness :
    getUniqJobRunID sampleRun.ID false sampleRun.StartedAt ≠
      getUniqJobRunID sampleRerun.ID false sampleRerun.StartedAt ∧
    splitChars '_' ("0_1000_6475702d636865636b" : String).data =
      ["0".data, "1000".data, "6475702d636865636b".data] :=
  ⟨fun h => absurd ((getUniqJobRunID_identifies sampleRun.ID sampleRerun.ID false false
      sampleRun.StartedAt sampleRerun.StartedAt).1 h).2.1 (by decide),
    by decide⟩

/-- Every call that `getLock` makes on a lock is made on the lock file of the job ID. -/
theorem lockFile_of_mem_getLockT (fl : Faults) (jobID : List Byte) (e : Event)
    (h : e ∈ (getLockT fl jobID).2) (lf : String) :
    (∀ ok, e = .tryLock lf ok → lf = lockFileName jobID) ∧
    (e = .getOwner lf → lf = lockFileName jobID) := by
  by_cases hd : ensureSpoolDirExists fl.ensureDirLock = none ∧
      fl.lockNew (lockFileName jobID) = none
  · obtain ⟨n, ok, -, htrace, -⟩ := getLockT_shape fl jobID hd.1 hd.2
    rw [htrace, List.mem_append] at h
    rcases h with h | h
    · rw [List.mem_flatMap] at h
      obtain ⟨k, -, hk⟩ := h
      simp only [failedAttempt, List.mem_cons, List.mem_singleton, List.not_mem_nil,
        or_false] at hk
      rcases hk with rfl | rfl | rfl | rfl
      · exact ⟨fun ok' he => by injection he with h1 _; exact h1.symm,
          fun he => by simp at he⟩
      · exact ⟨fun ok' he => by simp at he, fun he => by injection he with h1; exact h1.symm⟩
      · exact ⟨fun ok' he => by simp at he, fun he => by simp at he⟩
      · exact ⟨fun ok' he => by simp at he, fun he => by simp at he⟩
    · rw [List.mem_singleton] at h
      subst h
      exact ⟨fun ok' he => by injection he with h1 _; exact h1.symm, fun he => by simp at he⟩
  · have hd' : ensureSpoolDirExists fl.ensureDirLock ≠ none ∨
        fl.lockNew (lockFileName jobID) ≠ none := by
      by_cases h1 : ensureSpoolDirExists fl.ensureDirLock = none
      · exact Or.inr (fun h2 => hd ⟨h1, h2⟩)
      · exact Or.inl h1
    rw [(getLockT_early fl jobID hd').1] at h
    simp at h

/-- C23: the lock file of a job ID is `job_<encodeJobID(j)>.lock`; `getLock`
calls `TryLock` and `GetOwner` on that file only, so two runs of one job ID,
whatever their `StartedAt`, use the same lock file; and two different job IDs
have different lock files. -/
theorem lockFile_per_jobID (fl : Faults) (jobID jobID' : List Byte) :
    lockFileName jobID = "job_" ++ encodeJobID jobID ++ ".lock" ∧
    (∀ e ∈ (getLockT fl jobID).2, ∀ lf,
      (∀ ok, e = .tryLock lf ok → lf = lockFileName jobID) ∧
      (e = .getOwner lf → lf = lockFileName jobID)) ∧
    (∀ r r' : JobRun, r.ID = r'.ID → lockFileName r.ID = lockFileName r'.ID) ∧
    (lockFileName jobID = lockFileName jobID' → jobID = jobID') := by
  refine ⟨rfl, fun e he lf => lockFile_of_mem_getLockT fl jobID e he lf, ?_,
    lockFileName_injective jobID jobID'⟩
  intro r r' h
  rw [h]

/-- C23 on the sample data: the two runs of "dup-check" share the lock file
`job_6475702d636865636b.lock`, and "db-ping" has another one. -/
theorem lockFile_per_jobID_witness :
    lockFileName sampleRun.ID = "job_6475702d636865636b.lock" ∧
    lockFileName sampleRun.ID = lockFileName sampleRerun.ID ∧
    lockFileName sampleRun.ID ≠ lockFileName dbPingRun.ID :=
  ⟨by decide,
    (lockFile_per_jobID noFaults sampleRun.ID sampleRerun.ID).2.2.1 sampleRun sampleRerun rfl,
    fun h => absurd ((lockFile_per_jobID noFaults sampleRun.ID dbPingRun.ID).2.2.2 h)
      (by decide)⟩

/-- The lock file of a job ID is a running entry of no job ID. -/
theorem filepathMatch_lockFileName (jobID jobID' : List Byte) :
    filepathMatch (duplicateRunsPattern jobID) (lockFileName jobID') = false := by
  rw [Bool.eq_false_iff]
  intro h
  rw [filepathMatch_duplicateRunsPattern] at h
  obtain ⟨mid, hmid, -⟩ := h
  rw [lockFileName_data] at hmid
  simp at hmid

/-- C25: the pattern `0_*_<encodeJobID(j)>.json` of `findDuplicateRuns` matches
the file of a uniqID exactly when the uniqID carries the running marker and the
job ID `j`: not a finished entry, not the entry of a job whose hex ID only ends
with the hex of `j`, and not a lock file.  So `findDuplicateRuns` reports the
file of a uniqID exactly when it is in the directory, running and of job `j`. -/
theorem findDuplicateRuns_exact (fl : Faults) (d : Dir) (j j' : List Byte) (fin : Bool)
    (t : Int) :
    (filepathMatch (duplicateRunsPattern j) (getFilePath (getUniqJobRunID j' fin t)) = true ↔
      fin = false ∧ j' = j) ∧
    filepathMatch (duplicateRunsPattern j) (lockFileName j') = false ∧
    (fl.glob = none → ∃ found, findDuplicateRuns fl d j = .ok found ∧
      (getFilePath (getUniqJobRunID j' fin t) ∈ found ↔
        getFilePath (getUniqJobRunID j' fin t) ∈ d.names ∧ fin = false ∧ j' = j)) ∧
    encodeJobID (asciiBytes "ba") = "6261" ∧ encodeJobID (asciiBytes "a") = "61" ∧
    filepathMatch (duplicateRunsPattern (asciiBytes "a"))
      (getFilePath (getUniqJobRunID (asciiBytes "ba") false 5)) = false := by
  have hiff : filepathMatch (duplicateRunsPattern j)
      (getFilePath (getUniqJobRunID j' fin t)) = true ↔ fin = false ∧ j' = j := by
    constructor
    · exact eq_of_filepathMatch_running j' j fin t
    · rintro ⟨rfl, rfl⟩
      exact filepathMatch_running _ _
  refine ⟨hiff, filepathMatch_lockFileName j j', ?_, by decide, by decide, by decide⟩
  intro hg
  refine ⟨globNames d (duplicateRunsPattern j), ?_, ?_⟩
  · unfold findDuplicateRuns
    rw [hg]
  · rw [mem_globNames, hiff]

/-- C25 on the sample data: in the spool holding the finished and the running
"dup-check" and its lock file, only the running entry is reported. -/
theorem findDuplicateRuns_exact_witness :
    (findDuplicateRuns noFaults sampleDirFinished (asciiBytes "dup-check")).toOption =
      some ["0_1060_6475702d636865636b.json"] ∧
    filepathMatch (duplicateRunsPattern sampleRerun.ID)
      (getFilePath (getUniqJobRunID sampleRerun.ID false sampleRerun.StartedAt)) = true :=
  ⟨by decide,
    (findDuplicateRuns_exact noFaults sampleDirFinished sampleRerun.ID sampleRerun.ID false
      sampleRerun.StartedAt).1.2 ⟨rfl, rfl⟩⟩


/-- C28: the constant `spoolDirPermissions` is written 6777 without a leading 0
and so is a decimal number, octal 15171: its nine low bits are octal 171, which
give the owner of the directory search permission only, neither read nor write,
whereas octal 6777 would have given the low bits 777. -/
theorem spoolDirPermissions_owner_bits :
    spoolDirPermissions = 0o15171 ∧
    spoolDirPermissions % 512 = 0o171 ∧
    (spoolDirPermissions % 512) &&& 0o700 = 0o100 ∧
    (spoolDirPermissions % 512) &&& 0o700 ≠ 0o700 ∧
    Nat.testBit spoolDirPermissions 8 = false ∧
    Nat.testBit spoolDirPermissions 7 = false ∧
    Nat.testBit spoolDirPermissions 6 = true ∧
    0o6777 % 512 = 0o777 ∧
    spoolEntryPermissions = 0o666 := by
  decide

end Jobmon

namespace Sender

/-! ## The sender -/

/-- The steps of a run in which the calls `k`, ..., `k + d - 1` were each followed by a wait. -/
theorem sendCalls_retries (w : Nat → Int) (k d n : Nat) :
    sendCalls ((List.range' k d).flatMap (fun i => [Step.send i, Step.sleep (w i)]) ++
      [Step.send n]) = d + 1 ∧
    waits ((List.range' k d).flatMap (fun i => [Step.send i, Step.sleep (w i)]) ++
      [Step.send n]) = (List.range' k d).map w := by
  induction d generalizing k with
  | zero => simp [sendCalls, waits]
  | succ d ih =>
    have h := ih (k + 1)
    simp only [sendCalls, waits] at h ⊢
    rw [List.range'_succ, List.flatMap_cons]
    simp only [List.cons_append, List.nil_append, List.countP_cons, List.filterMap_cons,
      List.map_cons, h.1, h.2]
    constructor
    · simp
    · trivial

/-- A counter that stays below the largest `int` is not changed by the wrap. -/
theorem wrapInt_of_range (bits : Nat) (hbits : bits = 32 ∨ bits = 64) (x : Int) (h0 : 0 ≤ x)
    (h1 : x < 2 ^ (bits - 1)) : wrapInt bits x = x := by
  rcases hbits with rfl | rfl
  · unfold wrapInt
    norm_num at h1 ⊢
    omega
  · unfold wrapInt
    norm_num at h1 ⊢
    omega

/-- Up to 9223372036 retries the wait is the number of retries in seconds. -/
theorem retryInAfter_of_le (x : Int) (h0 : 0 ≤ x) (h1 : x ≤ 9223372036) :
    retryInAfter x = x * second := by
  unfold retryInAfter wrapInt second
  norm_num
  omega

/-- While every call fails with a 5xx or deadline error and the counter stays
below the largest `int`, the loop entered at call `k` with `retries = k` sends
until call `RetryLimit`, waits `retryIn` after each failure but the last, and
gives up returning nil. -/
theorem GracefulSendLoop_failing (bits : Nat) (hbits : bits = 32 ∨ bits = 64) (cs : Csender)
    (send : Nat → Option SendError) (n : Nat) (hlimit : cs.RetryLimit = n)
    (hint : (n : Int) + 1 < 2 ^ (bits - 1))
    (hfail : ∀ k, send k = some .ErrHubServerError ∨
      ∃ text, send k = some (.deadlineExceeded text))
    (d : Nat) : ∀ k fuel : Nat, k + d = n → d < fuel →
      GracefulSendLoop bits cs send fuel k k = some (none,
        (List.range' k d).flatMap
          (fun i => [Step.send i, Step.sleep (retryInAfter ((i : Int) + 1))]) ++
          [Step.send n]) := by
  induction d with
  | zero =>
    intro k fuel hk hfuel
    obtain ⟨f, rfl⟩ : ∃ f, fuel = f + 1 := ⟨fuel - 1, by omega⟩
    have hk' : k = n := by omega
    subst hk'
    have hw : wrapInt bits ((k : Int) + 1) = (k : Int) + 1 :=
      wrapInt_of_range bits hbits _ (by omega) hint
    have hgt : (k : Int) + 1 > cs.RetryLimit := by rw [hlimit]; omega
    rcases hfail k with h | ⟨text, h⟩
    · simp [GracefulSendLoop, h, hw, hgt]
    · simp [GracefulSendLoop, h, hw, hgt]
  | succ d ih =>
    intro k fuel hk hfuel
    obtain ⟨f, rfl⟩ : ∃ f, fuel = f + 1 := ⟨fuel - 1, by omega⟩
    have hw : wrapInt bits ((k : Int) + 1) = (k : Int) + 1 :=
      wrapInt_of_range bits hbits _ (by omega) (by omega)
    have hle : ¬ ((k : Int) + 1 > cs.RetryLimit) := by rw [hlimit]; omega
    have hrec := ih (k + 1) f (by omega) (by omega)
    rw [Nat.cast_succ] at hrec
    rw [List.range'_succ, List.flatMap_cons]
    rcases hfail k with h | ⟨text, h⟩
    · simp [GracefulSendLoop, h, hw, hle, hrec]
    · simp [GracefulSendLoop, h, hw, hle, hrec]

/-- The whole run while every call fails, on the same conditions. -/
theorem GracefulSend_failing (bits : Nat) (hbits : bits = 32 ∨ bits = 64) (cs : Csender)
    (send : Nat → Option SendError) (n fuel : Nat) (hlimit : cs.RetryLimit = n)
    (hint : (n : Int) + 1 < 2 ^ (bits - 1)) (hfuel : n < fuel)
    (hfail : ∀ k, send k = some .ErrHubServerError ∨
      ∃ text, send k = some (.deadlineExceeded text)) :
    ∃ steps, GracefulSend bits cs send fuel = some (none, steps) ∧
      sendCalls steps = n + 1 ∧
      waits steps = (List.range n).map (fun (i : Nat) => retryInAfter ((i : Int) + 1)) ∧
      steps = (List.range n).flatMap
        (fun i => [Step.send i, Step.sleep (retryInAfter ((i : Int) + 1))]) ++ [Step.send n] := by
  have h := GracefulSendLoop_failing bits hbits cs send n hlimit hint hfail n 0 fuel
    (by omega) hfuel
  have hc := sendCalls_retries (fun (i : Nat) => retryInAfter ((i : Int) + 1)) 0 n n
  rw [← List.range_eq_range'] at h hc
  exact ⟨_, h, hc.1, hc.2, rfl⟩

/-- Two step functions that agree on the calls of a run give the same steps. -/
theorem flatMap_congr_of_mem (l : List Nat) (f g : Nat → List Step) (h : ∀ i ∈ l, f i = g i) :
    l.flatMap f = l.flatMap g := by
  induction l with
  | nil => rfl
  | cons a l ih =>
    rw [List.flatMap_cons, List.flatMap_cons, h a (List.mem_cons_self _ _),
      ih (fun i hi => h i (List.mem_cons_of_mem _ hi))]

/-- C24 fails for a `RetryLimit` above 9223372036: on a platform with a 64-bit
`int`, with `RetryLimit` 9223372037 and the hub down, `GracefulSend` makes
9223372038 calls and returns nil, but the wait before the last retry is
`time.Duration(9223372037) * time.Second`, an `int64` product that wraps to
-9223372036709551616 nanoseconds, so `time.Sleep` returns at once instead of
waiting 9223372037 seconds. -/
theorem GracefulSend_gives_up_counterexample :
    ∃ steps, GracefulSend 64 ⟨9223372037⟩ hubDown 9223372038 = some (none, steps) ∧
      sendCalls steps = 9223372038 ∧
      (waits steps)[9223372036]? = some (-9223372036709551616) ∧
      (-9223372036709551616 : Int) ≠ 9223372037 * second := by
  obtain ⟨steps, hrun, hcalls, hwaits, -⟩ := GracefulSend_failing 64 (Or.inr rfl) ⟨9223372037⟩
    hubDown 9223372037 9223372038 rfl (by norm_num) (by norm_num) (fun _ => Or.inl rfl)
  refine ⟨steps, hrun, hcalls, ?_, by decide⟩
  have hv : retryInAfter (((9223372036 : Nat) : Int) + 1) = -9223372036709551616 := by
    unfold retryInAfter wrapInt second
    norm_num
  rw [hwaits, List.getElem?_map, List.getElem?_range (by norm_num), Option.map_some', hv]

/-- C24, amended: with 0 ≤ `RetryLimit` = n ≤ 9223372036, n + 1 within the range
of `int`, and every `Send` failing with the 5xx error or a deadline-exceeded
error, `GracefulSend` returns: it calls `Send` exactly n + 1 times, waits k
seconds before the k-th retry (1, 2, ..., n seconds), and gives up returning
nil.  An error that is neither 429, 5xx nor deadline-exceeded is returned at
once: after a single `Send` call when the first call meets it, and at whatever
call it is met, without a further call or wait. -/
theorem GracefulSend_gives_up (bits : Nat) (cs : Csender) (send : Nat → Option SendError)
    (n fuel : Nat) (hbits : bits = 32 ∨ bits = 64) (hlimit : cs.RetryLimit = n)
    (hint : (n : Int) + 1 < 2 ^ (bits - 1)) (hdur : n ≤ 9223372036) (hfuel : n < fuel) :
    ((∀ k, send k = some .ErrHubServerError ∨ ∃ text, send k = some (.deadlineExceeded text)) →
      ∃ steps, GracefulSend bits cs send fuel = some (none, steps) ∧
        sendCalls steps = n + 1 ∧
        waits steps = (List.range n).map (fun (k : Nat) => ((k : Int) + 1) * second) ∧
        steps = (List.range n).flatMap
          (fun k => [Step.send k, Step.sleep (((k : Int) + 1) * second)]) ++ [Step.send n]) ∧
    (∀ text, send 0 = some (.other text) →
      GracefulSend bits cs send fuel = some (some (.other text), [Step.send 0])) ∧
    (∀ (calls : Nat) (retries : Int) (text : String), send calls = some (.other text) →
      GracefulSendLoop bits cs send fuel calls retries =
        some (some (.other text), [Step.send calls])) := by
  refine ⟨?_, ?_, ?_⟩
  · intro hfail
    obtain ⟨steps, hrun, hcalls, hwaits, hsteps⟩ :=
      GracefulSend_failing bits hbits cs send n fuel hlimit hint hfuel hfail
    have hw : ∀ i ∈ List.range n, retryInAfter ((i : Int) + 1) = ((i : Int) + 1) * second := by
      intro i hi
      have := List.mem_range.1 hi
      exact retryInAfter_of_le _ (by omega) (by omega)
    refine ⟨steps, hrun, hcalls, ?_, ?_⟩
    · rw [hwaits]
      exact List.map_congr_left hw
    · rw [hsteps, flatMap_congr_of_mem (List.range n) _
        (fun k => [Step.send k, Step.sleep (((k : Int) + 1) * second)])
        (fun i hi => by rw [hw i hi])]
  · intro text h
    obtain ⟨f, rfl⟩ : ∃ f, fuel = f + 1 := ⟨fuel - 1, by omega⟩
    simp [GracefulSend, GracefulSendLoop, h]
  · intro calls retries text h
    obtain ⟨f, rfl⟩ : ∃ f, fuel = f + 1 := ⟨fuel - 1, by omega⟩
    simp [GracefulSendLoop, h]

/-- C24, amended, on sample data: with `RetryLimit` 3 and the hub down, four
calls with waits of 1, 2 and 3 seconds, then nil; with a hub rejecting the token,
one call and its error. -/
theorem GracefulSend_gives_up_witness :
    (∃ steps, GracefulSend 64 ⟨3⟩ hubDown 10 = some (none, steps) ∧
        sendCalls steps = 3 + 1 ∧
        waits steps = (List.range 3).map (fun (k : Nat) => ((k : Int) + 1) * second) ∧
        steps = (List.range 3).flatMap
          (fun k => [Step.send k, Step.sleep (((k : Int) + 1) * second)]) ++ [Step.send 3]) ∧
    GracefulSend 64 ⟨3⟩ hubRejects 10 = some (some (.other "unauthorized"), [Step.send 0]) ∧
    GracefulSend 64 ⟨3⟩ hubDown 10 = some (none, [Step.send 0, Step.sleep 1000000000,
      Step.send 1, Step.sleep 2000000000, Step.send 2, Step.sleep 3000000000, Step.send 3]) :=
  ⟨(GracefulSend_gives_up 64 ⟨3⟩ hubDown 3 10 (Or.inr rfl) rfl (by decide) (by decide)
      (by decide)).1 (fun _ => Or.inl rfl),
    (GracefulSend_gives_up 64 ⟨3⟩ hubRejects 3 10 (Or.inr rfl) rfl (by decide) (by decide)
      (by decide)).2.1 "unauthorized" rfl,
    by decide⟩

/-- The test `strings.HasPrefix("-", arg)` of the loop holds for the empty
argument and for "-" only. -/
theorem stringsHasPrefix_dash (arg : String) :
    stringsHasPrefix "-" arg = true ↔ arg = "" ∨ arg = "-" := by
  rcases arg with ⟨data⟩
  cases data with
  | nil => simp [stringsHasPrefix]
  | cons c cs =>
    cases cs with
    | nil =>
      simp [stringsHasPrefix, List.isPrefixOf, String.ext_iff]
    | cons c' cs' =>
      simp [stringsHasPrefix, List.isPrefixOf, String.ext_iff]

/-- The loop keeps every argument containing "=" when no argument is empty or "-". -/
theorem kvParamsLoop_filter (args : List String) (h : ∀ a ∈ args, a ≠ "" ∧ a ≠ "-")
    (kv : List String) :
    kvParamsLoop args false kv = kv ++ args.filter (fun a => stringsContains a "=") := by
  induction args generalizing kv with
  | nil => simp [kvParamsLoop]
  | cons a rest ih =>
    have ha := h a (List.mem_cons_self _ _)
    have hrest : ∀ b ∈ rest, b ≠ "" ∧ b ≠ "-" := fun b hb => h b (List.mem_cons_of_mem _ hb)
    have hp : stringsHasPrefix "-" a = false := by
      rw [Bool.eq_false_iff]
      intro hp
      rcases (stringsHasPrefix_dash a).1 hp with h1 | h1
      · exact ha.1 h1
      · exact ha.2 h1
    cases hc : stringsContains a "="
    · simp [kvParamsLoop, hp, hc, ih hrest]
    · simp [kvParamsLoop, hp, hc, ih hrest]

/-- C29: the loop tests `strings.HasPrefix("-", arg)`, with the arguments in
the wrong order, which holds for the empty argument and for "-" only.  So on
a command line without such arguments no flag is skipped: every argument that
contains "=" is collected, a value of a flag included.  On the command line of
the usage text the value "disk=full" of `-a` is collected, which skipping the
flags with their values would leave out. -/
theorem kvParams_collects_flag_values (args : List String)
    (h : ∀ a ∈ args, a ≠ "" ∧ a ≠ "-") :
    kvParams args = args.filter (fun a => stringsContains a "=") ∧
    (∀ arg, stringsHasPrefix "-" arg = true ↔ arg = "" ∨ arg = "-") ∧
    kvParams usageArgs = ["disk=full", "any_number=1", "any_float=0.1245"] ∧
    kvParamsSkippingFlags usageArgs = ["any_number=1", "any_float=0.1245"] := by
  refine ⟨?_, stringsHasPrefix_dash, by decide, by decide⟩
  have := kvParamsLoop_filter args h []
  simpa [kvParams] using this

/-- C29 on the command line `-a disk=full k=v`: both arguments with "=" are collected. -/
theorem kvParams_collects_flag_values_witness :
    kvParams ["-a", "disk=full", "k=v"] = ["disk=full", "k=v"] ∧
    kvParamsSkippingFlags ["-a", "disk=full", "k=v"] = ["k=v"] :=
  ⟨(kvParams_collects_flag_values ["-a", "disk=full", "k=v"] (by decide)).1, by decide⟩

end Sender

namespace Jobmon

/-! ## Finished entries under `NewJob` -/

/-- A name the finished pattern matches is no running entry of any job ID. -/
theorem not_running_of_finished (p : String) (jobID : List Byte)
    (hp : filepathMatch finishedJobsPattern p = true) :
    filepathMatch (duplicateRunsPattern jobID) p = false := by
  rw [Bool.eq_false_iff]
  intro h
  obtain ⟨t, ht⟩ := filepathMatch_finishedJobsPattern p hp
  rw [filepathMatch_duplicateRunsPattern] at h
  obtain ⟨mid, hmid, -⟩ := h
  rw [ht] at hmid
  simp at hmid

/-- The finished pattern does not match the file of a running uniqID. -/
theorem filepathMatch_finished_running (jobID : List Byte) (t : Int) :
    filepathMatch finishedJobsPattern (getFilePath (getUniqJobRunID jobID false t)) = false := by
  rw [Bool.eq_false_iff]
  intro h
  have h2 := not_running_of_finished _ jobID h
  rw [filepathMatch_running] at h2
  exact absurd h2 (by decide)

/-- The directory `NewJob` leaves is the old one, or the old one without some
running entries of the job ID, or that with the file of the uniqID written. -/
theorem NewJob_dir_shape (js : JobRunJSON) (fl : Faults) (d : Dir) (r : JobRun)
    (forcedRun : Bool) :
    (NewJob js fl d r forcedRun).dir = d ∨
    (NewJob js fl d r forcedRun).dir =
      (if forcedRun then (removeFiles fl d (runningEntries d r.ID)).1 else d) ∨
    ∃ c, (NewJob js fl d r forcedRun).dir =
      (if forcedRun then (removeFiles fl d (runningEntries d r.ID)).1 else d).write
        (getFilePath (getUniqJobRunID r.ID (alreadyRunning d r.ID) r.StartedAt)) c := by
  by_cases h : (NewJob js fl d r forcedRun).uniqID = ""
  · obtain ⟨e, d', r0, -, heq, hd⟩ := NewJob_failed js fl d r forcedRun h
    rw [heq]
    exact hd
  · have heq := (NewJob_ok js fl d r forcedRun h).1
    rw [heq]
    exact Or.inr (Or.inr ⟨_, rfl⟩)

/-- The removal of running entries leaves every file the finished pattern matches. -/
theorem removeFiles_running_read_finished (fl : Faults) (d : Dir) (jobID : List Byte)
    (forcedRun : Bool) (p : String) (hp : filepathMatch finishedJobsPattern p = true) :
    (if forcedRun then (removeFiles fl d (runningEntries d jobID)).1 else d).read p =
      d.read p := by
  cases forcedRun with
  | false => rfl
  | true =>
    simp only [if_true]
    apply removeFiles_read_of_not_mem
    intro hmem
    have h1 := ((mem_globNames _ _ _).1 hmem).2
    rw [not_running_of_finished p jobID hp] at h1
    exact absurd h1 (by decide)


/-- C27 fails for an unforced creation that meets a running entry: in the
spool in which "cron" was run and finished and then started again, all in second
3000, a third `NewJob` for that second returns the duplicate signal and leaves
the finished entry `1_3000_63726f6e.json` with its own payload in place of the
result of the first run. -/
theorem NewJob_keeps_finished_counterexample :
    cronDir = [("1_3000_63726f6e.json", sampleEncode cronRunDone),
      ("0_3000_63726f6e.json", sampleEncode cronRun)] ∧
    filepathMatch finishedJobsPattern "1_3000_63726f6e.json" = true ∧
    (NewJob parsingJSON noFaults cronDir cronRun false).err = some .ErrJobAlreadyRunning ∧
    (NewJob parsingJSON noFaults cronDir cronRun false).dir.read "1_3000_63726f6e.json" =
      some (sampleEncode (cronRun.AddError Error.ErrJobAlreadyRunning.text)) ∧
    (NewJob parsingJSON noFaults cronDir cronRun false).dir.read "1_3000_63726f6e.json" ≠
      cronDir.read "1_3000_63726f6e.json" := by
  decide

/-- C27, amended: a creation call that finds no running entry of `run.ID`
changes no finished entry, whatever `forcedRun` is; an unforced call that finds
one changes no finished entry other than the one named after its own run.  For
every spool state, run and outcome of the system calls, a file the finished
pattern matches has after `NewJob` the content it had before, in the first case
always and in the second when it is not `1_<run.StartedAt>_<hex run.ID>.json`;
an unforced call that returns a uniqID after finding a running entry has written
the record of the duplicate to that one file. -/
theorem NewJob_keeps_other_finished (js : JobRunJSON) (fl : Faults) (d : Dir) (r : JobRun)
    (forcedRun : Bool) (p : String) (hp : filepathMatch finishedJobsPattern p = true) :
    (runningEntries d r.ID = [] → (NewJob js fl d r forcedRun).dir.read p = d.read p) ∧
    (p ≠ getFilePath (getUniqJobRunID r.ID true r.StartedAt) →
      (NewJob js fl d r false).dir.read p = d.read p) ∧
    ((NewJob js fl d r false).uniqID ≠ "" → runningEntries d r.ID ≠ [] →
      (NewJob js fl d r false).dir.read
          (getFilePath (getUniqJobRunID r.ID true r.StartedAt)) =
        some (js.encode (r.AddError Error.ErrJobAlreadyRunning.text))) := by
  have hne : p ≠ getFilePath (getUniqJobRunID r.ID false r.StartedAt) := by
    intro h
    rw [h, filepathMatch_finished_running] at hp
    exact absurd hp (by decide)
  have hshape : ∀ (forced : Bool) (q : String), p ≠ q → (∀ c, ((if forced then
      (removeFiles fl d (runningEntries d r.ID)).1 else d).write q c).read p = d.read p) :=
    fun forced q hq c => by
      rw [Dir.read_write_of_ne _ _ _ _ hq, removeFiles_running_read_finished fl d r.ID forced p hp]
  refine ⟨?_, ?_, ?_⟩
  · intro hnone
    have har := (alreadyRunning_eq_false_iff d r.ID).2 hnone
    rcases NewJob_dir_shape js fl d r forcedRun with h | h | ⟨c, h⟩
    · rw [h]
    · rw [h, removeFiles_running_read_finished fl d r.ID forcedRun p hp]
    · rw [h, har, hshape forcedRun _ hne]
  · intro hpr
    have hq : p ≠ getFilePath (getUniqJobRunID r.ID (alreadyRunning d r.ID) r.StartedAt) := by
      cases alreadyRunning d r.ID
      · exact hne
      · exact hpr
    rcases NewJob_dir_shape js fl d r false with h | h | ⟨c, h⟩
    · rw [h]
    · rw [h, removeFiles_running_read_finished fl d r.ID false p hp]
    · rw [h, hshape false _ hq]
  · intro hid hsome
    have har := (alreadyRunning_eq_true_iff d r.ID).2 hsome
    have heq := (NewJob_ok js fl d r false hid).1
    rw [heq, har]
    simp only [Dir.read_write_self]
    rfl

/-- C27, amended, on the sample data: a first creation of "db-ping", forced,
leaves the finished entry of "cron" alone, and an unforced creation of
"dup-check" at 1060, which finds a running entry, leaves the finished entry of
second 1000 alone. -/
theorem NewJob_keeps_other_finished_witness :
    (NewJob parsingJSON noFaults cronDir dbPingRun true).dir.read "1_3000_63726f6e.json" =
      cronDir.read "1_3000_63726f6e.json" ∧
    (NewJob parsingJSON noFaults sampleDirFinished sampleRerun false).dir.read
        "1_1000_6475702d636865636b.json" =
      sampleDirFinished.read "1_1000_6475702d636865636b.json" :=
  ⟨(NewJob_keeps_other_finished parsingJSON noFaults cronDir dbPingRun true
      "1_3000_63726f6e.json" (by decide)).1 (by decide),
    (NewJob_keeps_other_finished parsingJSON noFaults sampleDirFinished sampleRerun false
      "1_1000_6475702d636865636b.json" (by decide)).2.1 (by decide)⟩


/-! ## Entries and their payloads -/

theorem mem_remove (d : Dir) (p : String) (e : String × String) :
    e ∈ d.remove p ↔ e ∈ d ∧ e.1 ≠ p := by
  simp [Dir.remove, List.mem_filter]

theorem mem_write (d : Dir) (p c : String) (e : String × String) :
    e ∈ d.write p c ↔ (e ∈ d ∧ e.1 ≠ p) ∨ e = (p, c) := by
  simp [Dir.write, mem_remove]

theorem mem_of_mem_removeFiles (fl : Faults) (d : Dir) (paths : List String)
    (e : String × String) (h : e ∈ (removeFiles fl d paths).1) : e ∈ d := by
  induction paths generalizing d with
  | nil => exact h
  | cons f rest ih =>
    simp only [removeFiles, removeFile] at h
    cases hf : fl.remove f with
    | some err =>
      rw [hf] at h
      exact h
    | none =>
      rw [hf] at h
      exact ((mem_remove d f e).1 (ih _ h)).1

theorem mem_of_read (d : Dir) (p c : String) (h : d.read p = some c) : (p, c) ∈ d := by
  induction d with
  | nil => simp [Dir.read_nil] at h
  | cons e d ih =>
    rw [Dir.read_cons] at h
    by_cases he : e.1 = p
    · simp only [he, if_true, Option.some.injEq] at h
      have : e = (p, c) := Prod.ext he h
      rw [this]
      exact List.mem_cons_self _ _
    · simp only [he, if_false] at h
      exact List.mem_cons_of_mem _ (ih h)

/-- When the environment lets it complete, `saveJobRun` writes the encoded run. -/
theorem saveJobRun_complete (js : JobRunJSON) (fl : Faults) (d : Dir) (p : String) (r : JobRun)
    (hs : fl.savesComplete) : saveJobRun js fl d p r = (d.write p (js.encode r), none) := by
  unfold saveJobRun
  rw [hs.1, hs.2.1 p, hs.2.2]

/-- The directory `NewJob` leaves when its write completes: some of the old
entries, and possibly on top the encoded run under the file of a uniqID of its
ID and start second. -/
theorem NewJob_dir_saving (js : JobRunJSON) (fl : Faults) (d : Dir) (r : JobRun)
    (forcedRun : Bool) (hs : fl.savesComplete) :
    ∃ d1 : Dir, (∀ e ∈ d1, e ∈ d) ∧
      ((NewJob js fl d r forcedRun).dir = d1 ∨
        ∃ fin : Bool, (NewJob js fl d r forcedRun).dir =
          d1.write (getFilePath (getUniqJobRunID (NewJob js fl d r forcedRun).run.ID fin
            (NewJob js fl d r forcedRun).run.StartedAt))
            (js.encode (NewJob js fl d r forcedRun).run)) := by
  unfold NewJob
  cases hL : getLock fl r.ID with
  | some err => exact ⟨d, fun e he => he, Or.inl rfl⟩
  | none =>
    simp only []
    cases hF : findDuplicateRuns fl d r.ID with
    | error err => exact ⟨d, fun e he => he, Or.inl rfl⟩
    | ok found =>
      simp only [saveJobRun_complete js fl _ _ _ hs]
      cases forcedRun with
      | false =>
        exact ⟨d, fun e he => he, Or.inr ⟨_, rfl⟩⟩
      | true =>
        simp only [if_true]
        cases hR : removeFiles fl d found with
        | mk d' err =>
          have hsub : ∀ e ∈ d', e ∈ d := by
            intro e he
            apply mem_of_mem_removeFiles fl d found
            rw [hR]
            exact he
          cases err with
          | some err => exact ⟨d', hsub, Or.inl rfl⟩
          | none => exact ⟨d', hsub, Or.inr ⟨_, rfl⟩⟩

/-- The directory `FinishJob` leaves when its write completes: the old one, or
the old one without the two files involved and with the encoded run under the
finished file of the run. -/
theorem FinishJob_dir_saving (js : JobRunJSON) (fl : Faults) (d : Dir) (uniqID : String)
    (r : JobRun) (hs : fl.savesComplete) :
    (FinishJob js fl d uniqID r).1 = d ∨
    ∃ content, (FinishJob js fl d uniqID r).1 =
      ((d.remove (getFilePath uniqID)).write
        (getFilePath (getUniqJobRunID r.ID true r.StartedAt)) content).write
        (getFilePath (getUniqJobRunID r.ID true r.StartedAt)) (js.encode r) := by
  unfold FinishJob
  cases hL : getLock fl r.ID with
  | some err => exact Or.inl rfl
  | none =>
    simp only []
    cases hR : fl.rename with
    | some err => exact Or.inl rfl
    | none =>
      simp only []
      unfold Dir.rename
      cases hread : d.read (getFilePath uniqID) with
      | none => exact Or.inl rfl
      | some content =>
        simp only [saveJobRun_complete js fl _ _ _ hs]
        exact Or.inr ⟨content, rfl⟩

/-- An encoded run stored under the file of a uniqID of its ID and start second
is an entry that matches. -/
theorem entryMatches_encode (js : JobRunJSON) (r : JobRun) (fin : Bool) (hjs : js.keeps r) :
    entryMatches js (getFilePath (getUniqJobRunID r.ID fin r.StartedAt), js.encode r) = true := by
  obtain ⟨r', hdec, hid, hst⟩ := hjs
  unfold entryMatches
  simp only [hdec, hid, hst]
  cases fin <;> simp

/-- Every entry of a spool reached with completed writes matches its payload. -/
theorem ReachableSaving.entriesMatch (js : JobRunJSON)
    (d : Dir) (hd : ReachableSaving js d) : ∀ e ∈ d, entryMatches js e = true := by
  induction hd with
  | empty => intro e he; simp at he
  | newJob fl d r forcedRun hs hk _ ih =>
    obtain ⟨d1, hsub, h | ⟨fin, h⟩⟩ := NewJob_dir_saving js fl d r forcedRun hs
    · rw [h]
      exact fun e he => ih e (hsub e he)
    · rw [h]
      intro e he
      rcases (mem_write _ _ _ _).1 he with he | he
      · exact ih e (hsub e he.1)
      · rw [he]
        exact entryMatches_encode js _ fin hk
  | finishJob fl d uniqID r hs hk _ ih =>
    rcases FinishJob_dir_saving js fl d uniqID r hs with h | ⟨content, h⟩
    · rw [h]
      exact ih
    · rw [h]
      intro e he
      rcases (mem_write _ _ _ _).1 he with he | he
      · rcases (mem_write _ _ _ _).1 he.1 with he1 | he1
        · exact ih e ((mem_remove _ _ _).1 he1.1).1
        · rw [he1] at he
          exact absurd rfl he.2
      · rw [he]
        exact entryMatches_encode js r true hk
  | removeJobs fl d ids _ ih =>
    intro e he
    exact ih e (mem_of_mem_removeFiles fl d _ e he)

/-- A spool reached with completed writes is a reachable spool. -/
theorem ReachableSaving.reachable (js : JobRunJSON) (d : Dir) (hd : ReachableSaving js d) :
    Reachable js d := by
  induction hd with
  | empty => exact .empty
  | newJob fl d r forcedRun _ _ _ ih => exact .newJob fl d r forcedRun ih
  | finishJob fl d uniqID r _ _ _ ih => exact .finishJob fl d uniqID r ih
  | removeJobs fl d ids _ ih => exact .removeJobs fl d ids ih

/-- A finished file whose entry matches decodes to a run whose recomputed id is
the stem of the file. -/
theorem decode_of_matches (js : JobRunJSON) (d : Dir)
    (hinv : ∀ e ∈ d, entryMatches js e = true) (f content : String)
    (hread : d.read f = some content)
    (hp : filepathMatch finishedJobsPattern f = true) :
    ∃ j, js.decode content = .ok j ∧
      getFilePath (getUniqJobRunID j.ID true j.StartedAt) = f := by
  have hm := hinv _ (mem_of_read d f content hread)
  unfold entryMatches at hm
  cases hdec : js.decode content with
  | error err => simp [hdec] at hm
  | ok j =>
    simp only [hdec, Bool.or_eq_true, beq_iff_eq] at hm
    refine ⟨j, rfl, ?_⟩
    rcases hm with hm | hm
    · rw [hm, filepathMatch_finished_running] at hp
      exact absurd hp (by decide)
    · exact hm.symm

/-- A finished file whose entry matches is read back, when it can be opened and
read, as a run whose recomputed id is the stem of the file. -/
theorem readEntryFile_of_matches (js : JobRunJSON) (fl : Faults) (d : Dir)
    (hinv : ∀ e ∈ d, entryMatches js e = true) (f : String) (hf : f ∈ d.names)
    (hp : filepathMatch finishedJobsPattern f = true)
    (ho : fl.openRead f = none) (hr : fl.decodeRead f = none) :
    ∃ j, readEntryFile js fl d f = .ok j ∧
      getFilePath (getUniqJobRunID j.ID true j.StartedAt) = f := by
  cases hread : d.read f with
  | none => exact absurd hf ((Dir.read_eq_none_iff d f).1 hread)
  | some content =>
    obtain ⟨j, hdec, hname⟩ := decode_of_matches js d hinv f content hread hp
    exact ⟨j, (readEntryFile_ok js fl d f j).2 ⟨ho, hr, content, hread, hdec⟩, hname⟩

/-- The loop of `GetFinishedJobs` over finished files whose entries match and
that can be opened and read succeeds, and the ids it adds are the stems of the
files, in order. -/
theorem readFinished_of_matches (js : JobRunJSON) (fl : Faults) (d : Dir)
    (hinv : ∀ e ∈ d, entryMatches js e = true) (files : List String)
    (hfiles : ∀ f ∈ files, (f ∈ d.names ∧ filepathMatch finishedJobsPattern f = true) ∧
      fl.openRead f = none ∧ fl.decodeRead f = none)
    (ids : List String) (jobs : List JobRun) :
    ∃ found : List JobRun,
      readFinished js fl d files ids jobs =
        .ok (ids ++ found.map (fun j => getUniqJobRunID j.ID true j.StartedAt), jobs ++ found) ∧
      found.map (fun j => getFilePath (getUniqJobRunID j.ID true j.StartedAt)) = files := by
  induction files generalizing ids jobs with
  | nil => exact ⟨[], by simp [readFinished], rfl⟩
  | cons f rest ih =>
    have hf := hfiles f (List.mem_cons_self _ _)
    obtain ⟨j, hj, hname⟩ := readEntryFile_of_matches js fl d hinv f hf.1.1 hf.1.2 hf.2.1 hf.2.2
    obtain ⟨found, hrest, hnames⟩ := ih (fun g hg => hfiles g (List.mem_cons_of_mem _ hg))
      (ids ++ [getUniqJobRunID j.ID true j.StartedAt]) (jobs ++ [j])
    refine ⟨j :: found, ?_, ?_⟩
    · unfold readFinished
      rw [hj]
      simp only [hrest, List.map_cons, List.append_assoc, List.singleton_append]
    · rw [List.map_cons, hname, hnames]

/-- The ids of runs read back from finished files whose entries match are the
stems of the files, in order. -/
theorem stems_of_forall₂ (js : JobRunJSON) (fl : Faults) (d : Dir)
    (hinv : ∀ e ∈ d, entryMatches js e = true) (files : List String) (jobs : List JobRun)
    (hfiles : ∀ f ∈ files, filepathMatch finishedJobsPattern f = true)
    (hall : List.Forall₂ (fun f j => fl.openRead f = none ∧ fl.decodeRead f = none ∧
      ∃ content, d.read f = some content ∧ js.decode content = .ok j) files jobs) :
    jobs.map (fun j => getFilePath (getUniqJobRunID j.ID true j.StartedAt)) = files := by
  induction hall with
  | nil => rfl
  | @cons f j files' jobs' hj _ ih =>
    obtain ⟨-, -, content, hread, hdec⟩ := hj
    obtain ⟨j', hdec', hname⟩ := decode_of_matches js d hinv f content hread
      (hfiles f (List.mem_cons_self _ _))
    rw [hdec] at hdec'
    simp only [Except.ok.injEq] at hdec'
    subst hdec'
    rw [List.map_cons, hname, ih (fun g hg => hfiles g (List.mem_cons_of_mem _ hg))]

/-- After a successful removal of the finished files none is left. -/
theorem finishedEntries_removeFiles (fl : Faults) (d : Dir)
    (hok : (removeFiles fl d (finishedEntries d)).2 = none) :
    finishedEntries (removeFiles fl d (finishedEntries d)).1 = [] := by
  rw [finishedEntries, globNames_eq_nil_iff]
  intro name hname
  rw [Bool.eq_false_iff]
  intro hm
  have hmem : name ∈ finishedEntries d :=
    (mem_globNames _ _ _).2 ⟨(removeFiles_names_sublist fl d _).subset hname, hm⟩
  have hnone := removeFiles_read_of_mem fl d _ name hok hmem
  exact (Dir.read_eq_none_iff _ _).1 hnone hname

/-! ## The toy codec -/

theorem takeWhile_dropWhile_append (p : Char → Bool) (a b : List Char) (x : Char)
    (ha : ∀ c ∈ a, p c = true) (hx : p x = false) :
    (a ++ x :: b).takeWhile p = a ∧ (a ++ x :: b).dropWhile p = x :: b := by
  induction a with
  | nil => simp [List.takeWhile, List.dropWhile, hx]
  | cons c a ih =>
    have hc := ha c (List.mem_cons_self _ _)
    have ih' := ih (fun c' hc' => ha c' (List.mem_cons_of_mem _ hc'))
    simp [List.takeWhile, List.dropWhile, hc, ih'.1, ih'.2]

theorem parseInt_formatInt (n : Int) : parseInt (formatInt n).data = n := by
  cases n with
  | ofNat m =>
    have hp := parseDigits_natRepr m
    have hmem := mem_natRepr
    show parseInt (Nat.repr m).data = _
    cases hd : (Nat.repr m).data with
    | nil => exact absurd hd (natRepr_ne_nil m)
    | cons c cs =>
      have hc : c ≠ '-' := by
        intro hc
        have h1 : c ∈ (Nat.repr m).data := by rw [hd]; exact List.mem_cons_self _ _
        have h2 := mem_natRepr c m h1
        rw [hc] at h2
        exact absurd h2 (by decide)
      rw [hd] at hp
      simp only [parseInt, hc, if_false, hp]
      rfl
  | negSucc m =>
    have hp := parseDigits_natRepr (m + 1)
    simp only [formatInt, String.data_append]
    show parseInt ('-' :: (Nat.repr (m + 1)).data) = _
    simp only [parseInt, if_true, hp]
    rfl

theorem sampleEncode_data (r : JobRun) :
    (sampleEncode r).data = hexChars r.ID ++ '@' :: ((formatInt r.StartedAt).data ++
      '!' :: (("!".intercalate r.Errors).data ++ '#' :: r.Result.data)) := by
  simp [sampleEncode, encodeJobID, hexEncodeToString, String.data_append]

/-- The toy codec gives back the ID and the start second of every run. -/
theorem parsingJSON_decode_encode (r : JobRun) : parsingJSON.keeps r := by
  have h1 := takeWhile_dropWhile_append (fun c => c != '@') (hexChars r.ID)
    ((formatInt r.StartedAt).data ++
      '!' :: (("!".intercalate r.Errors).data ++ '#' :: r.Result.data)) '@'
    (by
      intro c hc
      have key : ∀ x ∈ hextable, (x != '@') = true := by decide
      exact key c (mem_hexChars c r.ID hc))
    (by decide)
  have h2 := takeWhile_dropWhile_append (fun c => c != '!') (formatInt r.StartedAt).data
    (("!".intercalate r.Errors).data ++ '#' :: r.Result.data) '!'
    (by
      intro c hc
      have key : ∀ x ∈ ['-', '0', '1', '2', '3', '4', '5', '6', '7', '8', '9'],
          (x != '!') = true := by decide
      exact key c (mem_formatInt c r.StartedAt hc))
    (by decide)
  refine ⟨⟨r.ID, r.StartedAt, [],
    String.mk (("!".intercalate r.Errors).data ++ '#' :: r.Result.data)⟩, ?_, rfl, rfl⟩
  show sampleDecode (sampleEncode r) = _
  unfold sampleDecode
  simp only [sampleEncode_data, h1.1, h1.2, List.drop_succ_cons, List.drop_zero, h2.1, h2.2,
    hexDecodeChars_hexChars, parseInt_formatInt]


/-- C26 fails in a spool reached through a write that did not complete: after
`NewJob` for "dup-check" started at 1000 and a `FinishJob` of that uniqID with a
run started at 1060, in which the rename succeeded and the file could then not
be opened for writing, the entry `1_1060_6475702d636865636b.json` holds the
payload of the run started at 1000.  `GetFinishedJobs` returns the id
`1_1000_6475702d636865636b`, `RemoveJobs` on it succeeds and deletes nothing,
and the finished entry is still listed afterwards. -/
theorem finished_ids_counterexample :
    Reachable parsingJSON mismatchedDir ∧
    mismatchedDir = [("1_1060_6475702d636865636b.json", sampleEncode sampleRun)] ∧
    (FinishJob parsingJSON readOnlyFaults (NewJob parsingJSON noFaults [] sampleRun false).dir
      "0_1000_6475702d636865636b" sampleRerun).2 ≠ none ∧
    entryMatches parsingJSON ("1_1060_6475702d636865636b.json", sampleEncode sampleRun) = false ∧
    (GetFinishedJobs parsingJSON noFaults mismatchedDir).toOption.map Prod.fst =
      some ["1_1000_6475702d636865636b"] ∧
    RemoveJobs noFaults mismatchedDir ["1_1000_6475702d636865636b"] = (mismatchedDir, none) ∧
    finishedEntries (RemoveJobs noFaults mismatchedDir ["1_1000_6475702d636865636b"]).1 =
      ["1_1060_6475702d636865636b.json"] ∧
    (GetFinishedJobs parsingJSON noFaults
      (RemoveJobs noFaults mismatchedDir ["1_1000_6475702d636865636b"]).1).toOption.map
        Prod.fst = some ["1_1000_6475702d636865636b"] := by
  refine ⟨?_, by decide, by decide, by decide, by decide, by decide, by decide, by decide⟩
  exact Reachable.finishJob _ _ _ _ (Reachable.newJob _ _ _ _ Reachable.empty)

/-- C26, amended: in every spool state reached from the empty spool through
`NewJob`, `FinishJob` and `RemoveJobs` calls whose writes complete and whose
saved runs decode back to a run of the same `ID` and `StartedAt`, the payload
of every entry decodes and the name of the entry is the file of
`getUniqJobRunID` of the decoded `ID` and `StartedAt` with the marker of the
name.  Hence `GetFinishedJobs`, which succeeds when its glob succeeds and each
finished file can be opened and read, returns ids that are the stems of the
finished files in order; a successful `RemoveJobs` on these ids leaves no
finished entry, and a following `GetFinishedJobs` returns empty sequences. -/
theorem finished_ids_are_stems (js : JobRunJSON) (d : Dir) (hd : ReachableSaving js d) :
    (∀ e ∈ d, entryMatches js e = true) ∧
    (∀ fl : Faults, fl.glob = none →
      (∀ f ∈ finishedEntries d, fl.openRead f = none ∧ fl.decodeRead f = none) →
      ∃ ids jobs, GetFinishedJobs js fl d = .ok (ids, jobs) ∧
        ids.map getFilePath = finishedEntries d) ∧
    (∀ (fl : Faults) (ids : List String) (jobs : List JobRun),
      GetFinishedJobs js fl d = .ok (ids, jobs) →
        ids.map getFilePath = finishedEntries d ∧
        ∀ fl' : Faults, (RemoveJobs fl' d ids).2 = none →
          finishedEntries (RemoveJobs fl' d ids).1 = [] ∧
          ∀ fl'' : Faults, fl''.glob = none →
            GetFinishedJobs js fl'' (RemoveJobs fl' d ids).1 = .ok ([], [])) := by
  have hinv := ReachableSaving.entriesMatch js d hd
  refine ⟨hinv, ?_, ?_⟩
  · intro fl hg hopen
    obtain ⟨found, hread, hnames⟩ := readFinished_of_matches js fl d hinv (finishedEntries d)
      (fun f hf => ⟨(mem_globNames _ _ _).1 hf, hopen f hf⟩) [] []
    rw [finishedEntries] at hread
    refine ⟨[] ++ found.map (fun j => getUniqJobRunID j.ID true j.StartedAt), [] ++ found, ?_, ?_⟩
    · unfold GetFinishedJobs
      rw [hg]
      exact hread
    · rw [List.nil_append, List.map_map]
      exact hnames
  · intro fl ids jobs hget
    obtain ⟨-, hall, hidsEq⟩ := (GetFinishedJobs_ok js fl d ids jobs).1 hget
    have hids : ids.map getFilePath = finishedEntries d := by
      rw [hidsEq, List.map_map]
      exact stems_of_forall₂ js fl d hinv (finishedEntries d) jobs
        (fun f hf => ((mem_globNames _ _ _).1 hf).2) hall
    refine ⟨hids, ?_⟩
    intro fl' hok
    unfold RemoveJobs at hok ⊢
    rw [hids] at hok ⊢
    have hempty := finishedEntries_removeFiles fl' d hok
    refine ⟨hempty, ?_⟩
    intro fl'' hg''
    unfold GetFinishedJobs
    rw [hg'']
    rw [finishedEntries] at hempty
    simp only [hempty, readFinished]

/-- C26, amended, on the sample data: in the spool in which "db-ping" was
created and finished the one entry matches its payload, and `GetFinishedJobs`
returns the stem of its file. -/
theorem finished_ids_are_stems_witness :
    finishedEntries pingDoneDir = ["1_1000_64622d70696e67.json"] ∧
    (∀ e ∈ pingDoneDir, entryMatches parsingJSON e = true) ∧
    (∃ ids jobs, GetFinishedJobs parsingJSON noFaults pingDoneDir = .ok (ids, jobs) ∧
      ids.map getFilePath = finishedEntries pingDoneDir) :=
  ⟨by decide,
    (finished_ids_are_stems parsingJSON pingDoneDir
      (ReachableSaving.finishJob noFaults _ _ _ ⟨rfl, fun _ => rfl, rfl⟩
        (parsingJSON_decode_encode _)
        (ReachableSaving.newJob noFaults [] dbPingRun false ⟨rfl, fun _ => rfl, rfl⟩
          (parsingJSON_decode_encode _) ReachableSaving.empty))).1,
    (finished_ids_are_stems parsingJSON pingDoneDir
      (ReachableSaving.finishJob noFaults _ _ _ ⟨rfl, fun _ => rfl, rfl⟩
        (parsingJSON_decode_encode _)
        (ReachableSaving.newJob noFaults [] dbPingRun false ⟨rfl, fun _ => rfl, rfl⟩
          (parsingJSON_decode_encode _) ReachableSaving.empty))).2.1 noFaults rfl
      (fun _ _ => ⟨rfl, rfl⟩)⟩

end Jobmon
